import Mathlib

/-!
# cluster-network-policy-operator: the reconciliation engine and the namespace filter

A shallow embedding of `internal/controller/filters.go` and
`internal/controller/clusternetworkpolicy_controller.go`, followed by the
properties of the specification that were checked against it.

Go strings are embedded as Lean strings, Go maps as association lists (the
label map of a namespace also keeps whether it is nil), and the Kubernetes API
server as an in-memory store with explicit fault injection.
-/

namespace Controller

/-! ## filters.go -/

/-- The Go struct `Filters`: three pattern lists and the private `flagSet` bit. -/
structure Filters where
  Exact : List String := []
  Prefix : List String := []
  Suffix : List String := []
  flagSet : Bool := false
deriving DecidableEq, Repr

/-- Go: `func (f *Filters) IsEmpty() bool`. -/
def Filters.IsEmpty (f : Filters) : Bool :=
  f.Exact.length == 0 && f.Prefix.length == 0 && f.Suffix.length == 0

/-- Go: `strings.HasPrefix(s, pre)`: `s` begins with `pre`. -/
def HasPrefix (s pre : String) : Bool := pre.data.isPrefixOf s.data

/-- Go: `strings.HasSuffix(s, suf)`: `s` ends with `suf`. -/
def HasSuffix (s suf : String) : Bool := suf.data.isSuffixOf s.data

/-- Go: `func EvaluateFilters(excluded Filters, included Filters, value string) bool`.
Each `for ... { if c { return b } }` loop is an `any` followed by the early return. -/
def EvaluateFilters (excluded included : Filters) (value : String) : Bool :=
  if excluded.Exact.any (fun filter => value == filter) then false
  else if included.Exact.any (fun f => value == f) then true
  else if excluded.Prefix.any (fun f => HasPrefix value f) then false
  else if excluded.Suffix.any (fun f => HasSuffix value f) then false
  else if included.Prefix.any (fun f => HasPrefix value f) then true
  else if included.Suffix.any (fun f => HasSuffix value f) then true
  else included.IsEmpty

/-! ### The filter algorithm as the specification words it -/

/-- The specification's "name starts with pattern". -/
def StartsWith (name pat : String) : Prop := ∃ rest : String, name = pat ++ rest

/-- The specification's "name ends with pattern". -/
def EndsWith (name pat : String) : Prop := ∃ rest : String, name = rest ++ pat

/-- The seven-step, first-match-wins procedure of the specification, as a
relation between the inputs and the verdict: each step applies only when no
earlier step did. -/
inductive InScopeSpec (excluded included : Filters) (name : String) : Bool → Prop
  | step1 : name ∈ excluded.Exact → InScopeSpec excluded included name false
  | step2 : name ∉ excluded.Exact → name ∈ included.Exact →
      InScopeSpec excluded included name true
  | step3 : name ∉ excluded.Exact → name ∉ included.Exact →
      (∃ p ∈ excluded.Prefix, StartsWith name p) →
      InScopeSpec excluded included name false
  | step4 : name ∉ excluded.Exact → name ∉ included.Exact →
      (¬ ∃ p ∈ excluded.Prefix, StartsWith name p) →
      (∃ p ∈ excluded.Suffix, EndsWith name p) →
      InScopeSpec excluded included name false
  | step5 : name ∉ excluded.Exact → name ∉ included.Exact →
      (¬ ∃ p ∈ excluded.Prefix, StartsWith name p) →
      (¬ ∃ p ∈ excluded.Suffix, EndsWith name p) →
      (∃ p ∈ included.Prefix, StartsWith name p) →
      InScopeSpec excluded included name true
  | step6 : name ∉ excluded.Exact → name ∉ included.Exact →
      (¬ ∃ p ∈ excluded.Prefix, StartsWith name p) →
      (¬ ∃ p ∈ excluded.Suffix, EndsWith name p) →
      (¬ ∃ p ∈ included.Prefix, StartsWith name p) →
      (∃ p ∈ included.Suffix, EndsWith name p) →
      InScopeSpec excluded included name true
  | step7 (b : Bool) : name ∉ excluded.Exact → name ∉ included.Exact →
      (¬ ∃ p ∈ excluded.Prefix, StartsWith name p) →
      (¬ ∃ p ∈ excluded.Suffix, EndsWith name p) →
      (¬ ∃ p ∈ included.Prefix, StartsWith name p) →
      (¬ ∃ p ∈ included.Suffix, EndsWith name p) →
      (b = true ↔ (included.Exact = [] ∧ included.Prefix = [] ∧ included.Suffix = [])) →
      InScopeSpec excluded included name b

/-! ## Kubernetes objects (k8s.io/api, k8s.io/apimachinery)

Only the fields the controller reads or writes are kept. Go maps
(`map[string]string`) are association lists; the label map of a namespace,
the one map the controller compares with `reflect.DeepEqual`, also tells the
nil map from the empty one. The rule payload of a NetworkPolicy is never
inspected by the controller and is kept as one value. -/

/-- Go: `map[string]string`. -/
abbrev StringMap := List (String × String)

/-- Go map indexing `m[k]`: the stored value, or the zero value `""`. -/
def mapIndex (m : StringMap) (k : String) : String := (m.lookup k).getD ""

/-- Go: a value of type `map[string]string` with its identity as
`reflect.DeepEqual` sees it: the nil map, or a table. A table is written as a
list of entries, in any order; for a key it holds the value of the first
entry with that key. -/
inductive LabelMap where
  | nil
  | table (entries : StringMap)
deriving DecidableEq, Repr

/-- Go: `m == nil`. -/
def LabelMap.IsNil : LabelMap → Bool
  | .nil => true
  | .table _ => false

/-- Go: `v, ok := m[k]`; reading the nil map finds nothing. -/
def LabelMap.lookup : LabelMap → String → Option String
  | .nil, _ => none
  | .table entries, k => entries.lookup k

/-- The keys of the map, each once. -/
def LabelMap.keys : LabelMap → List String
  | .nil => []
  | .table entries => (entries.map Prod.fst).dedup

/-- Go: `len(m)`, the number of keys. -/
def LabelMap.len (m : LabelMap) : Nat := m.keys.length

/-- Go: `metav1.OwnerReference`; `Controller` is a `*bool`. -/
structure OwnerReference where
  APIVersion : String
  Kind : String
  Name : String
  UID : String
  Controller : Option Bool := none
  BlockOwnerDeletion : Option Bool := none
deriving DecidableEq, Repr

/-- Go: `k8snetworkingv1.NetworkPolicySpec`, copied verbatim and never read. -/
structure NetworkPolicySpec where
  payload : String
deriving DecidableEq, Repr

/-- Go: `k8snetworkingv1.NetworkPolicy` (object meta and spec). -/
structure NetworkPolicy where
  Name : String
  Namespace : String
  UID : String := ""
  Labels : StringMap := []
  Annotations : StringMap := []
  OwnerReferences : List OwnerReference := []
  Spec : NetworkPolicySpec := ⟨""⟩
deriving DecidableEq, Repr

/-- Go: `metav1.LabelSelectorRequirement`. -/
structure LabelSelectorRequirement where
  Key : String
  Operator : String
  Values : List String := []
deriving DecidableEq, Repr

/-- Go: `metav1.LabelSelector`. -/
structure LabelSelector where
  MatchLabels : StringMap := []
  MatchExpressions : List LabelSelectorRequirement := []
deriving DecidableEq, Repr

/-- Go: `networkingv1.ClusterNetworkPolicySpec` (api/v1). -/
structure ClusterNetworkPolicySpec where
  Labels : StringMap := []
  Annotations : StringMap := []
  NamespaceSelector : LabelSelector := {}
  NetworkPolicySpec : NetworkPolicySpec := ⟨""⟩
deriving DecidableEq, Repr

/-- Go: `networkingv1.ClusterNetworkPolicy` (api/v1). The resource is
cluster-scoped (`+kubebuilder:resource:scope=Cluster`), so it has no namespace. -/
structure ClusterNetworkPolicy where
  Name : String
  UID : String
  Annotations : StringMap := []
  Spec : ClusterNetworkPolicySpec := {}
deriving DecidableEq, Repr

/-- Go: `ConflictAnnotation` (api/v1). -/
def ConflictAnnotation : String := "networking.desuuuu.com/conflict-policy"

/-- Go: `ConflictReplace` (api/v1). -/
def ConflictReplace : String := "replace"

/-- Go: `corev1.Namespace`; `Phase` is `Status.Phase`, a string type. -/
structure Namespace where
  Name : String
  Labels : LabelMap := .nil
  Phase : String := "Active"
deriving DecidableEq, Repr

/-- Go: `corev1.NamespaceActive`. -/
def NamespaceActive : String := "Active"

/-- Go: `corev1.EventTypeNormal`. -/
def EventTypeNormal : String := "Normal"

/-- Go: `corev1.EventTypeWarning`. -/
def EventTypeWarning : String := "Warning"

/-- One call of `record.EventRecorder.Event(object, eventtype, reason, message)`;
`object` is the name of the ClusterNetworkPolicy the event is recorded on. -/
structure Event where
  object : String
  eventtype : String
  reason : String
  message : String
deriving DecidableEq, Repr

/-! ### Label selectors (k8s.io/apimachinery/pkg/labels) -/

/-- Go: `selection.Operator`, the operators `LabelSelectorAsSelector` produces. -/
inductive SelOp where
  | Equals | In | NotIn | Exists | DoesNotExist
deriving DecidableEq, Repr

/-- Go: `labels.Requirement`. -/
structure Requirement where
  key : String
  operator : SelOp
  strValues : List String
deriving DecidableEq, Repr

/-- Go: `labels.Selector`: `labels.Nothing()` or a list of requirements
(`labels.Everything()` is the empty list). -/
inductive Selector where
  | nothing
  | internal (reqs : List Requirement)
deriving DecidableEq, Repr

/-! ### Syntax of label keys and values (k8s.io/apimachinery/pkg/util/validation)

The validators return a list of messages in Go; here they return `true` when
that list is empty. `len` counts bytes. -/

/-- Go: `len(s)`, the number of bytes of the UTF-8 encoding. -/
def len (s : List Char) : Nat := (s.map Char.utf8Size).sum

/-- The character class `[A-Za-z0-9]` (`qnameCharFmt`). -/
def qnameChar (c : Char) : Bool :=
  ('A'.toNat ≤ c.toNat && c.toNat ≤ 'Z'.toNat) || ('a'.toNat ≤ c.toNat && c.toNat ≤ 'z'.toNat) ||
    ('0'.toNat ≤ c.toNat && c.toNat ≤ '9'.toNat)

/-- The character class `[-A-Za-z0-9_.]` (`qnameExtCharFmt`). -/
def qnameExtChar (c : Char) : Bool :=
  c = '-' || qnameChar c || c = '_' || c = '.'

/-- Go: `qualifiedNameRegexp.MatchString`, the expression
`^([A-Za-z0-9][-A-Za-z0-9_.]*)?[A-Za-z0-9]$`: a last character of the first
class, preceded by nothing or by a character of the first class followed by
characters of the second. -/
def qualifiedNameRegexp (s : List Char) : Bool :=
  match s.getLast? with
  | none => false
  | some last =>
    qnameChar last &&
      (match s.dropLast with
       | [] => true
       | first :: mid => qnameChar first && mid.all qnameExtChar)

/-- Go: `labelValueRegexp.MatchString`, the expression
`^(([A-Za-z0-9][-A-Za-z0-9_.]*)?[A-Za-z0-9])?$`. -/
def labelValueRegexp (s : List Char) : Bool :=
  s.isEmpty || qualifiedNameRegexp s

/-- The character class `[a-z0-9]`. -/
def dns1123Char (c : Char) : Bool :=
  ('a'.toNat ≤ c.toNat && c.toNat ≤ 'z'.toNat) || ('0'.toNat ≤ c.toNat && c.toNat ≤ '9'.toNat)

/-- The expression `[a-z0-9]([-a-z0-9]*[a-z0-9])?` (`dns1123LabelFmt`) on a
whole string. -/
def dns1123Label (s : List Char) : Bool :=
  match s with
  | [] => false
  | first :: rest =>
    dns1123Char first &&
      (match rest.getLast? with
       | none => true
       | some last => rest.dropLast.all (fun c => c = '-' || dns1123Char c) && dns1123Char last)

/-- Go: `dns1123SubdomainRegexp.MatchString`: labels separated by dots, the
expression `^label(\.label)*$`; no label holds a dot. -/
def dns1123SubdomainRegexp (s : List Char) : Bool :=
  (s.splitOn '.').all dns1123Label

/-- Go: `validation.IsDNS1123Subdomain(value)` returns no message. -/
def IsDNS1123Subdomain (value : List Char) : Bool :=
  !(decide (len value > 253)) && dns1123SubdomainRegexp value

/-- Go: `validation.IsQualifiedName(value)` returns no message: an optional
DNS subdomain before a `/`, then a name of at most 63 bytes. -/
def IsQualifiedName (value : String) : Bool :=
  let nameOk := fun (name : List Char) =>
    !(decide (len name = 0)) && !(decide (len name > 63)) && qualifiedNameRegexp name
  match value.data.splitOn '/' with
  | [name] => nameOk name
  | [pre, name] => (!(decide (len pre = 0)) && IsDNS1123Subdomain pre) && nameOk name
  | _ => false

/-- Go: `validation.IsValidLabelValue(value)` returns no message. -/
def IsValidLabelValue (value : String) : Bool :=
  !(decide (len value.data > 63)) && labelValueRegexp value.data

/-- Go: `validateLabelKey(k, path)` returns nil. -/
def validateLabelKey (k : String) : Bool := IsQualifiedName k

/-- Go: `validateLabelValue(k, v, path)` returns nil. -/
def validateLabelValue (_k v : String) : Bool := IsValidLabelValue v

/-- Go: `labels.NewRequirement(key, op, vals)`: the key is checked, then the
number of values for the operator, then every value; the requirement is
returned when no check failed, `none` stands for the aggregate error. -/
def NewRequirement (key : String) (op : SelOp) (vals : List String) : Option Requirement :=
  let keyOk := validateLabelKey key
  let countOk :=
    match op with
    | .In | .NotIn => !(decide (vals.length = 0))
    | .Equals => !(decide (vals.length ≠ 1))
    | .Exists | .DoesNotExist => !(decide (vals.length ≠ 0))
  let valsOk := vals.all (fun v => validateLabelValue key v)
  if keyOk && countOk && valsOk then some ⟨key, op, vals⟩ else none

/-- The operator switch of `metav1.LabelSelectorAsSelector`. -/
def parseOperator (s : String) : Option SelOp :=
  if s = "In" then some .In
  else if s = "NotIn" then some .NotIn
  else if s = "Exists" then some .Exists
  else if s = "DoesNotExist" then some .DoesNotExist
  else none

/-- Go: `metav1.LabelSelectorAsSelector(&ps)`; `none` is the error return. -/
def LabelSelectorAsSelector (ps : LabelSelector) : Option Selector :=
  if ps.MatchLabels.length + ps.MatchExpressions.length = 0 then some (.internal [])
  else
    match ps.MatchLabels.mapM (fun kv => NewRequirement kv.1 .Equals [kv.2]),
          ps.MatchExpressions.mapM (fun e =>
            (parseOperator e.Operator).bind (fun op => NewRequirement e.Key op e.Values)) with
    | some r1, some r2 => some (.internal (r1 ++ r2))
    | _, _ => none

/-- Go: `(*Requirement).Matches(ls)` over a label set. -/
def Requirement.Matches (r : Requirement) (ls : LabelMap) : Bool :=
  match r.operator with
  | .In | .Equals =>
    match ls.lookup r.key with
    | none => false
    | some v => r.strValues.contains v
  | .NotIn =>
    match ls.lookup r.key with
    | none => true
    | some v => !r.strValues.contains v
  | .Exists => (ls.lookup r.key).isSome
  | .DoesNotExist => !(ls.lookup r.key).isSome

/-- Go: `selector.Matches(labels.Set(ls))`. -/
def Selector.Matches (s : Selector) (ls : LabelMap) : Bool :=
  match s with
  | .nothing => false
  | .internal reqs => reqs.all (fun r => r.Matches ls)

/-! ### Owner references (apimachinery `metav1`, controller-runtime `controllerutil`) -/

/-- Go: `metav1.GetControllerOfNoCopy`: the first owner reference whose
`Controller` pointer is set and true. -/
def GetControllerOf (refs : List OwnerReference) : Option OwnerReference :=
  refs.find? (fun r => r.Controller = some true)

/-- Go: `metav1.IsControlledBy(&networkPolicy, &clusterNetworkPolicy)`. -/
def IsControlledBy (obj : NetworkPolicy) (owner : ClusterNetworkPolicy) : Bool :=
  match GetControllerOf obj.OwnerReferences with
  | none => false
  | some ref => ref.UID = owner.UID

/-- Go: `schema.ParseGroupVersion(apiVersion)`, group part: no slash means the
core group, one slash splits group and version, more is an error (`none`). -/
def parseGroup (apiVersion : String) : Option String :=
  match apiVersion.data.splitOn '/' with
  | [_] => some ""
  | [g, _] => some ⟨g⟩
  | _ => none

/-- Go: `referSameObject(a, b)` of controllerutil: same group, kind and name. -/
def referSameObject (a b : OwnerReference) : Bool :=
  match parseGroup a.APIVersion, parseGroup b.APIVersion with
  | some ga, some gb => ga = gb ∧ a.Kind = b.Kind ∧ a.Name = b.Name
  | _, _ => false

/-- Go: `upsertOwnerRef(ref, object)`: replace the first reference to the same
object, or append. -/
def upsertOwnerRef (ref : OwnerReference) : List OwnerReference → List OwnerReference
  | [] => [ref]
  | r :: rs => if referSameObject r ref then ref :: rs else r :: upsertOwnerRef ref rs

/-- The group/version and kind under which the scheme registers
ClusterNetworkPolicy (`groups=networking.desuuuu.com`, package `api/v1`). -/
def policyAPIVersion : String := "networking.desuuuu.com/v1"

/-- The kind of the policy resource. -/
def policyKind : String := "ClusterNetworkPolicy"

/-- The controller reference `SetControllerReference` builds for an owner. -/
def controllerRef (owner : ClusterNetworkPolicy) : OwnerReference :=
  { APIVersion := policyAPIVersion, Kind := policyKind, Name := owner.Name,
    UID := owner.UID, Controller := some true, BlockOwnerDeletion := some true }

/-- What a call inside `CreateOrPatch` can fail with. -/
inductive ApiError where
  | NotFound
  | AlreadyExists
  | Other (msg : String)
deriving DecidableEq, Repr

/-- The errors `controllerutil.CreateOrPatch` returns to the reconciler. -/
inductive OpError where
  /-- An error of the API call (get, create or patch). -/
  | api (e : ApiError)
  /-- Go: `errors.New("conflicting NetworkPolicy detected")`. -/
  | conflict
  /-- Go: `controllerutil.AlreadyOwnedError`. -/
  | alreadyOwned (existing : OwnerReference)
  /-- Go: "MutateFn cannot mutate object name and/or object namespace". -/
  | mutatedKey
deriving DecidableEq, Repr

/-- Go: `ctrl.SetControllerReference(&clusterNetworkPolicy, &networkPolicy, r.Scheme)`.
`validateOwner` cannot fail for a cluster-scoped owner; `validateControllerRef`
refuses an object already controlled by something else. -/
def SetControllerReference (owner : ClusterNetworkPolicy) (controlled : NetworkPolicy) :
    Except OpError NetworkPolicy :=
  let ref := controllerRef owner
  match GetControllerOf controlled.OwnerReferences with
  | some existing =>
    if referSameObject existing ref then
      .ok { controlled with OwnerReferences := upsertOwnerRef ref controlled.OwnerReferences }
    else .error (.alreadyOwned existing)
  | none =>
    .ok { controlled with OwnerReferences := upsertOwnerRef ref controlled.OwnerReferences }

/-! ## The API server as seen through `client.Client`

The cluster is an in-memory store. Every call can be made to fail: `Faults`
gives, per call and per namespace, the error the call returns instead of
being served from the store. Mutating calls are logged in `calls`. -/

/-- A mutating API call issued by the reconciler, with the key it was issued for. -/
inductive Call where
  | create (ns name : String)
  | patch (ns name : String)
  | delete (ns name : String)
deriving DecidableEq, Repr

/-- Injected failures of the API calls; `none` means the call is served. -/
structure Faults where
  getPolicy : Option ApiError := none
  listPolicies : Option ApiError := none
  listNamespaces : Option ApiError := none
  get : String → Option ApiError := fun _ => none
  create : String → Option ApiError := fun _ => none
  patch : String → Option ApiError := fun _ => none
  delete : String → Option ApiError := fun _ => none

/-- The state the reconciler works on: the objects of the cluster, the events
recorded so far, the mutating calls issued so far, and the behaviour of the
API (injected faults, the UID the server gives a created object). -/
structure World where
  clusterNetworkPolicies : List ClusterNetworkPolicy := []
  namespaces : List Namespace := []
  networkPolicies : List NetworkPolicy := []
  events : List Event := []
  calls : List Call := []
  faults : Faults := {}
  newUID : String → String → String := fun ns name => "uid-" ++ ns ++ "-" ++ name

/-- Go: `apierrors.IsNotFound(err)`; `none` is the nil error. -/
def IsNotFound (err : Option ApiError) : Bool :=
  match err with
  | some .NotFound => true
  | _ => false

/-- Whether a stored NetworkPolicy has the given key. -/
def NetworkPolicy.hasKey (np : NetworkPolicy) (ns name : String) : Bool :=
  np.Namespace = ns ∧ np.Name = name

/-- The stored NetworkPolicy under a key, if any. -/
def lookupNP (store : List NetworkPolicy) (ns name : String) : Option NetworkPolicy :=
  store.find? (fun np => np.hasKey ns name)

/-- Go: `r.Recorder.Event(&clusterNetworkPolicy, eventtype, reason, message)`. -/
def World.Event (w : World) (object : ClusterNetworkPolicy) (eventtype reason message : String) :
    World :=
  { w with events := w.events ++ [⟨object.Name, eventtype, reason, message⟩] }

/-- Go: `r.Get(ctx, req.NamespacedName, &clusterNetworkPolicy)`. -/
def World.GetPolicy (w : World) (name : String) : Except ApiError ClusterNetworkPolicy :=
  match w.faults.getPolicy with
  | some e => .error e
  | none =>
    match w.clusterNetworkPolicies.find? (fun p => p.Name = name) with
    | some p => .ok p
    | none => .error .NotFound

/-- Go: `r.List(ctx, &namespaceList)`. -/
def World.ListNamespaces (w : World) : Except ApiError (List Namespace) :=
  match w.faults.listNamespaces with
  | some e => .error e
  | none => .ok w.namespaces

/-- Go: `c.Get(ctx, key, obj)` for a NetworkPolicy. -/
def World.Get (w : World) (ns name : String) : Except ApiError NetworkPolicy :=
  match w.faults.get ns with
  | some e => .error e
  | none =>
    match lookupNP w.networkPolicies ns name with
    | some np => .ok np
    | none => .error .NotFound

/-- Go: `c.Create(ctx, obj)`: the server stores the object under a fresh UID,
or refuses a key that is taken. The result is the error (`none` = nil). -/
def World.Create (w : World) (obj : NetworkPolicy) : World × Option ApiError :=
  let w1 := { w with calls := w.calls ++ [Call.create obj.Namespace obj.Name] }
  match w.faults.create obj.Namespace with
  | some e => (w1, some e)
  | none =>
    match lookupNP w.networkPolicies obj.Namespace obj.Name with
    | some _ => (w1, some .AlreadyExists)
    | none =>
      ({ w1 with networkPolicies :=
          w.networkPolicies ++ [{ obj with UID := w.newUID obj.Namespace obj.Name }] }, none)

/-- Go: `c.Patch(ctx, obj, client.MergeFrom(before))`: the stored object under
the key of `obj` takes the content of `obj`. -/
def World.Patch (w : World) (obj : NetworkPolicy) : World × Option ApiError :=
  let w1 := { w with calls := w.calls ++ [Call.patch obj.Namespace obj.Name] }
  match w.faults.patch obj.Namespace with
  | some e => (w1, some e)
  | none =>
    match lookupNP w.networkPolicies obj.Namespace obj.Name with
    | none => (w1, some .NotFound)
    | some _ =>
      ({ w1 with networkPolicies :=
          w.networkPolicies.map (fun x => if x.hasKey obj.Namespace obj.Name then obj else x) },
        none)

/-- Go: `r.Delete(ctx, &networkPolicy, client.PropagationPolicy(...))`. -/
def World.Delete (w : World) (obj : NetworkPolicy) : World × Option ApiError :=
  let w1 := { w with calls := w.calls ++ [Call.delete obj.Namespace obj.Name] }
  match w.faults.delete obj.Namespace with
  | some e => (w1, some e)
  | none =>
    match lookupNP w.networkPolicies obj.Namespace obj.Name with
    | none => (w1, some .NotFound)
    | some _ =>
      ({ w1 with networkPolicies :=
          w.networkPolicies.filter (fun x => !x.hasKey obj.Namespace obj.Name) }, none)

/-! ### controllerutil.CreateOrPatch -/

/-- Go: `controllerutil.OperationResult`. -/
inductive OperationResult where
  | None | Created | Updated
deriving DecidableEq, Repr

/-- Go: `mutate(f, key, obj)` of controllerutil: run the mutate function and
refuse a changed key. -/
def mutate (f : World → NetworkPolicy → World × Except OpError NetworkPolicy)
    (ns name : String) (w : World) (obj : NetworkPolicy) :
    World × Except OpError NetworkPolicy :=
  match f w obj with
  | (w1, .error e) => (w1, .error e)
  | (w1, .ok obj1) =>
    if obj1.Namespace = ns ∧ obj1.Name = name then (w1, .ok obj1)
    else (w1, .error .mutatedKey)

/-- Go: `controllerutil.CreateOrPatch(ctx, r.Client, &networkPolicy, f)`.
Get the object; when it is not found, mutate and create; otherwise mutate
and patch only if the object changed. -/
def CreateOrPatch (w : World) (obj : NetworkPolicy)
    (f : World → NetworkPolicy → World × Except OpError NetworkPolicy) :
    World × OperationResult × Option OpError :=
  match w.Get obj.Namespace obj.Name with
  | .error e =>
    if IsNotFound (some e) then
      match mutate f obj.Namespace obj.Name w obj with
      | (w1, .error e1) => (w1, .None, some e1)
      | (w1, .ok obj1) =>
        match w1.Create obj1 with
        | (w2, some e2) => (w2, .None, some (.api e2))
        | (w2, none) => (w2, .Created, none)
    else (w, .None, some (.api e))
  | .ok before =>
    match mutate f obj.Namespace obj.Name w before with
    | (w1, .error e1) => (w1, .None, some e1)
    | (w1, .ok after) =>
      if before ≠ after then
        match w1.Patch after with
        | (w2, some e2) => (w2, .None, some (.api e2))
        | (w2, none) => (w2, .Updated, none)
      else (w1, .None, none)

/-! ## clusternetworkpolicy_controller.go -/

/-- Go: `ClusterNetworkPolicyReconciler`: the two filter sets (the client,
scheme and recorder are the `World`). -/
structure ClusterNetworkPolicyReconciler where
  ExcludedNamespaces : Filters := {}
  IncludedNamespaces : Filters := {}
deriving DecidableEq, Repr

/-- Go: `ctrl.Request` (`types.NamespacedName`). -/
structure Request where
  Namespace : String := ""
  Name : String
deriving DecidableEq, Repr

/-- Go: `ctrl.Result`; `RequeueAfter` is a `time.Duration` in nanoseconds. -/
structure Result where
  Requeue : Bool := false
  RequeueAfter : Nat := 0
deriving DecidableEq, Repr

/-- Go: `time.Hour`, in nanoseconds. -/
def Hour : Nat := 3600 * 1000000000

/-- One error appended to `errs` in the loop of `Reconcile`. -/
inductive NamespaceError where
  /-- Go: `fmt.Errorf("unable to fetch NetworkPolicy: %w", err)`. -/
  | fetch (cause : ApiError)
  /-- Go: `fmt.Errorf("unable to delete NetworkPolicy from namespace %s: %w", ns, err)`;
  `cause = none` is a nil `err`. -/
  | delete (ns : String) (cause : Option ApiError)
  /-- Go: `fmt.Errorf("failed to create/update NetworkPolicy in namespace %s: %w", ns, err)`. -/
  | createOrUpdate (ns : String) (cause : OpError)
deriving DecidableEq, Repr

/-- The error `Reconcile` returns. -/
inductive ReconcileError where
  /-- Go: `fmt.Errorf("unable to fetch ClusterNetworkPolicy: %w", err)`. -/
  | fetchPolicy (cause : ApiError)
  /-- Go: `fmt.Errorf("unable to list namespaces: %w", err)`. -/
  | listNamespaces (cause : ApiError)
  /-- Go: `utilerrors.NewAggregate(errs)` of a non-empty list. -/
  | aggregate (errs : List NamespaceError)
deriving DecidableEq, Repr

/-- Go: `utilerrors.NewAggregate(errs)`: nil for an empty list. -/
def NewAggregate (errs : List NamespaceError) : Option ReconcileError :=
  if errs.length = 0 then none else some (.aggregate errs)

/-- Go: `(r *ClusterNetworkPolicyReconciler) listNamespaces(ctx)`. -/
def listNamespaces (r : ClusterNetworkPolicyReconciler) (w : World) :
    Except ApiError (List Namespace) :=
  match w.ListNamespaces with
  | .error err => .error err
  | .ok items =>
    .ok (items.filter (fun ns =>
      if ns.Phase ≠ NamespaceActive then false
      else if !EvaluateFilters r.ExcludedNamespaces r.IncludedNamespaces ns.Name then false
      else true))

/-- The mutate function `Reconcile` passes to `CreateOrPatch` (lines 139-155). -/
def mutateFn (clusterNetworkPolicy : ClusterNetworkPolicy) (replaceOnConflict : Bool)
    (w : World) (networkPolicy : NetworkPolicy) : World × Except OpError NetworkPolicy :=
  if replaceOnConflict = false ∧ networkPolicy.UID ≠ "" ∧
      IsControlledBy networkPolicy clusterNetworkPolicy = false then
    (w.Event clusterNetworkPolicy EventTypeWarning "NetworkPolicyConflict"
        ("NetworkPolicy conflict in namespace " ++ networkPolicy.Namespace),
      .error .conflict)
  else
    match SetControllerReference clusterNetworkPolicy networkPolicy with
    | .error err => (w, .error err)
    | .ok np1 =>
      (w, .ok { np1 with
        Labels := clusterNetworkPolicy.Spec.Labels
        Annotations := clusterNetworkPolicy.Spec.Annotations
        Spec := clusterNetworkPolicy.Spec.NetworkPolicySpec })

/-- The state carried through the loop of `Reconcile`: the world and `errs`. -/
structure LoopState where
  world : World
  errs : List NamespaceError := []

/-- The body of `for _, ns := range namespaces` in `Reconcile` (lines 106-171). -/
def reconcileNamespace (clusterNetworkPolicy : ClusterNetworkPolicy) (replaceOnConflict : Bool)
    (selector : Selector) (st : LoopState) (ns : Namespace) : LoopState :=
  let networkPolicy : NetworkPolicy := { Name := clusterNetworkPolicy.Name, Namespace := ns.Name }
  if selector.Matches ns.Labels = false then
    match st.world.Get networkPolicy.Namespace networkPolicy.Name with
    | .error err =>
      if IsNotFound (some err) then st
      else { st with errs := st.errs ++ [.fetch err] }
    | .ok found =>
      if IsControlledBy found clusterNetworkPolicy = false then st
      else
        match st.world.Delete found with
        | (w1, err) =>
          if IsNotFound err = false then
            { world := w1, errs := st.errs ++ [.delete found.Namespace err] }
          else
            { world := w1.Event clusterNetworkPolicy EventTypeNormal "NetworkPolicyDeleted"
                ("NetworkPolicy deleted from namespace " ++ found.Namespace),
              errs := st.errs }
  else
    match CreateOrPatch st.world networkPolicy (mutateFn clusterNetworkPolicy replaceOnConflict) with
    | (w1, _, some err) =>
      { world := w1, errs := st.errs ++ [.createOrUpdate networkPolicy.Namespace err] }
    | (w1, .Created, none) =>
      { world := w1.Event clusterNetworkPolicy EventTypeNormal "NetworkPolicyCreated"
          ("NetworkPolicy created in namespace " ++ networkPolicy.Namespace),
        errs := st.errs }
    | (w1, .Updated, none) =>
      { world := w1.Event clusterNetworkPolicy EventTypeNormal "NetworkPolicyUpdated"
          ("NetworkPolicy updated in namespace " ++ networkPolicy.Namespace),
        errs := st.errs }
    | (w1, .None, none) => { world := w1, errs := st.errs }

/-- The selector `Reconcile` uses (lines 95-102): the converted namespace
selector, or `labels.Nothing()` with an `InvalidConfiguration` event when the
conversion fails. -/
def resolveSelector (clusterNetworkPolicy : ClusterNetworkPolicy) (w : World) :
    World × Selector :=
  match LabelSelectorAsSelector clusterNetworkPolicy.Spec.NamespaceSelector with
  | none =>
    (w.Event clusterNetworkPolicy EventTypeWarning "InvalidConfiguration"
      "Invalid namespace selector", Selector.nothing)
  | some selector => (w, selector)

/-- Go: `(r *ClusterNetworkPolicyReconciler) Reconcile(ctx, req)`: the result,
the error (`none` = nil) and the world after the call. -/
def Reconcile (r : ClusterNetworkPolicyReconciler) (w : World) (req : Request) :
    Result × Option ReconcileError × World :=
  match w.GetPolicy req.Name with
  | .error err =>
    if IsNotFound (some err) then ({}, none, w)
    else ({}, some (.fetchPolicy err), w)
  | .ok clusterNetworkPolicy =>
    let replaceOnConflict : Bool :=
      mapIndex clusterNetworkPolicy.Annotations ConflictAnnotation = ConflictReplace
    match listNamespaces r w with
    | .error err => ({}, some (.listNamespaces err), w)
    | .ok namespaces =>
      match resolveSelector clusterNetworkPolicy w with
      | (w0, selector) =>
        let st := namespaces.foldl
          (reconcileNamespace clusterNetworkPolicy replaceOnConflict selector)
          { world := w0, errs := [] }
        match NewAggregate st.errs with
        | some err => ({}, some err, st.world)
        | none => ({ RequeueAfter := 6 * Hour }, none, st.world)

/-! ## Notions used to state the properties -/

/-- The selector a reconcile pass works with: the converted namespace
selector of the policy, or `labels.Nothing()` when the conversion fails. -/
def policySelector (clusterNetworkPolicy : ClusterNetworkPolicy) : Selector :=
  (LabelSelectorAsSelector clusterNetworkPolicy.Spec.NamespaceSelector).getD Selector.nothing

/-- The conflict policy of a policy resource (line 88 of the controller). -/
def replaceOnConflict (clusterNetworkPolicy : ClusterNetworkPolicy) : Bool :=
  mapIndex clusterNetworkPolicy.Annotations ConflictAnnotation = ConflictReplace

/-- The namespace a mutating call was issued for. -/
def Call.ns : Call → String
  | .create ns _ => ns
  | .patch ns _ => ns
  | .delete ns _ => ns

/-- The stored NetworkPolicies of one namespace, in store order. -/
def nsFilter (n : String) (store : List NetworkPolicy) : List NetworkPolicy :=
  store.filter (fun x => x.Namespace = n)

/-- The world `w2` is a later state of `w1` in which only the namespaces of `S`
were written to: the API behaviour and the read-only objects are the same,
events and calls were only appended, and every new call is for a namespace of `S`. -/
structure Touches (S : List String) (w1 w2 : World) : Prop where
  faults : w2.faults = w1.faults
  newUID : w2.newUID = w1.newUID
  namespaces : w2.namespaces = w1.namespaces
  policies : w2.clusterNetworkPolicies = w1.clusterNetworkPolicies
  store : ∀ m, m ∉ S → nsFilter m w2.networkPolicies = nsFilter m w1.networkPolicies
  events : ∃ es, w2.events = w1.events ++ es
  calls : ∃ cs, w2.calls = w1.calls ++ cs ∧ ∀ c ∈ cs, c.ns ∈ S

/-- The namespaces a reconcile pass works on: Active and in scope under the
namespace filter, in the order of the cluster's namespace list. -/
def inScopeNamespaces (r : ClusterNetworkPolicyReconciler) (w : World) : List Namespace :=
  w.namespaces.filter (fun ns =>
    decide (ns.Phase = NamespaceActive) &&
      EvaluateFilters r.ExcludedNamespaces r.IncludedNamespaces ns.Name)

/-- The loop state at the end of the `for` loop of `Reconcile` for the policy
`P`, started in the world `w`: the world after the pass and the accumulated
per-namespace errors `errs`. -/
def loopResult (r : ClusterNetworkPolicyReconciler) (w : World) (P : ClusterNetworkPolicy) :
    LoopState :=
  (inScopeNamespaces r w).foldl
    (reconcileNamespace P (replaceOnConflict P) (policySelector P))
    { world := (resolveSelector P w).1, errs := [] }

/-! ## Concrete clusters used as examples -/

/-- The reconciler as `main` configures it by default: prefix `kube-` excluded. -/
def defaultReconciler : ClusterNetworkPolicyReconciler :=
  { ExcludedNamespaces := { Prefix := ["kube-"] } }

/-- A policy without conflict annotation (the `basicClusterNetworkPolicy` of the tests). -/
def basicPolicy : ClusterNetworkPolicy :=
  { Name := "p", UID := "uid-p",
    Spec := { Labels := [("my-label", "label-value1")],
              Annotations := [("my-annotation", "annotation-value1")],
              NetworkPolicySpec := ⟨"allow-db"⟩ } }

/-- The same policy with the annotation that requests replacement on conflict. -/
def replacePolicy : ClusterNetworkPolicy :=
  { basicPolicy with Annotations := [( ConflictAnnotation, ConflictReplace)] }

/-- A NetworkPolicy named like the policy, created by someone else, without owner. -/
def existingPolicy : NetworkPolicy :=
  { Name := "p", Namespace := "ns2", UID := "uid-existing", Spec := ⟨"allow-ingress"⟩ }

/-- Two namespaces; `ns2` already holds an unowned NetworkPolicy named `p`. -/
def conflictWorld : World :=
  { clusterNetworkPolicies := [basicPolicy],
    namespaces := [{ Name := "ns1" }, { Name := "ns2" }],
    networkPolicies := [existingPolicy] }

/-- The object the mutate function of `Reconcile` turns `np` into when it does
not report a conflict and the controller reference can be set: the owner
reference of `P` upserted, labels, annotations and spec taken from `P.Spec`. -/
def desiredFrom (P : ClusterNetworkPolicy) (np : NetworkPolicy) : NetworkPolicy :=
  { np with
    OwnerReferences := upsertOwnerRef (controllerRef P) np.OwnerReferences
    Labels := P.Spec.Labels
    Annotations := P.Spec.Annotations
    Spec := P.Spec.NetworkPolicySpec }

/-- The object has no controller other than (a reference to) `P`: the
condition under which `SetControllerReference` succeeds. -/
def NoForeignController (P : ClusterNetworkPolicy) (np : NetworkPolicy) : Prop :=
  ∀ ref, GetControllerOf np.OwnerReferences = some ref →
    referSameObject ref (controllerRef P) = true

instance (P : ClusterNetworkPolicy) (np : NetworkPolicy) : Decidable (NoForeignController P np) := by
  unfold NoForeignController
  cases h : GetControllerOf np.OwnerReferences with
  | none => exact isTrue (by simp)
  | some x =>
    by_cases hx : referSameObject x (controllerRef P) = true
    · exact isTrue (by simpa using hx)
    · exact isFalse (by simpa using hx)

/-- The cluster of `conflictWorld` with the policy that requests replacement. -/
def replaceWorld : World :=
  { conflictWorld with clusterNetworkPolicies := [replacePolicy] }

/-- A NetworkPolicy named like the policy that another controller owns. -/
def foreignPolicy : NetworkPolicy :=
  { existingPolicy with
    OwnerReferences := [{ APIVersion := "example.com/v1", Kind := "Tenant", Name := "team-a",
                          UID := "uid-team-a", Controller := some true }] }

/-- The cluster of `replaceWorld` where the NetworkPolicy of `ns2` is owned by
another controller. -/
def foreignWorld : World :=
  { replaceWorld with networkPolicies := [foreignPolicy] }

/-- The cluster of `replaceWorld` whose API server refuses every patch. -/
def patchFailWorld : World :=
  { replaceWorld with faults := { patch := fun _ => some (.Other "timeout") } }

/-- A policy that selects the namespaces labelled `create-networkpolicy=true`
(the selector of the controller tests). -/
def selectivePolicy : ClusterNetworkPolicy :=
  { basicPolicy with
    Spec := { basicPolicy.Spec with
      NamespaceSelector := { MatchLabels := [("create-networkpolicy", "true")] } } }

/-- The NetworkPolicy the controller generated for `selectivePolicy` in `ns1`. -/
def ownedPolicy : NetworkPolicy :=
  { Name := "p", Namespace := "ns1", UID := "uid-ns1-p",
    Labels := selectivePolicy.Spec.Labels, Annotations := selectivePolicy.Spec.Annotations,
    OwnerReferences := [controllerRef selectivePolicy],
    Spec := selectivePolicy.Spec.NetworkPolicySpec }

/-- Scenario E of the specification: `ns1` received the generated NetworkPolicy
and its label was then changed, so that the selector matches it no more. -/
def staleWorld : World :=
  { clusterNetworkPolicies := [selectivePolicy],
    namespaces := [{ Name := "ns1", Labels := .table [("create-networkpolicy", "false")] }],
    networkPolicies := [ownedPolicy] }

/-- A NetworkPolicy named like the policy in the namespace `kube-system`. -/
def kubePolicy (refs : List OwnerReference) : NetworkPolicy :=
  { Name := "p", Namespace := "kube-system", UID := "uid-kube", OwnerReferences := refs,
    Spec := ⟨"allow-ingress"⟩ }

/-- A cluster whose excluded namespace `kube-system` holds a NetworkPolicy
controlled by `selectivePolicy`, next to `ns1` which holds an unowned one;
neither namespace matches the selector. -/
def excludedWorld : World :=
  { clusterNetworkPolicies := [selectivePolicy],
    namespaces := [{ Name := "kube-system" }, { Name := "ns1" }],
    networkPolicies := [kubePolicy [controllerRef selectivePolicy],
      { existingPolicy with Namespace := "ns1" }] }

/-! ## Notions for the second pass -/

/-- Every call on a NetworkPolicy is served from the store (no injected failure). -/
def NoFaults (w : World) : Prop :=
  ∀ n, w.faults.get n = none ∧ w.faults.create n = none ∧
    w.faults.patch n = none ∧ w.faults.delete n = none

/-- The conflict test of the mutate function (line 140 of the controller). -/
def Conflicts (P : ClusterNetworkPolicy) (rep : Bool) (np : NetworkPolicy) : Prop :=
  rep = false ∧ np.UID ≠ "" ∧ IsControlledBy np P = false

/-- The state of the namespace `N` in which a pass has nothing to write: not
matching and without a NetworkPolicy controlled by `P`, or matching and holding
a NetworkPolicy that is in conflict, or owned by another controller, or
already what the mutate function produces. -/
def Settled (P : ClusterNetworkPolicy) (rep : Bool) (sel : Selector)
    (store : List NetworkPolicy) (N : Namespace) : Prop :=
  if sel.Matches N.Labels = false then
    ∀ np, lookupNP store N.Name P.Name = some np → IsControlledBy np P = false
  else
    ∃ np, lookupNP store N.Name P.Name = some np ∧
      (Conflicts P rep np ∨ ¬ NoForeignController P np ∨ np = desiredFrom P np)

/-- The warning events a pass records again each time it runs. -/
def Event.isRepeatedWarning (e : Event) : Prop :=
  e.eventtype = EventTypeWarning ∧
    (e.reason = "InvalidConfiguration" ∨ e.reason = "NetworkPolicyConflict")

/-- The world `w2` is `w1` after steps that wrote nothing: same store, same
calls, same API behaviour and read-only objects, and only repeated warning
events added. -/
structure Quiet (w1 w2 : World) : Prop where
  store : w2.networkPolicies = w1.networkPolicies
  calls : w2.calls = w1.calls
  faults : w2.faults = w1.faults
  namespaces : w2.namespaces = w1.namespaces
  policies : w2.clusterNetworkPolicies = w1.clusterNetworkPolicies
  events : ∃ es, w2.events = w1.events ++ es ∧ ∀ e ∈ es, e.isRepeatedWarning

/-! ## filters.go: parsing a flag value -/

/-- Go: `unicode.IsSpace(c)`: the white space characters of Unicode. -/
def IsSpace (c : Char) : Bool :=
  c = '\t' || c = '\n' || c = '\x0b' || c = '\x0c' || c = '\r' || c = ' ' ||
  c.toNat = 0x85 || c.toNat = 0xA0 || c.toNat = 0x1680 ||
  (0x2000 ≤ c.toNat && c.toNat ≤ 0x200a) ||
  c.toNat = 0x2028 || c.toNat = 0x2029 || c.toNat = 0x202f || c.toNat = 0x205f ||
  c.toNat = 0x3000

/-- Go: `strings.TrimSpace(s)`: `s` without its leading and trailing white space. -/
def TrimSpace (s : String) : String :=
  ⟨(s.data.dropWhile IsSpace).rdropWhile IsSpace⟩

/-- Go: `strings.Split(s, sep)` for a separator of one character: the pieces
of `s` between the separators, in order (one empty piece for the empty string). -/
def Split (s : String) (sep : Char) : List String :=
  (s.data.splitOn sep).map String.mk

/-- Go: `strings.CutSuffix(s, suffix)`. -/
def CutSuffix (s suffix : String) : String × Bool :=
  if HasSuffix s suffix then (⟨s.data.take (s.data.length - suffix.data.length)⟩, true)
  else (s, false)

/-- Go: `strings.CutPrefix(s, pre)`. -/
def CutPrefix (s pre : String) : String × Bool :=
  if HasPrefix s pre then (⟨s.data.drop pre.data.length⟩, true)
  else (s, false)

/-- Go: `strings.ContainsAny(s, chars)`: some character of `s` is in `chars`. -/
def ContainsAny (s chars : String) : Bool :=
  s.data.any (fun c => chars.data.contains c)

/-- Go: `func (f *Filters) Clear()`. -/
def Filters.Clear (f : Filters) : Filters :=
  { f with Exact := [], Prefix := [], Suffix := [] }

/-- The loop `for _, filter := range strings.Split(value, ",")` of `Set`, over
the remaining entries: the filters after the loop and the error (`none` = nil).
An invalid entry returns at once, with what was appended before it. -/
def Filters.setLoop : List String → Filters → Filters × Option String
  | [], f => (f, none)
  | filter :: rest, f =>
    let pattern := TrimSpace filter
    match CutSuffix pattern "*" with
    | (pre, true) =>
      if ContainsAny pre "* " then (f, some "invalid filter")
      else Filters.setLoop rest { f with Prefix := f.Prefix ++ [pre] }
    | (_, false) =>
      match CutPrefix pattern "*" with
      | (suffix, true) =>
        if ContainsAny suffix "* " then (f, some "invalid filter")
        else Filters.setLoop rest { f with Suffix := f.Suffix ++ [suffix] }
      | (_, false) =>
        if pattern = "" then Filters.setLoop rest f
        else if ContainsAny pattern "* " then (f, some "invalid filter")
        else Filters.setLoop rest { f with Exact := f.Exact ++ [pattern] }

/-- Go: `func (f *Filters) Set(value string) error`: the receiver after the
call and the returned error. -/
def Filters.Set (f : Filters) (value : String) : Filters × Option String :=
  let f1 := if f.flagSet = false then { f.Clear with flagSet := true } else f
  Filters.setLoop (Split value ',') f1

/-! ## clusternetworkpolicy_controller.go: the change mapper -/

/-- Go: `r.List(ctx, &clusterNetworkPolicyList)`. -/
def World.ListPolicies (w : World) : Except ApiError (List ClusterNetworkPolicy) :=
  match w.faults.listPolicies with
  | some e => .error e
  | none => .ok w.clusterNetworkPolicies

/-- Go: `client.ObjectKeyFromObject(&clusterNetworkPolicy)`: the namespace of a
cluster-scoped object is empty. -/
def ObjectKeyFromObject (clusterNetworkPolicy : ClusterNetworkPolicy) : Request :=
  { Namespace := "", Name := clusterNetworkPolicy.Name }

/-- Go: `(r *ClusterNetworkPolicyReconciler) onNamespaceUpdated(ctx, namespace)`;
a nil result is the empty list. -/
def onNamespaceUpdated (r : ClusterNetworkPolicyReconciler) (w : World) (ns : Namespace) :
    List Request :=
  if EvaluateFilters r.ExcludedNamespaces r.IncludedNamespaces ns.Name = false then []
  else
    match w.ListPolicies with
    | .error _ => []
    | .ok items => items.map (fun clusterNetworkPolicy => ObjectKeyFromObject clusterNetworkPolicy)

/-- Go: `event.UpdateEvent`; a nil object is `none`. -/
structure UpdateEvent where
  ObjectOld : Option Namespace
  ObjectNew : Option Namespace
deriving DecidableEq, Repr

/-- Go: `event.DeleteEvent`. -/
structure DeleteEvent where
  Object : Option Namespace
  DeleteStateUnknown : Bool := false
deriving DecidableEq, Repr

/-- Go: `func (namespacePredicate) Delete(e event.DeleteEvent) bool`. -/
def namespacePredicate.Delete (_e : DeleteEvent) : Bool := false

/-- Go: `reflect.DeepEqual` on two values of type `map[string]string`
(`deepValueEqual`, case `Map`): false when only one of them is nil, false when
the lengths differ; otherwise every key of the first must be found in the
second with an equal value. -/
def DeepEqual (v1 v2 : LabelMap) : Bool :=
  if v1.IsNil != v2.IsNil then false
  else if v1.len != v2.len then false
  else v1.keys.all (fun k =>
    match v1.lookup k, v2.lookup k with
    | some val1, some val2 => val1 == val2
    | _, _ => false)

/-- Go: `GetLabels()` of the object of an event. -/
def Namespace.GetLabels (n : Namespace) : LabelMap := n.Labels

/-- Go: `func (namespacePredicate) Update(e event.UpdateEvent) bool`. -/
def namespacePredicate.Update (e : UpdateEvent) : Bool :=
  match e.ObjectOld, e.ObjectNew with
  | some old, some new => !(DeepEqual new.GetLabels old.GetLabels)
  | _, _ => false

/-- Two label maps hold the same labels: every key has the same value in
both, or is absent from both. -/
def SameLabels (a b : LabelMap) : Prop := ∀ k : String, a.lookup k = b.lookup k

/-! ## Further concrete inputs -/

/-- A policy whose namespace selector cannot be converted: operator `In`
without values. -/
def invalidSelectorPolicy : ClusterNetworkPolicy :=
  { basicPolicy with
    Spec := { basicPolicy.Spec with
      NamespaceSelector :=
        { MatchExpressions := [{ Key := "env", Operator := "In", Values := [] }] } } }

/-- The cluster of `conflictWorld` with the policy of the invalid selector. -/
def invalidSelectorWorld : World :=
  { conflictWorld with clusterNetworkPolicies := [invalidSelectorPolicy] }

/-- A policy whose namespace selector names a value that is not a label value:
`env NotIn ["bad value"]`. -/
def badValuePolicy : ClusterNetworkPolicy :=
  { basicPolicy with
    Spec := { basicPolicy.Spec with
      NamespaceSelector :=
        { MatchExpressions := [{ Key := "env", Operator := "NotIn", Values := ["bad value"] }] } } }

/-- One Active namespace without labels and without NetworkPolicy, and the
policy of the bad value. -/
def badValueWorld : World :=
  { clusterNetworkPolicies := [badValuePolicy], namespaces := [{ Name := "ns1" }] }

/-- The excluded filter set of the filter tests. -/
def testExcluded : Filters :=
  { Exact := ["exc"], Prefix := ["exc-pre"], Suffix := ["exc-suf"] }

/-- The included filter set of the filter tests ("exclude and include"). -/
def testIncluded : Filters :=
  { Exact := ["inc", "exc"], Prefix := ["inc-pre", "exc-pre"], Suffix := ["inc-suf", "exc-suf"] }

/-- Whether a mutating call is a delete. -/
def Call.isDelete : Call → Bool
  | .delete _ _ => true
  | _ => false

/-! ### The wildcard grammar as the specification words it -/

/-- What the wildcard grammar makes of one comma-separated entry. -/
inductive Entry where
  /-- An empty entry: skipped. -/
  | skip
  /-- A bare token: an exact pattern. -/
  | exact (p : String)
  /-- An entry ending in the wildcard: a prefix pattern (wildcard removed). -/
  | pre (p : String)
  /-- An entry beginning with the wildcard: a suffix pattern (wildcard removed). -/
  | suf (p : String)
  /-- The remaining pattern holds a wildcard or a space: a configuration error. -/
  | invalid
deriving DecidableEq, Repr

/-- The remaining pattern is refused: it holds a `*` or a space. -/
def badPattern (p : List Char) : Prop := '*' ∈ p ∨ ' ' ∈ p

instance (p : List Char) : Decidable (badPattern p) := by
  unfold badPattern
  exact inferInstance

/-- The grammar on one entry, in the words of the specification: trim the
white space around the entry; an entry whose last character is `*` is a prefix
pattern, the entry without that character; otherwise an entry whose first
character is `*` is a suffix pattern, the entry without that character;
otherwise an empty entry is skipped and any other entry is an exact pattern;
a pattern that still holds a `*` or a space is invalid. -/
def classify (entry : String) : Entry :=
  let t := (TrimSpace entry).data
  if t.getLast? = some '*' then
    if badPattern t.dropLast then .invalid else .pre ⟨t.dropLast⟩
  else if t.head? = some '*' then
    if badPattern t.tail then .invalid else .suf ⟨t.tail⟩
  else if t = [] then .skip
  else if badPattern t then .invalid else .exact ⟨t⟩

/-- The exact pattern of an entry, if it is one. -/
def Entry.exactPattern : Entry → Option String
  | .exact p => some p
  | _ => none

/-- The prefix pattern of an entry, if it is one. -/
def Entry.prefixPattern : Entry → Option String
  | .pre p => some p
  | _ => none

/-- The suffix pattern of an entry, if it is one. -/
def Entry.suffixPattern : Entry → Option String
  | .suf p => some p
  | _ => none

/-- The entries of a flag value, classified, in input order. -/
def entriesOf (value : String) : List Entry :=
  (Split value ',').map classify

/-- The filters a call of `Set` starts from: the receiver, emptied on the
first call. -/
def setBase (f : Filters) : Filters :=
  if f.flagSet = false then { f.Clear with flagSet := true } else f

/-! ## Notions for the independence of the namespaces of a pass -/

/-- Two runs, started in `b1` and `b2`, have reached `w1` and `w2` seeing the
namespace `n` alike: same API behaviour, same NetworkPolicies in `n`, and the
same calls and events added since the start. -/
structure Sim (n : String) (b1 b2 w1 w2 : World) : Prop where
  faults : w2.faults = w1.faults
  newUID : w2.newUID = w1.newUID
  store : nsFilter n w2.networkPolicies = nsFilter n w1.networkPolicies
  calls : ∃ cs, w1.calls = b1.calls ++ cs ∧ w2.calls = b2.calls ++ cs
  events : ∃ es, w1.events = b1.events ++ es ∧ w2.events = b2.events ++ es

/-- The step of the loop on the namespace `N` alone, taken in the world `w`
with no error accumulated: the own action of `N`. -/
def ownStep (P : ClusterNetworkPolicy) (w : World) (N : Namespace) : LoopState :=
  reconcileNamespace P (replaceOnConflict P) (policySelector P) { world := w, errs := [] } N

/-- The calls the own action of `N` issues. -/
def ownCalls (P : ClusterNetworkPolicy) (w : World) (N : Namespace) : List Call :=
  (ownStep P w N).world.calls.drop w.calls.length

/-- The cluster of `conflictWorld` with the namespace of the conflict listed first. -/
def failFirstWorld : World :=
  { conflictWorld with namespaces := [{ Name := "ns2" }, { Name := "ns1" }] }

/-- The pattern left of an entry after trimming and stripping the one trailing
or, failing that, the one leading `*`. -/
def remaining (entry : String) : List Char :=
  let t := (TrimSpace entry).data
  if t.getLast? = some '*' then t.dropLast
  else if t.head? = some '*' then t.tail
  else t

/-- The entries of a flag value that `Set` gets to accept: those before the
first invalid one (all of them when none is invalid). -/
def acceptedEntries (value : String) : List Entry :=
  (entriesOf value).takeWhile (fun e => decide (e ≠ Entry.invalid))

/-- Go: `strings.Join(elems, sep)`. -/
def Join : List String → String → String
  | [], _ => ""
  | [a], _ => a
  | a :: b :: rest, sep => a ++ sep ++ Join (b :: rest) sep

/-- Go: `func (f *Filters) String() string`: the exact patterns as they are,
then each prefix followed by `*`, then each suffix preceded by `*`, joined
by a comma and a space. -/
def Filters.String (f : Filters) : String :=
  let patterns := f.Exact
  let patterns := patterns ++ f.Prefix.map (fun filter => filter ++ "*")
  let patterns := patterns ++ f.Suffix.map (fun filter => "*" ++ filter)
  Join patterns ", "

/-- The filters obtained from an empty `Filters` by one or more calls of `Set`
that each returned nil. -/
inductive FromSetCalls : Filters → Prop
  | first (v : String) : (({} : Filters).Set v).2 = none →
      FromSetCalls (({} : Filters).Set v).1
  | next (f : Filters) (v : String) : FromSetCalls f → (f.Set v).2 = none →
      FromSetCalls (f.Set v).1

/-- A pattern holds neither `*`, nor a space, nor a comma. -/
def Clean (l : List Char) : Prop := ¬ badPattern l ∧ ',' ∉ l

/-- The first character, if any, is not white space. -/
def NoSpaceAtHead (l : List Char) : Prop := ∀ c, l.head? = some c → IsSpace c = false

/-- The last character, if any, is not white space. -/
def NoSpaceAtEnd (l : List Char) : Prop := ∀ c, l.getLast? = some c → IsSpace c = false

/-- The shape of the patterns `Set` accepts: exact patterns are non-empty and
trimmed, prefix patterns do not start and suffix patterns do not end with
white space, suffix patterns are non-empty, and none holds `*`, space or comma. -/
structure WellFormed (f : Filters) : Prop where
  exact : ∀ p ∈ f.Exact,
    p.data ≠ [] ∧ Clean p.data ∧ NoSpaceAtHead p.data ∧ NoSpaceAtEnd p.data
  pre : ∀ p ∈ f.Prefix, Clean p.data ∧ NoSpaceAtHead p.data
  suf : ∀ p ∈ f.Suffix, p.data ≠ [] ∧ Clean p.data ∧ NoSpaceAtEnd p.data

/-- A value obtained by two calls of `Set`, with the three kinds of patterns
and the empty prefix of a lone `*`. -/
def sampleFilters : Filters :=
  ((({} : Filters).Set "foo, bar*").1.Set " *baz ,, *").1

/-! ## Lemmas on the filter -/

theorem hasPrefix_iff (s pre : String) : HasPrefix s pre = true ↔ StartsWith s pre := by
  unfold HasPrefix StartsWith
  rw [List.isPrefixOf_iff_prefix]
  constructor
  · rintro ⟨t, ht⟩
    exact ⟨⟨t⟩, by apply String.ext; simp [ht]⟩
  · rintro ⟨rest, h⟩
    exact ⟨rest.data, by rw [h]; simp⟩

theorem hasSuffix_iff (s suf : String) : HasSuffix s suf = true ↔ EndsWith s suf := by
  unfold HasSuffix EndsWith
  rw [List.isSuffixOf_iff_suffix]
  constructor
  · rintro ⟨t, ht⟩
    exact ⟨⟨t⟩, by apply String.ext; simp [ht]⟩
  · rintro ⟨rest, h⟩
    exact ⟨rest.data, by rw [h]; simp⟩

theorem any_eq_iff_mem (l : List String) (v : String) :
    l.any (fun f => v == f) = true ↔ v ∈ l := by
  simp [List.any_eq_true]

theorem any_hasPrefix_iff (l : List String) (v : String) :
    l.any (fun f => HasPrefix v f) = true ↔ ∃ p ∈ l, StartsWith v p := by
  simp [List.any_eq_true, hasPrefix_iff]

theorem any_hasSuffix_iff (l : List String) (v : String) :
    l.any (fun f => HasSuffix v f) = true ↔ ∃ p ∈ l, EndsWith v p := by
  simp [List.any_eq_true, hasSuffix_iff]

theorem isEmpty_iff (f : Filters) :
    f.IsEmpty = true ↔ (f.Exact = [] ∧ f.Prefix = [] ∧ f.Suffix = []) := by
  simp [Filters.IsEmpty, List.length_eq_zero, and_assoc]


/-! ## Lemmas on the store and on what a step can touch -/

theorem lookupNP_nsFilter (store : List NetworkPolicy) (n name : String) :
    lookupNP (nsFilter n store) n name = lookupNP store n name := by
  unfold lookupNP nsFilter
  rw [List.find?_filter]
  congr 1
  funext a
  simp only [NetworkPolicy.hasKey]
  by_cases h : a.Namespace = n <;> simp [h]

theorem lookupNP_hasKey {store : List NetworkPolicy} {n name : String} {np : NetworkPolicy}
    (h : lookupNP store n name = some np) : np.Namespace = n ∧ np.Name = name := by
  have := List.find?_some h
  simpa [NetworkPolicy.hasKey] using this

theorem Touches.same (S : List String) (w : World) : Touches S w w :=
  ⟨rfl, rfl, rfl, rfl, fun _ _ => rfl, ⟨[], by simp⟩, ⟨[], by simp⟩⟩

theorem Touches.andThen {S : List String} {w1 w2 w3 : World}
    (h12 : Touches S w1 w2) (h23 : Touches S w2 w3) : Touches S w1 w3 := by
  obtain ⟨es1, he1⟩ := h12.events
  obtain ⟨es2, he2⟩ := h23.events
  obtain ⟨cs1, hc1, hm1⟩ := h12.calls
  obtain ⟨cs2, hc2, hm2⟩ := h23.calls
  refine ⟨h23.faults.trans h12.faults, h23.newUID.trans h12.newUID,
    h23.namespaces.trans h12.namespaces, h23.policies.trans h12.policies,
    fun m hm => (h23.store m hm).trans (h12.store m hm),
    ⟨es1 ++ es2, by rw [he2, he1, List.append_assoc]⟩,
    ⟨cs1 ++ cs2, by rw [hc2, hc1, List.append_assoc], ?_⟩⟩
  intro c hc
  rcases List.mem_append.1 hc with h | h
  · exact hm1 c h
  · exact hm2 c h

theorem Touches.mono {S T : List String} {w1 w2 : World} (hST : S ⊆ T)
    (h : Touches S w1 w2) : Touches T w1 w2 := by
  obtain ⟨cs, hc, hm⟩ := h.calls
  exact ⟨h.faults, h.newUID, h.namespaces, h.policies,
    fun m hm => h.store m (fun hS => hm (hST hS)), h.events,
    ⟨cs, hc, fun c hc => hST (hm c hc)⟩⟩

theorem touches_Event (S : List String) (w : World) (P : ClusterNetworkPolicy)
    (t r m : String) : Touches S w (w.Event P t r m) :=
  ⟨rfl, rfl, rfl, rfl, fun _ _ => rfl, ⟨_, rfl⟩, ⟨[], by simp [World.Event]⟩⟩

theorem touches_Create (w : World) (obj : NetworkPolicy) :
    Touches [obj.Namespace] w (w.Create obj).1 := by
  unfold World.Create
  have hcall : ∀ c ∈ [Call.create obj.Namespace obj.Name], c.ns ∈ [obj.Namespace] := by
    intro c hc
    simp only [List.mem_singleton] at hc
    subst hc
    simp [Call.ns]
  cases w.faults.create obj.Namespace with
  | some e => exact ⟨rfl, rfl, rfl, rfl, fun _ _ => rfl, ⟨[], by simp⟩, ⟨_, rfl, hcall⟩⟩
  | none =>
    cases lookupNP w.networkPolicies obj.Namespace obj.Name with
    | some x => exact ⟨rfl, rfl, rfl, rfl, fun _ _ => rfl, ⟨[], by simp⟩, ⟨_, rfl, hcall⟩⟩
    | none =>
      refine ⟨rfl, rfl, rfl, rfl, ?_, ⟨[], by simp⟩, ⟨_, rfl, hcall⟩⟩
      intro m hm
      have hne : ¬ obj.Namespace = m := fun h => hm (by simp [h])
      simp [nsFilter, List.filter_append, hne]

theorem touches_Patch (w : World) (obj : NetworkPolicy) :
    Touches [obj.Namespace] w (w.Patch obj).1 := by
  unfold World.Patch
  have hcall : ∀ c ∈ [Call.patch obj.Namespace obj.Name], c.ns ∈ [obj.Namespace] := by
    intro c hc
    simp only [List.mem_singleton] at hc
    subst hc
    simp [Call.ns]
  cases w.faults.patch obj.Namespace with
  | some e => exact ⟨rfl, rfl, rfl, rfl, fun _ _ => rfl, ⟨[], by simp⟩, ⟨_, rfl, hcall⟩⟩
  | none =>
    cases lookupNP w.networkPolicies obj.Namespace obj.Name with
    | none => exact ⟨rfl, rfl, rfl, rfl, fun _ _ => rfl, ⟨[], by simp⟩, ⟨_, rfl, hcall⟩⟩
    | some x =>
      refine ⟨rfl, rfl, rfl, rfl, ?_, ⟨[], by simp⟩, ⟨_, rfl, hcall⟩⟩
      intro m hm
      have hne : ¬ obj.Namespace = m := fun h => hm (by simp [h])
      simp only [nsFilter]
      induction w.networkPolicies with
      | nil => rfl
      | cons a l ih =>
        simp only [List.map_cons, List.filter_cons]
        by_cases hk : a.hasKey obj.Namespace obj.Name = true
        · have ha : ¬ a.Namespace = m := by
            simp only [NetworkPolicy.hasKey, decide_eq_true_eq] at hk
            rw [hk.1]; exact hne
          simp [hk, ha, hne, ih]
        · simp only [hk, if_false]
          by_cases ha : a.Namespace = m <;> simp [ha, ih]

theorem touches_Delete (w : World) (obj : NetworkPolicy) :
    Touches [obj.Namespace] w (w.Delete obj).1 := by
  unfold World.Delete
  have hcall : ∀ c ∈ [Call.delete obj.Namespace obj.Name], c.ns ∈ [obj.Namespace] := by
    intro c hc
    simp only [List.mem_singleton] at hc
    subst hc
    simp [Call.ns]
  cases w.faults.delete obj.Namespace with
  | some e => exact ⟨rfl, rfl, rfl, rfl, fun _ _ => rfl, ⟨[], by simp⟩, ⟨_, rfl, hcall⟩⟩
  | none =>
    cases lookupNP w.networkPolicies obj.Namespace obj.Name with
    | none => exact ⟨rfl, rfl, rfl, rfl, fun _ _ => rfl, ⟨[], by simp⟩, ⟨_, rfl, hcall⟩⟩
    | some x =>
      refine ⟨rfl, rfl, rfl, rfl, ?_, ⟨[], by simp⟩, ⟨_, rfl, hcall⟩⟩
      intro m hm
      have hne : ¬ obj.Namespace = m := fun h => hm (by simp [h])
      simp only [nsFilter, List.filter_filter]
      apply List.filter_congr
      intro a _
      by_cases ha : a.Namespace = m
      · have hmo : ¬ m = obj.Namespace := fun h => hne h.symm
        simp [ha, NetworkPolicy.hasKey, hmo]
      · simp [ha]


/-! ## Lemmas on one step of the loop -/

theorem get_hasKey {w : World} {n name : String} {np : NetworkPolicy}
    (h : w.Get n name = .ok np) : np.Namespace = n ∧ np.Name = name := by
  unfold World.Get at h
  cases hf : w.faults.get n with
  | some e => simp [hf] at h
  | none =>
    cases hl : lookupNP w.networkPolicies n name with
    | none => simp [hf, hl] at h
    | some x =>
      simp only [hf, hl, Except.ok.injEq] at h
      subst h
      exact lookupNP_hasKey hl

theorem get_congr {w1 w2 : World} {n : String} (hf : w2.faults = w1.faults)
    (hs : nsFilter n w2.networkPolicies = nsFilter n w1.networkPolicies) (name : String) :
    w2.Get n name = w1.Get n name := by
  unfold World.Get
  rw [hf, ← lookupNP_nsFilter w2.networkPolicies, hs, lookupNP_nsFilter]

theorem touches_mutateFn (P : ClusterNetworkPolicy) (rep : Bool) (w : World)
    (np : NetworkPolicy) : Touches [] w (mutateFn P rep w np).1 := by
  unfold mutateFn
  split
  · exact touches_Event _ _ _ _ _ _
  · split <;> exact Touches.same _ _

theorem touches_mutate (P : ClusterNetworkPolicy) (rep : Bool) (n name : String) (w : World)
    (np : NetworkPolicy) : Touches [] w (mutate (mutateFn P rep) n name w np).1 := by
  have h := touches_mutateFn P rep w np
  unfold mutate
  split
  · next w1 e heq => rw [heq] at h; exact h
  · next w1 obj1 heq =>
    rw [heq] at h
    split <;> exact h

theorem mutate_ok_key {f : World → NetworkPolicy → World × Except OpError NetworkPolicy}
    {n name : String} {w w1 : World} {np obj1 : NetworkPolicy}
    (h : mutate f n name w np = (w1, .ok obj1)) : obj1.Namespace = n ∧ obj1.Name = name := by
  unfold mutate at h
  split at h
  · simp at h
  · split at h
    · next hk =>
      simp only [Prod.mk.injEq, Except.ok.injEq] at h
      rw [← h.2]; exact hk
    · simp at h

theorem touches_CreateOrPatch (P : ClusterNetworkPolicy) (rep : Bool) (w : World)
    (obj : NetworkPolicy) :
    Touches [obj.Namespace] w (CreateOrPatch w obj (mutateFn P rep)).1 := by
  have nil_sub : ([] : List String) ⊆ [obj.Namespace] := by simp
  unfold CreateOrPatch
  split
  · next e _ =>
    split
    · have hm := touches_mutate P rep obj.Namespace obj.Name w obj
      split
      · next w1 e1 heq => rw [heq] at hm; exact hm.mono nil_sub
      · next w1 obj1 heq =>
        rw [heq] at hm
        have hk := (mutate_ok_key heq).1
        have hc := touches_Create w1 obj1
        rw [hk] at hc
        split
        · next w2 e2 h2 => rw [h2] at hc; exact (hm.mono nil_sub).andThen hc
        · next w2 h2 => rw [h2] at hc; exact (hm.mono nil_sub).andThen hc
    · exact Touches.same _ _
  · next before _ =>
    have hm := touches_mutate P rep obj.Namespace obj.Name w before
    split
    · next w1 e1 heq => rw [heq] at hm; exact hm.mono nil_sub
    · next w1 after heq =>
      rw [heq] at hm
      have hk := (mutate_ok_key heq).1
      have hc := touches_Patch w1 after
      rw [hk] at hc
      split
      · split
        · next w2 e2 h2 => rw [h2] at hc; exact (hm.mono nil_sub).andThen hc
        · next w2 h2 => rw [h2] at hc; exact (hm.mono nil_sub).andThen hc
      · exact hm.mono nil_sub

theorem touches_reconcileNamespace (P : ClusterNetworkPolicy) (rep : Bool) (sel : Selector)
    (st : LoopState) (ns : Namespace) :
    Touches [ns.Name] st.world (reconcileNamespace P rep sel st ns).world ∧
      ∃ es, (reconcileNamespace P rep sel st ns).errs = st.errs ++ es := by
  unfold reconcileNamespace
  simp only
  split
  · split
    · split
      · exact ⟨Touches.same _ _, [], by simp⟩
      · exact ⟨Touches.same _ _, _, rfl⟩
    · next found hget =>
      have hk := (get_hasKey hget).1
      split
      · exact ⟨Touches.same _ _, [], by simp⟩
      · have hd := touches_Delete st.world found
        rw [hk] at hd
        split
        · exact ⟨hd, _, rfl⟩
        · exact ⟨hd.andThen (touches_Event _ _ _ _ _ _), [], by simp⟩
  · have hc := touches_CreateOrPatch P rep st.world { Name := P.Name, Namespace := ns.Name }
    split
    · next w1 _ err heq => rw [heq] at hc; exact ⟨hc, _, rfl⟩
    · next w1 heq =>
      rw [heq] at hc; exact ⟨hc.andThen (touches_Event _ _ _ _ _ _), [], by simp⟩
    · next w1 heq =>
      rw [heq] at hc; exact ⟨hc.andThen (touches_Event _ _ _ _ _ _), [], by simp⟩
    · next w1 heq => rw [heq] at hc; exact ⟨hc, [], by simp⟩

theorem touches_foldl (P : ClusterNetworkPolicy) (rep : Bool) (sel : Selector)
    (l : List Namespace) (st : LoopState) :
    Touches (l.map (fun ns => ns.Name)) st.world
        (l.foldl (reconcileNamespace P rep sel) st).world ∧
      ∃ es, (l.foldl (reconcileNamespace P rep sel) st).errs = st.errs ++ es := by
  induction l generalizing st with
  | nil => exact ⟨Touches.same _ _, [], by simp⟩
  | cons a l ih =>
    simp only [List.foldl_cons, List.map_cons]
    obtain ⟨h1, e1, he1⟩ := touches_reconcileNamespace P rep sel st a
    obtain ⟨h2, e2, he2⟩ := ih (reconcileNamespace P rep sel st a)
    refine ⟨(h1.mono (by simp)).andThen (h2.mono (by simp)), e1 ++ e2, ?_⟩
    rw [he2, he1, List.append_assoc]


/-! ## Lemmas on a whole pass -/

theorem listNamespaces_eq (r : ClusterNetworkPolicyReconciler) (w : World)
    (hl : w.faults.listNamespaces = none) :
    listNamespaces r w = .ok (inScopeNamespaces r w) := by
  unfold listNamespaces World.ListNamespaces inScopeNamespaces
  simp only [hl]
  congr 1
  apply List.filter_congr
  intro ns _
  by_cases h1 : ns.Phase = NamespaceActive <;>
    cases h2 : EvaluateFilters r.ExcludedNamespaces r.IncludedNamespaces ns.Name <;>
    simp [h1, h2]

theorem resolveSelector_snd (P : ClusterNetworkPolicy) (w : World) :
    (resolveSelector P w).2 = policySelector P := by
  unfold resolveSelector policySelector
  cases LabelSelectorAsSelector P.Spec.NamespaceSelector <;> rfl

theorem touches_resolveSelector (S : List String) (P : ClusterNetworkPolicy) (w : World) :
    Touches S w (resolveSelector P w).1 := by
  unfold resolveSelector
  cases LabelSelectorAsSelector P.Spec.NamespaceSelector
  · exact touches_Event _ _ _ _ _ _
  · exact Touches.same _ _

theorem Reconcile_eq (r : ClusterNetworkPolicyReconciler) (w : World) (req : Request)
    (P : ClusterNetworkPolicy) (hP : w.GetPolicy req.Name = .ok P)
    (hl : w.faults.listNamespaces = none) :
    Reconcile r w req =
      (if (loopResult r w P).errs.length = 0 then { RequeueAfter := 6 * Hour } else {},
        NewAggregate (loopResult r w P).errs, (loopResult r w P).world) := by
  have hsel := resolveSelector_snd P w
  unfold Reconcile
  simp only [hP, listNamespaces_eq r w hl]
  unfold loopResult replaceOnConflict
  rw [← hsel]
  unfold NewAggregate
  split <;> rename_i h <;> split at h <;> simp_all

theorem inScope_nodup (r : ClusterNetworkPolicyReconciler) (w : World)
    (h : (w.namespaces.map (fun ns => ns.Name)).Nodup) :
    ((inScopeNamespaces r w).map (fun ns => ns.Name)).Nodup := by
  unfold inScopeNamespaces
  exact List.Nodup.sublist (List.Sublist.map _ (List.filter_sublist _)) h

theorem mem_inScope (r : ClusterNetworkPolicyReconciler) (w : World) (N : Namespace) :
    N ∈ inScopeNamespaces r w ↔
      N ∈ w.namespaces ∧ N.Phase = NamespaceActive ∧
        EvaluateFilters r.ExcludedNamespaces r.IncludedNamespaces N.Name = true := by
  simp [inScopeNamespaces, List.mem_filter]

/-- A namespace that occurs in the list of a pass, whose names are distinct, is
visited exactly once: the loop reaches it in a state `st1` that differs from
the start only outside that namespace, and what follows its step leaves the
namespace alone. -/
theorem loop_visit (P : ClusterNetworkPolicy) (rep : Bool) (sel : Selector)
    (l : List Namespace) (N : Namespace) (hN : N ∈ l)
    (hnd : (l.map (fun ns => ns.Name)).Nodup) (st0 : LoopState) :
    ∃ (st1 : LoopState) (S1 S2 : List String), N.Name ∉ S1 ∧ N.Name ∉ S2 ∧
      Touches S1 st0.world st1.world ∧ (∃ es, st1.errs = st0.errs ++ es) ∧
      Touches S2 (reconcileNamespace P rep sel st1 N).world
        (l.foldl (reconcileNamespace P rep sel) st0).world ∧
      (∃ es, (l.foldl (reconcileNamespace P rep sel) st0).errs =
        (reconcileNamespace P rep sel st1 N).errs ++ es) := by
  obtain ⟨l1, l2, rfl⟩ := List.append_of_mem hN
  rw [List.map_append, List.map_cons] at hnd
  have h1 : N.Name ∉ l1.map (fun ns => ns.Name) := by
    intro hmem
    exact (List.nodup_append.1 hnd).2.2 hmem (List.mem_cons_self _ _)
  have h2 : N.Name ∉ l2.map (fun ns => ns.Name) :=
    (List.nodup_cons.1 (List.nodup_append.1 hnd).2.1).1
  refine ⟨l1.foldl (reconcileNamespace P rep sel) st0, _, _, h1, h2, ?_⟩
  obtain ⟨t1, e1⟩ := touches_foldl P rep sel l1 st0
  refine ⟨t1, e1, ?_⟩
  rw [List.foldl_append, List.foldl_cons]
  exact touches_foldl P rep sel l2 _

theorem touches_get {S : List String} {w1 w2 : World} (h : Touches S w1 w2) {n : String}
    (hn : n ∉ S) (name : String) : w2.Get n name = w1.Get n name :=
  get_congr h.faults (h.store n hn) name


/-- The visit of an Active, in-scope namespace `N` during the pass of
`Reconcile` for `P`: the state `st1` in which the loop reaches `N` differs from
the initial world only outside `N`, and so does the end of the pass from the
state right after the step on `N`. -/
theorem pass_visit (r : ClusterNetworkPolicyReconciler) (w : World)
    (P : ClusterNetworkPolicy) (N : Namespace)
    (huniq : (w.namespaces.map (fun ns => ns.Name)).Nodup)
    (hmem : N ∈ inScopeNamespaces r w) :
    ∃ (st1 : LoopState) (S1 S2 : List String), N.Name ∉ S1 ∧ N.Name ∉ S2 ∧
      Touches S1 w st1.world ∧
      Touches S2 (reconcileNamespace P (replaceOnConflict P) (policySelector P) st1 N).world
        (loopResult r w P).world ∧
      (∃ es, (loopResult r w P).errs =
        (reconcileNamespace P (replaceOnConflict P) (policySelector P) st1 N).errs ++ es) := by
  obtain ⟨st1, S1, S2, hS1, hS2, t1, -, t2, he2⟩ :=
    loop_visit P (replaceOnConflict P) (policySelector P) _ N hmem (inScope_nodup r w huniq)
      { world := (resolveSelector P w).1, errs := [] }
  exact ⟨st1, S1, S2, hS1, hS2, (touches_resolveSelector S1 P w).andThen t1, t2, he2⟩

theorem Reconcile_world (r : ClusterNetworkPolicyReconciler) (w : World) (req : Request)
    (P : ClusterNetworkPolicy) (hP : w.GetPolicy req.Name = .ok P)
    (hl : w.faults.listNamespaces = none) :
    (Reconcile r w req).2.2 = (loopResult r w P).world := by
  rw [Reconcile_eq r w req P hP hl]

theorem Reconcile_error (r : ClusterNetworkPolicyReconciler) (w : World) (req : Request)
    (P : ClusterNetworkPolicy) (hP : w.GetPolicy req.Name = .ok P)
    (hl : w.faults.listNamespaces = none) :
    (Reconcile r w req).2.1 = NewAggregate (loopResult r w P).errs := by
  rw [Reconcile_eq r w req P hP hl]

theorem newAggregate_append_ne_none (a : List NamespaceError) (e : NamespaceError)
    (b : List NamespaceError) : NewAggregate (a ++ [e] ++ b) ≠ none := by
  simp [NewAggregate]

theorem step_conflict {P : ClusterNetworkPolicy} {sel : Selector} {st : LoopState}
    {N : Namespace} {np : NetworkPolicy}
    (hm : sel.Matches N.Labels = true) (hget : st.world.Get N.Name P.Name = .ok np)
    (huid : np.UID ≠ "") (hctl : IsControlledBy np P = false) :
    reconcileNamespace P false sel st N =
      { world := st.world.Event P EventTypeWarning "NetworkPolicyConflict"
          ("NetworkPolicy conflict in namespace " ++ N.Name),
        errs := st.errs ++ [.createOrUpdate N.Name .conflict] } := by
  have hk := (get_hasKey hget).1
  simp [reconcileNamespace, CreateOrPatch, mutate, mutateFn, hm, hget, huid, hctl, hk]

/-! ## Lemmas on owner references and on the mutating calls -/

theorem getControllerOf_upsert (c : OwnerReference) (hc : c.Controller = some true)
    (refs : List OwnerReference)
    (h : ∀ ref, GetControllerOf refs = some ref → referSameObject ref c = true) :
    GetControllerOf (upsertOwnerRef c refs) = some c := by
  induction refs with
  | nil => simp [upsertOwnerRef, GetControllerOf, hc]
  | cons r rs ih =>
    unfold upsertOwnerRef
    by_cases hs : referSameObject r c = true
    · simp [hs, GetControllerOf, hc]
    · rw [if_neg hs]
      have hr : ¬ r.Controller = some true := by
        intro hr
        exact hs (h r (by simp [GetControllerOf, hr]))
      have hskip : ∀ l : List OwnerReference, GetControllerOf (r :: l) = GetControllerOf l := by
        intro l
        unfold GetControllerOf
        exact List.find?_cons_of_neg _ (by simpa using hr)
      rw [hskip]
      exact ih (fun ref href => h ref (by rw [hskip]; exact href))

theorem mem_upsertOwnerRef (c : OwnerReference) (refs : List OwnerReference) :
    c ∈ upsertOwnerRef c refs := by
  induction refs with
  | nil => simp [upsertOwnerRef]
  | cons r rs ih =>
    unfold upsertOwnerRef
    split
    · simp
    · exact List.mem_cons_of_mem _ ih

theorem setControllerReference_ok (P : ClusterNetworkPolicy) (np : NetworkPolicy)
    (h : NoForeignController P np) :
    SetControllerReference P np =
      .ok { np with OwnerReferences := upsertOwnerRef (controllerRef P) np.OwnerReferences } := by
  unfold SetControllerReference
  cases hg : GetControllerOf np.OwnerReferences with
  | none => rfl
  | some ex => simp [h ex hg]

theorem isControlledBy_desiredFrom (P : ClusterNetworkPolicy) (np : NetworkPolicy)
    (h : NoForeignController P np) : IsControlledBy (desiredFrom P np) P = true := by
  unfold IsControlledBy desiredFrom
  simp only
  rw [getControllerOf_upsert (controllerRef P) rfl np.OwnerReferences h]
  simp [controllerRef]

theorem touches_lookup {S : List String} {w1 w2 : World} (h : Touches S w1 w2) {n : String}
    (hn : n ∉ S) (name : String) :
    lookupNP w2.networkPolicies n name = lookupNP w1.networkPolicies n name := by
  rw [← lookupNP_nsFilter w2.networkPolicies, h.store n hn, lookupNP_nsFilter]

theorem keyFilter_nsFilter (store : List NetworkPolicy) (n name : String) :
    (nsFilter n store).filter (fun x => x.hasKey n name) =
      store.filter (fun x => x.hasKey n name) := by
  unfold nsFilter
  rw [List.filter_filter]
  apply List.filter_congr
  intro a _
  by_cases h : a.Namespace = n <;> simp [NetworkPolicy.hasKey, h]

theorem touches_keyFilter {S : List String} {w1 w2 : World} (h : Touches S w1 w2) {n : String}
    (hn : n ∉ S) (name : String) :
    w2.networkPolicies.filter (fun x => x.hasKey n name) =
      w1.networkPolicies.filter (fun x => x.hasKey n name) := by
  rw [← keyFilter_nsFilter w2.networkPolicies, h.store n hn, keyFilter_nsFilter]

theorem lookupNP_none_iff (store : List NetworkPolicy) (n name : String) :
    lookupNP store n name = none ↔ store.filter (fun x => x.hasKey n name) = [] := by
  unfold lookupNP
  rw [List.find?_eq_none, List.filter_eq_nil_iff]

theorem lookupNP_map_replace (store : List NetworkPolicy) (obj x : NetworkPolicy)
    (h : lookupNP store obj.Namespace obj.Name = some x) :
    lookupNP (store.map (fun y => if y.hasKey obj.Namespace obj.Name then obj else y))
      obj.Namespace obj.Name = some obj := by
  unfold lookupNP at *
  induction store with
  | nil => simp at h
  | cons a l ih =>
    rw [List.map_cons]
    by_cases ha : a.hasKey obj.Namespace obj.Name = true
    · rw [if_pos ha]
      exact List.find?_cons_of_pos _ (by simp [NetworkPolicy.hasKey])
    · have hskip : ∀ t : List NetworkPolicy,
          List.find? (fun np => np.hasKey obj.Namespace obj.Name) (a :: t) =
            List.find? (fun np => np.hasKey obj.Namespace obj.Name) t :=
        fun t => List.find?_cons_of_neg (p := fun np => np.hasKey obj.Namespace obj.Name) t ha
      rw [if_neg ha, hskip]
      rw [hskip] at h
      exact ih h

theorem get_ok_iff (w : World) (n name : String) (np : NetworkPolicy) :
    w.Get n name = .ok np ↔
      w.faults.get n = none ∧ lookupNP w.networkPolicies n name = some np := by
  unfold World.Get
  cases hf : w.faults.get n with
  | some e => simp
  | none =>
    cases hl : lookupNP w.networkPolicies n name with
    | none => simp
    | some x => simp

theorem patch_ok {w : World} {obj x : NetworkPolicy}
    (hf : w.faults.patch obj.Namespace = none)
    (hl : lookupNP w.networkPolicies obj.Namespace obj.Name = some x) :
    w.Patch obj =
      ({ w with
          calls := w.calls ++ [Call.patch obj.Namespace obj.Name]
          networkPolicies :=
            w.networkPolicies.map (fun y => if y.hasKey obj.Namespace obj.Name then obj else y) },
        none) := by
  simp [World.Patch, hf, hl]

theorem create_ok {w : World} {obj : NetworkPolicy}
    (hf : w.faults.create obj.Namespace = none)
    (hl : lookupNP w.networkPolicies obj.Namespace obj.Name = none) :
    w.Create obj =
      ({ w with
          calls := w.calls ++ [Call.create obj.Namespace obj.Name]
          networkPolicies :=
            w.networkPolicies ++ [{ obj with UID := w.newUID obj.Namespace obj.Name }] },
        none) := by
  simp [World.Create, hf, hl]

theorem delete_ok {w : World} {obj x : NetworkPolicy}
    (hf : w.faults.delete obj.Namespace = none)
    (hl : lookupNP w.networkPolicies obj.Namespace obj.Name = some x) :
    w.Delete obj =
      ({ w with
          calls := w.calls ++ [Call.delete obj.Namespace obj.Name]
          networkPolicies :=
            w.networkPolicies.filter (fun y => !y.hasKey obj.Namespace obj.Name) },
        none) := by
  simp [World.Delete, hf, hl]

theorem desiredFrom_key (P : ClusterNetworkPolicy) (np : NetworkPolicy) :
    (desiredFrom P np).Namespace = np.Namespace ∧ (desiredFrom P np).Name = np.Name :=
  ⟨rfl, rfl⟩

theorem mutateFn_apply {P : ClusterNetworkPolicy} {rep : Bool} {w : World} {np : NetworkPolicy}
    (hnc : ¬ (rep = false ∧ np.UID ≠ "" ∧ IsControlledBy np P = false))
    (hfc : NoForeignController P np) :
    mutateFn P rep w np = (w, .ok (desiredFrom P np)) := by
  unfold mutateFn
  rw [if_neg hnc, setControllerReference_ok P np hfc]
  rfl

theorem step_update {P : ClusterNetworkPolicy} {rep : Bool} {sel : Selector} {st : LoopState}
    {N : Namespace} {np : NetworkPolicy}
    (hm : sel.Matches N.Labels = true) (hget : st.world.Get N.Name P.Name = .ok np)
    (hnc : ¬ (rep = false ∧ np.UID ≠ "" ∧ IsControlledBy np P = false))
    (hfc : NoForeignController P np) (hne : np ≠ desiredFrom P np)
    (hpatch : st.world.faults.patch N.Name = none) :
    reconcileNamespace P rep sel st N =
      { world := (st.world.Patch (desiredFrom P np)).1.Event P EventTypeNormal
          "NetworkPolicyUpdated" ("NetworkPolicy updated in namespace " ++ N.Name),
        errs := st.errs } := by
  obtain ⟨hk1, hk2⟩ := get_hasKey hget
  have hl := ((get_ok_iff _ _ _ _).1 hget).2
  have hp : st.world.Patch (desiredFrom P np) = (_, none) :=
    patch_ok (x := np) (by rw [(desiredFrom_key P np).1, hk1]; exact hpatch)
      (by rw [(desiredFrom_key P np).1, (desiredFrom_key P np).2, hk1, hk2]; exact hl)
  unfold reconcileNamespace CreateOrPatch mutate
  simp only [hm, hget, mutateFn_apply hnc hfc, (desiredFrom_key P np).1,
    (desiredFrom_key P np).2, hk1, hk2]
  simp [hne, hp]

theorem step_unchanged {P : ClusterNetworkPolicy} {rep : Bool} {sel : Selector} {st : LoopState}
    {N : Namespace} {np : NetworkPolicy}
    (hm : sel.Matches N.Labels = true) (hget : st.world.Get N.Name P.Name = .ok np)
    (hnc : ¬ (rep = false ∧ np.UID ≠ "" ∧ IsControlledBy np P = false))
    (hfc : NoForeignController P np) (heq : np = desiredFrom P np) :
    reconcileNamespace P rep sel st N = st := by
  obtain ⟨hk1, hk2⟩ := get_hasKey hget
  unfold reconcileNamespace CreateOrPatch mutate
  simp only [hm, hget, mutateFn_apply hnc hfc, (desiredFrom_key P np).1,
    (desiredFrom_key P np).2, hk1, hk2]
  simp [← heq]

theorem get_after_patch {w : World} {obj x : NetworkPolicy}
    (hg : w.faults.get obj.Namespace = none)
    (hf : w.faults.patch obj.Namespace = none)
    (hl : lookupNP w.networkPolicies obj.Namespace obj.Name = some x) :
    (w.Patch obj).1.Get obj.Namespace obj.Name = .ok obj := by
  rw [patch_ok hf hl, get_ok_iff]
  exact ⟨hg, lookupNP_map_replace _ _ _ hl⟩

theorem get_Event (w : World) (P : ClusterNetworkPolicy) (t r m n name : String) :
    (w.Event P t r m).Get n name = w.Get n name := rfl

theorem step_create {P : ClusterNetworkPolicy} {rep : Bool} {sel : Selector} {st : LoopState}
    {N : Namespace}
    (hm : sel.Matches N.Labels = true)
    (hget : st.world.Get N.Name P.Name = .error .NotFound)
    (hnone : lookupNP st.world.networkPolicies N.Name P.Name = none)
    (hcreate : st.world.faults.create N.Name = none) :
    reconcileNamespace P rep sel st N =
      { world := (st.world.Create
            (desiredFrom P { Name := P.Name, Namespace := N.Name })).1.Event P EventTypeNormal
          "NetworkPolicyCreated" ("NetworkPolicy created in namespace " ++ N.Name),
        errs := st.errs } := by
  have hfc : NoForeignController P { Name := P.Name, Namespace := N.Name } := by
    intro ref href
    simp [GetControllerOf] at href
  have hc : st.world.Create (desiredFrom P { Name := P.Name, Namespace := N.Name }) = (_, none) :=
    create_ok (by exact hcreate) (by exact hnone)
  unfold reconcileNamespace CreateOrPatch mutate
  simp only [hm, hget, IsNotFound]
  rw [mutateFn_apply (by simp) hfc]
  simp [(desiredFrom_key P { Name := P.Name, Namespace := N.Name }).1,
    (desiredFrom_key P { Name := P.Name, Namespace := N.Name }).2, hc]

theorem keyFilter_after_create {w : World} {obj : NetworkPolicy}
    (hf : w.faults.create obj.Namespace = none)
    (hl : lookupNP w.networkPolicies obj.Namespace obj.Name = none) :
    (w.Create obj).1.networkPolicies.filter (fun x => x.hasKey obj.Namespace obj.Name) =
      [{ obj with UID := w.newUID obj.Namespace obj.Name }] := by
  rw [create_ok hf hl]
  simp only [List.filter_append]
  rw [(lookupNP_none_iff _ _ _).1 hl]
  simp [NetworkPolicy.hasKey]

theorem step_skip_unowned {P : ClusterNetworkPolicy} {rep : Bool} {sel : Selector}
    {st : LoopState} {N : Namespace} {np : NetworkPolicy}
    (hm : sel.Matches N.Labels = false) (hget : st.world.Get N.Name P.Name = .ok np)
    (hctl : IsControlledBy np P = false) :
    reconcileNamespace P rep sel st N = st := by
  simp [reconcileNamespace, hm, hget, hctl]

theorem loop_split {l : List Namespace} {N : Namespace} (hN : N ∈ l)
    (hnd : (l.map (fun ns => ns.Name)).Nodup) :
    ∃ l1 l2, l = l1 ++ N :: l2 ∧ l.erase N = l1 ++ l2 ∧
      N.Name ∉ l1.map (fun ns => ns.Name) ∧ N.Name ∉ l2.map (fun ns => ns.Name) := by
  obtain ⟨l1, l2, rfl⟩ := List.append_of_mem hN
  rw [List.map_append, List.map_cons] at hnd
  have h1 : N.Name ∉ l1.map (fun ns => ns.Name) := by
    intro hmem
    exact (List.nodup_append.1 hnd).2.2 hmem (List.mem_cons_self _ _)
  have h2 : N.Name ∉ l2.map (fun ns => ns.Name) :=
    (List.nodup_cons.1 (List.nodup_append.1 hnd).2.1).1
  have hN1 : N ∉ l1 := fun h => h1 (List.mem_map_of_mem _ h)
  refine ⟨l1, l2, rfl, ?_, h1, h2⟩
  rw [List.erase_append_right _ hN1, List.erase_cons_head]

theorem Reconcile_touches (r : ClusterNetworkPolicyReconciler) (w : World) (req : Request) :
    Touches ((inScopeNamespaces r w).map (fun ns => ns.Name)) w (Reconcile r w req).2.2 := by
  cases hP : w.GetPolicy req.Name with
  | error e =>
    unfold Reconcile
    simp only [hP]
    split <;> exact Touches.same _ _
  | ok P =>
    cases hl : w.faults.listNamespaces with
    | some e =>
      have : listNamespaces r w = .error e := by
        simp [listNamespaces, World.ListNamespaces, hl]
      unfold Reconcile
      simp only [hP, this]
      exact Touches.same _ _
    | none =>
      rw [Reconcile_world r w req P hP hl]
      exact (touches_resolveSelector _ P w).andThen
        (touches_foldl P (replaceOnConflict P) (policySelector P) (inScopeNamespaces r w)
          { world := (resolveSelector P w).1, errs := [] }).1

theorem not_mem_inScope_names (r : ClusterNetworkPolicyReconciler) (w : World) (N : Namespace)
    (huniq : (w.namespaces.map (fun ns => ns.Name)).Nodup) (hN : N ∈ w.namespaces)
    (hbad : N.Phase ≠ NamespaceActive ∨
      EvaluateFilters r.ExcludedNamespaces r.IncludedNamespaces N.Name = false) :
    N.Name ∉ (inScopeNamespaces r w).map (fun ns => ns.Name) := by
  intro hmem
  obtain ⟨M, hM, hname⟩ := List.mem_map.1 hmem
  obtain ⟨hMw, hMact, hMscope⟩ := (mem_inScope r w M).1 hM
  have hMN : M = N := by
    have hinj := List.inj_on_of_nodup_map huniq
    exact hinj hMw hN hname
  subst hMN
  rcases hbad with h | h
  · exact h hMact
  · rw [h] at hMscope; exact Bool.false_ne_true hMscope

theorem referSameObject_controllerRef (P : ClusterNetworkPolicy) :
    referSameObject (controllerRef P) (controllerRef P) = true := by
  have hg : parseGroup policyAPIVersion = some "networking.desuuuu.com" := by decide
  simp [referSameObject, controllerRef, hg]

theorem upsertOwnerRef_idem (c : OwnerReference) (hc : referSameObject c c = true)
    (refs : List OwnerReference) :
    upsertOwnerRef c (upsertOwnerRef c refs) = upsertOwnerRef c refs := by
  induction refs with
  | nil => simp [upsertOwnerRef, hc]
  | cons r rs ih =>
    by_cases hr : referSameObject r c = true
    · simp [upsertOwnerRef, hr, hc]
    · simp [upsertOwnerRef, hr, ih]

theorem desiredFrom_idem (P : ClusterNetworkPolicy) (np : NetworkPolicy) :
    desiredFrom P (desiredFrom P np) = desiredFrom P np := by
  simp [desiredFrom, upsertOwnerRef_idem _ (referSameObject_controllerRef P)]

theorem Quiet.nothing (w : World) : Quiet w w :=
  ⟨rfl, rfl, rfl, rfl, rfl, [], by simp, by simp⟩

theorem Quiet.followedBy {w1 w2 w3 : World} (h12 : Quiet w1 w2) (h23 : Quiet w2 w3) :
    Quiet w1 w3 := by
  obtain ⟨e1, he1, hw1⟩ := h12.events
  obtain ⟨e2, he2, hw2⟩ := h23.events
  refine ⟨h23.store.trans h12.store, h23.calls.trans h12.calls, h23.faults.trans h12.faults,
    h23.namespaces.trans h12.namespaces, h23.policies.trans h12.policies,
    e1 ++ e2, by rw [he2, he1, List.append_assoc], ?_⟩
  intro e he
  rcases List.mem_append.1 he with h | h
  · exact hw1 e h
  · exact hw2 e h

theorem quiet_warning (w : World) (P : ClusterNetworkPolicy) (reason message : String)
    (hr : reason = "InvalidConfiguration" ∨ reason = "NetworkPolicyConflict") :
    Quiet w (w.Event P EventTypeWarning reason message) := by
  refine ⟨rfl, rfl, rfl, rfl, rfl, _, rfl, ?_⟩
  intro e he
  simp only [List.mem_singleton] at he
  subst he
  exact ⟨rfl, hr⟩

theorem setControllerReference_error (P : ClusterNetworkPolicy) (np : NetworkPolicy)
    (h : ¬ NoForeignController P np) :
    ∃ ex, SetControllerReference P np = .error (.alreadyOwned ex) := by
  unfold SetControllerReference
  cases hg : GetControllerOf np.OwnerReferences with
  | none => exact absurd (fun ref href => by simp [hg] at href) h
  | some ex =>
    have hx : ¬ referSameObject ex (controllerRef P) = true := by
      intro hx
      apply h
      intro ref href
      rw [hg] at href
      cases href
      exact hx
    exact ⟨ex, by simp [hx]⟩

theorem step_alreadyOwned {P : ClusterNetworkPolicy} {rep : Bool} {sel : Selector}
    {st : LoopState} {N : Namespace} {np : NetworkPolicy}
    (hm : sel.Matches N.Labels = true) (hget : st.world.Get N.Name P.Name = .ok np)
    (hnc : ¬ Conflicts P rep np) (hfc : ¬ NoForeignController P np) :
    (reconcileNamespace P rep sel st N).world = st.world := by
  obtain ⟨ex, hex⟩ := setControllerReference_error P np hfc
  have hmf : mutateFn P rep st.world np = (st.world, .error (.alreadyOwned ex)) := by
    unfold mutateFn
    unfold Conflicts at hnc
    rw [if_neg hnc, hex]
  unfold reconcileNamespace CreateOrPatch mutate
  simp [hm, hget, hmf]

theorem step_conflict_world {P : ClusterNetworkPolicy} {rep : Bool} {sel : Selector}
    {st : LoopState} {N : Namespace} {np : NetworkPolicy}
    (hm : sel.Matches N.Labels = true) (hget : st.world.Get N.Name P.Name = .ok np)
    (hc : Conflicts P rep np) :
    (reconcileNamespace P rep sel st N).world =
      st.world.Event P EventTypeWarning "NetworkPolicyConflict"
        ("NetworkPolicy conflict in namespace " ++ N.Name) := by
  obtain ⟨hrep, huid, hctl⟩ := hc
  subst hrep
  rw [step_conflict hm hget huid hctl]

theorem lookupNP_after_delete (store : List NetworkPolicy) (n name : String) :
    lookupNP (store.filter (fun y => !y.hasKey n name)) n name = none := by
  unfold lookupNP
  rw [List.find?_eq_none]
  intro x hx
  have := (List.mem_filter.1 hx).2
  simpa using this

theorem lookupNP_after_create (store : List NetworkPolicy) (x : NetworkPolicy)
    (h : lookupNP store x.Namespace x.Name = none) :
    lookupNP (store ++ [x]) x.Namespace x.Name = some x := by
  unfold lookupNP at *
  rw [List.find?_append, h]
  simp [NetworkPolicy.hasKey]

theorem settled_congr {P : ClusterNetworkPolicy} {rep : Bool} {sel : Selector}
    {s1 s2 : List NetworkPolicy} {N : Namespace}
    (h : lookupNP s2 N.Name P.Name = lookupNP s1 N.Name P.Name)
    (hs : Settled P rep sel s1 N) : Settled P rep sel s2 N := by
  unfold Settled at *
  rw [h]
  exact hs

/-- In a settled namespace whose get is served, the step writes nothing. -/
theorem quiet_step {P : ClusterNetworkPolicy} {rep : Bool} {sel : Selector}
    {st : LoopState} {N : Namespace}
    (hg : st.world.faults.get N.Name = none)
    (hs : Settled P rep sel st.world.networkPolicies N) :
    Quiet st.world (reconcileNamespace P rep sel st N).world := by
  unfold Settled at hs
  by_cases hm : sel.Matches N.Labels = false
  · rw [if_pos hm] at hs
    cases hl : lookupNP st.world.networkPolicies N.Name P.Name with
    | none =>
      have hget : st.world.Get N.Name P.Name = .error .NotFound := by
        simp [World.Get, hg, hl]
      have : reconcileNamespace P rep sel st N = st := by
        simp [reconcileNamespace, hm, hget, IsNotFound]
      rw [this]
      exact Quiet.nothing _
    | some np =>
      have hget : st.world.Get N.Name P.Name = .ok np := (get_ok_iff _ _ _ _).2 ⟨hg, hl⟩
      rw [step_skip_unowned hm hget (hs np hl)]
      exact Quiet.nothing _
  · rw [if_neg hm] at hs
    have hm2 : sel.Matches N.Labels = true := by simpa using hm
    obtain ⟨np, hl, hcase⟩ := hs
    have hget : st.world.Get N.Name P.Name = .ok np := (get_ok_iff _ _ _ _).2 ⟨hg, hl⟩
    by_cases hc : Conflicts P rep np
    · rw [step_conflict_world hm2 hget hc]
      exact quiet_warning _ _ _ _ (Or.inr rfl)
    · by_cases hfc : NoForeignController P np
      · have heq : np = desiredFrom P np := by
          rcases hcase with h | h | h
          · exact absurd h hc
          · exact absurd hfc h
          · exact h
        rw [step_unchanged hm2 hget hc hfc heq]
        exact Quiet.nothing _
      · rw [step_alreadyOwned hm2 hget hc hfc]
        exact Quiet.nothing _

/-- When every call is served, the step on `N` leaves `N` settled. -/
theorem settle_step {P : ClusterNetworkPolicy} {rep : Bool} {sel : Selector}
    {st : LoopState} {N : Namespace} (hnf : NoFaults st.world) :
    Settled P rep sel (reconcileNamespace P rep sel st N).world.networkPolicies N := by
  obtain ⟨hg, hcr, hpa, hde⟩ := hnf N.Name
  unfold Settled
  by_cases hm : sel.Matches N.Labels = false
  · rw [if_pos hm]
    cases hl : lookupNP st.world.networkPolicies N.Name P.Name with
    | none =>
      have hget : st.world.Get N.Name P.Name = .error .NotFound := by
        simp [World.Get, hg, hl]
      have : reconcileNamespace P rep sel st N = st := by
        simp [reconcileNamespace, hm, hget, IsNotFound]
      rw [this, hl]
      intro np h
      cases h
    | some np =>
      have hget : st.world.Get N.Name P.Name = .ok np := (get_ok_iff _ _ _ _).2 ⟨hg, hl⟩
      obtain ⟨hk1, hk2⟩ := get_hasKey hget
      by_cases hctl : IsControlledBy np P = false
      · rw [step_skip_unowned hm hget hctl, hl]
        intro x hx
        cases hx
        exact hctl
      · have hd : st.world.Delete np = (_, none) :=
          delete_ok (x := np) (by rw [hk1]; exact hde) (by rw [hk1, hk2]; exact hl)
        have hstep : (reconcileNamespace P rep sel st N).world.networkPolicies =
            st.world.networkPolicies.filter (fun y => !y.hasKey N.Name P.Name) := by
          simp [reconcileNamespace, hm, hget, hctl, hd, IsNotFound, hk1, hk2]
        rw [hstep, lookupNP_after_delete]
        intro x hx
        cases hx
  · rw [if_neg hm]
    have hm2 : sel.Matches N.Labels = true := by simpa using hm
    cases hl : lookupNP st.world.networkPolicies N.Name P.Name with
    | none =>
      have hget : st.world.Get N.Name P.Name = .error .NotFound := by
        simp [World.Get, hg, hl]
      rw [step_create hm2 hget hl hcr]
      have hc := @create_ok st.world (desiredFrom P { Name := P.Name, Namespace := N.Name })
        hcr hl
      refine ⟨{ desiredFrom P { Name := P.Name, Namespace := N.Name } with
        UID := st.world.newUID N.Name P.Name }, ?_, Or.inr (Or.inr ?_)⟩
      · show lookupNP (st.world.Create _).1.networkPolicies N.Name P.Name = _
        rw [hc]
        exact lookupNP_after_create st.world.networkPolicies
          { desiredFrom P { Name := P.Name, Namespace := N.Name } with
            UID := st.world.newUID N.Name P.Name } hl
      · simp [desiredFrom, upsertOwnerRef, referSameObject_controllerRef]
    | some np =>
      have hget : st.world.Get N.Name P.Name = .ok np := (get_ok_iff _ _ _ _).2 ⟨hg, hl⟩
      obtain ⟨hk1, hk2⟩ := get_hasKey hget
      by_cases hc : Conflicts P rep np
      · rw [step_conflict_world hm2 hget hc]
        exact ⟨np, hl, Or.inl hc⟩
      · by_cases hfc : NoForeignController P np
        · by_cases heq : np = desiredFrom P np
          · rw [step_unchanged hm2 hget hc hfc heq]
            exact ⟨np, hl, Or.inr (Or.inr heq)⟩
          · rw [step_update hm2 hget hc hfc heq hpa]
            have hl2 : lookupNP st.world.networkPolicies (desiredFrom P np).Namespace
                (desiredFrom P np).Name = some np := by
              rw [(desiredFrom_key P np).1, (desiredFrom_key P np).2, hk1, hk2]; exact hl
            have hp := @patch_ok st.world (desiredFrom P np) np
              (by rw [(desiredFrom_key P np).1, hk1]; exact hpa) hl2
            refine ⟨desiredFrom P np, ?_, Or.inr (Or.inr (desiredFrom_idem P np).symm)⟩
            show lookupNP (st.world.Patch _).1.networkPolicies N.Name P.Name = _
            rw [hp, ← hk1, ← hk2]
            exact lookupNP_map_replace st.world.networkPolicies (desiredFrom P np) np hl2
        · rw [step_alreadyOwned hm2 hget hc hfc]
          exact ⟨np, hl, Or.inr (Or.inl hfc)⟩

theorem noFaults_of_faults_eq {w1 w2 : World} (h : w2.faults = w1.faults) (hnf : NoFaults w1) :
    NoFaults w2 := by
  intro n
  rw [h]
  exact hnf n

/-- After a pass in which every call was served, every visited namespace is settled. -/
theorem all_settled (P : ClusterNetworkPolicy) (rep : Bool) (sel : Selector)
    (l : List Namespace) (hnd : (l.map (fun ns => ns.Name)).Nodup) (st0 : LoopState)
    (hnf : NoFaults st0.world) (N : Namespace) (hN : N ∈ l) :
    Settled P rep sel (l.foldl (reconcileNamespace P rep sel) st0).world.networkPolicies N := by
  obtain ⟨st1, S1, S2, -, hS2, t1, -, t2, -⟩ := loop_visit P rep sel l N hN hnd st0
  have hnf1 : NoFaults st1.world := noFaults_of_faults_eq t1.faults hnf
  exact settled_congr (touches_lookup t2 hS2 P.Name) (settle_step hnf1)

/-- A pass over settled namespaces whose gets are served writes nothing. -/
theorem quiet_foldl (P : ClusterNetworkPolicy) (rep : Bool) (sel : Selector)
    (l : List Namespace) (st : LoopState)
    (hg : ∀ n, st.world.faults.get n = none)
    (hs : ∀ N ∈ l, Settled P rep sel st.world.networkPolicies N) :
    Quiet st.world (l.foldl (reconcileNamespace P rep sel) st).world := by
  induction l generalizing st with
  | nil => exact Quiet.nothing _
  | cons a l ih =>
    rw [List.foldl_cons]
    have q1 := quiet_step (hg a.Name) (hs a (List.mem_cons_self _ _))
    have q2 := ih (reconcileNamespace P rep sel st a)
      (by intro n; rw [q1.faults]; exact hg n)
      (by
        intro N hN
        rw [q1.store]
        exact hs N (List.mem_cons_of_mem _ hN))
    exact q1.followedBy q2

theorem quiet_resolveSelector (P : ClusterNetworkPolicy) (w : World) :
    Quiet w (resolveSelector P w).1 := by
  unfold resolveSelector
  cases LabelSelectorAsSelector P.Spec.NamespaceSelector
  · exact quiet_warning _ _ _ _ (Or.inl rfl)
  · exact Quiet.nothing _

theorem Reconcile_world_of_no_pass (r : ClusterNetworkPolicyReconciler) (w : World)
    (req : Request)
    (h : (∃ e, w.GetPolicy req.Name = .error e) ∨ (∃ e, w.faults.listNamespaces = some e)) :
    (Reconcile r w req).2.2 = w := by
  unfold Reconcile
  cases hP : w.GetPolicy req.Name with
  | error e =>
    simp only
    split <;> rfl
  | ok P =>
    rcases h with ⟨e, he⟩ | ⟨e, he⟩
    · rw [hP] at he; cases he
    · have : listNamespaces r w = .error e := by
        simp [listNamespaces, World.ListNamespaces, he]
      simp only [this]

theorem getPolicy_congr {w1 w2 : World} (hf : w2.faults = w1.faults)
    (hp : w2.clusterNetworkPolicies = w1.clusterNetworkPolicies) (name : String) :
    w2.GetPolicy name = w1.GetPolicy name := by
  unfold World.GetPolicy
  rw [hf, hp]

theorem inScopeNamespaces_congr (r : ClusterNetworkPolicyReconciler) {w1 w2 : World}
    (h : w2.namespaces = w1.namespaces) : inScopeNamespaces r w2 = inScopeNamespaces r w1 := by
  unfold inScopeNamespaces
  rw [h]

/-- With every call on NetworkPolicies served and distinct namespace names,
the world after a second `Reconcile` is the world after the first one with only
repeated warning events added. -/
theorem second_pass_quiet (r : ClusterNetworkPolicyReconciler) (w : World) (req : Request)
    (hnf : NoFaults w) (huniq : (w.namespaces.map (fun ns => ns.Name)).Nodup) :
    Quiet (Reconcile r w req).2.2 (Reconcile r (Reconcile r w req).2.2 req).2.2 := by
  cases hP : w.GetPolicy req.Name with
  | error e =>
    rw [Reconcile_world_of_no_pass r w req (Or.inl ⟨e, hP⟩),
      Reconcile_world_of_no_pass r w req (Or.inl ⟨e, hP⟩)]
    exact Quiet.nothing _
  | ok P =>
    cases hl : w.faults.listNamespaces with
    | some e =>
      rw [Reconcile_world_of_no_pass r w req (Or.inr ⟨e, hl⟩),
        Reconcile_world_of_no_pass r w req (Or.inr ⟨e, hl⟩)]
      exact Quiet.nothing _
    | none =>
      have tt := Reconcile_touches r w req
      rw [Reconcile_world r w req P hP hl] at tt ⊢
      have hP1 : (loopResult r w P).world.GetPolicy req.Name = .ok P := by
        rw [getPolicy_congr tt.faults tt.policies]; exact hP
      have hl1 : (loopResult r w P).world.faults.listNamespaces = none := by
        rw [tt.faults]; exact hl
      rw [Reconcile_world r _ req P hP1 hl1]
      have hset : ∀ N ∈ inScopeNamespaces r w,
          Settled P (replaceOnConflict P) (policySelector P)
            (loopResult r w P).world.networkPolicies N :=
        fun N hN =>
          all_settled P (replaceOnConflict P) (policySelector P) (inScopeNamespaces r w)
            (inScope_nodup r w huniq) { world := (resolveSelector P w).1, errs := [] }
            (noFaults_of_faults_eq (touches_resolveSelector [] P w).faults hnf) N hN
      have hns := tt.namespaces
      have hfa := tt.faults
      generalize (loopResult r w P).world = w1 at hset hns hfa ⊢
      have q0 := quiet_resolveSelector P w1
      refine q0.followedBy ?_
      unfold loopResult
      rw [inScopeNamespaces_congr r hns]
      apply quiet_foldl P (replaceOnConflict P) (policySelector P) (inScopeNamespaces r w)
        { world := (resolveSelector P w1).1, errs := [] }
      · intro n
        show (resolveSelector P w1).1.faults.get n = none
        rw [q0.faults, hfa]
        exact (hnf n).1
      · intro N hN
        show Settled P (replaceOnConflict P) (policySelector P)
          (resolveSelector P w1).1.networkPolicies N
        rw [q0.store]
        exact hset N hN

/-- The step on a non-matching namespace that holds a NetworkPolicy controlled
by `P`, when the delete is served: the object is deleted, and the nil error of
the successful delete is appended to `errs`; no event is recorded. -/
theorem step_delete_served {P : ClusterNetworkPolicy} {rep : Bool} {sel : Selector}
    {st : LoopState} {N : Namespace} {np : NetworkPolicy}
    (hm : sel.Matches N.Labels = false) (hget : st.world.Get N.Name P.Name = .ok np)
    (hctl : IsControlledBy np P = true) (hdel : st.world.faults.delete N.Name = none) :
    reconcileNamespace P rep sel st N =
      { world := { st.world with
          calls := st.world.calls ++ [Call.delete N.Name P.Name]
          networkPolicies := st.world.networkPolicies.filter (fun y => !y.hasKey N.Name P.Name) },
        errs := st.errs ++ [.delete N.Name none] } := by
  obtain ⟨hk1, hk2⟩ := get_hasKey hget
  have hl := ((get_ok_iff _ _ _ _).1 hget).2
  have hd : st.world.Delete np = (_, none) :=
    delete_ok (x := np) (by rw [hk1]; exact hdel) (by rw [hk1, hk2]; exact hl)
  simp [reconcileNamespace, hm, hget, hctl, hd, IsNotFound, hk1, hk2]

/-! ## Lemmas for the invalid selector and for the filter laws -/

theorem policySelector_invalid (P : ClusterNetworkPolicy)
    (h : LabelSelectorAsSelector P.Spec.NamespaceSelector = none) :
    policySelector P = Selector.nothing := by
  simp [policySelector, h]

theorem resolveSelector_invalid (P : ClusterNetworkPolicy) (w : World)
    (h : LabelSelectorAsSelector P.Spec.NamespaceSelector = none) :
    (resolveSelector P w).1 =
      w.Event P EventTypeWarning "InvalidConfiguration" "Invalid namespace selector" := by
  simp [resolveSelector, h]

/-- A step on a namespace that does not match issues at most a delete and
only removes objects from the store. -/
theorem step_nonmatching (P : ClusterNetworkPolicy) (rep : Bool) (sel : Selector)
    (st : LoopState) (N : Namespace) (hm : sel.Matches N.Labels = false) :
    (∃ cs, (reconcileNamespace P rep sel st N).world.calls = st.world.calls ++ cs ∧
      ∀ c ∈ cs, c.isDelete = true) ∧
    (reconcileNamespace P rep sel st N).world.networkPolicies.Sublist
      st.world.networkPolicies := by
  unfold reconcileNamespace
  simp only [hm, if_true]
  split
  · split
    · exact ⟨⟨[], by simp, by simp⟩, List.Sublist.refl _⟩
    · exact ⟨⟨[], by simp, by simp⟩, List.Sublist.refl _⟩
  · next found hget =>
    split
    · exact ⟨⟨[], by simp, by simp⟩, List.Sublist.refl _⟩
    · have hd : (∃ cs, (st.world.Delete found).1.calls = st.world.calls ++ cs ∧
          ∀ c ∈ cs, c.isDelete = true) ∧
          (st.world.Delete found).1.networkPolicies.Sublist st.world.networkPolicies := by
        unfold World.Delete
        simp only
        split
        · exact ⟨⟨_, rfl, by simp [Call.isDelete]⟩, List.Sublist.refl _⟩
        · split
          · exact ⟨⟨_, rfl, by simp [Call.isDelete]⟩, List.Sublist.refl _⟩
          · exact ⟨⟨_, rfl, by simp [Call.isDelete]⟩, List.filter_sublist _⟩
      split
      · exact hd
      · exact hd

theorem foldl_nothing (P : ClusterNetworkPolicy) (rep : Bool) (l : List Namespace)
    (st : LoopState) :
    (∃ cs, (l.foldl (reconcileNamespace P rep Selector.nothing) st).world.calls =
        st.world.calls ++ cs ∧ ∀ c ∈ cs, c.isDelete = true) ∧
    (l.foldl (reconcileNamespace P rep Selector.nothing) st).world.networkPolicies.Sublist
      st.world.networkPolicies := by
  induction l generalizing st with
  | nil => exact ⟨⟨[], by simp, by simp⟩, List.Sublist.refl _⟩
  | cons a l ih =>
    rw [List.foldl_cons]
    obtain ⟨⟨c1, hc1, hd1⟩, hs1⟩ := step_nonmatching P rep Selector.nothing st a rfl
    obtain ⟨⟨c2, hc2, hd2⟩, hs2⟩ := ih (reconcileNamespace P rep Selector.nothing st a)
    refine ⟨⟨c1 ++ c2, by rw [hc2, hc1, List.append_assoc], ?_⟩, hs2.trans hs1⟩
    intro c hc
    rcases List.mem_append.1 hc with h | h
    · exact hd1 c h
    · exact hd2 c h

theorem any_congr_of_mem_iff {l1 l2 : List String} (p : String → Bool)
    (h : ∀ x, x ∈ l1 ↔ x ∈ l2) : l1.any p = l2.any p := by
  rw [Bool.eq_iff_iff, List.any_eq_true, List.any_eq_true]
  constructor
  · rintro ⟨x, hx, hp⟩; exact ⟨x, (h x).1 hx, hp⟩
  · rintro ⟨x, hx, hp⟩; exact ⟨x, (h x).2 hx, hp⟩

theorem eq_nil_congr_of_mem_iff {l1 l2 : List String} (h : ∀ x, x ∈ l1 ↔ x ∈ l2) :
    l1 = [] ↔ l2 = [] := by
  rw [List.eq_nil_iff_forall_not_mem, List.eq_nil_iff_forall_not_mem]
  exact forall_congr' (fun x => not_congr (h x))

/-! ## Lemmas on `Set` -/

theorem hasSuffix_star (t : String) :
    HasSuffix t "*" = true ↔ t.data.getLast? = some '*' := by
  unfold HasSuffix
  rw [List.isSuffixOf_iff_suffix]
  show ['*'] <:+ t.data ↔ _
  constructor
  · rintro ⟨l, hl⟩
    rw [← hl]
    simp
  · intro h
    obtain ⟨hne, hlast⟩ := List.getLast?_eq_some_iff.1 h
    exact ⟨hne, hlast.symm⟩

theorem hasPrefix_star (t : String) :
    HasPrefix t "*" = true ↔ t.data.head? = some '*' := by
  unfold HasPrefix
  rw [List.isPrefixOf_iff_prefix]
  show ['*'] <+: t.data ↔ _
  constructor
  · rintro ⟨l, hl⟩
    rw [← hl]
    simp
  · intro h
    cases ht : t.data with
    | nil => rw [ht] at h; simp at h
    | cons a l =>
      rw [ht] at h
      simp only [List.head?_cons, Option.some.injEq] at h
      subst h
      exact ⟨l, rfl⟩

theorem containsAny_bad (p : String) : ContainsAny p "* " = true ↔ badPattern p.data := by
  unfold ContainsAny badPattern
  rw [List.any_eq_true]
  show (∃ x, x ∈ p.data ∧ ['*', ' '].contains x = true) ↔ _
  constructor
  · rintro ⟨x, hx, hc⟩
    have hc2 : x = '*' ∨ x = ' ' := by simpa using hc
    rcases hc2 with h | h
    · exact Or.inl (h ▸ hx)
    · exact Or.inr (h ▸ hx)
  · rintro (h | h)
    · exact ⟨_, h, by simp⟩
    · exact ⟨_, h, by simp⟩

/-- One round of the loop of `Set` does to the filters what the grammar says
of the entry. -/
theorem setLoop_cons (e : String) (rest : List String) (f : Filters) :
    Filters.setLoop (e :: rest) f =
      match classify e with
      | .skip => Filters.setLoop rest f
      | .exact p => Filters.setLoop rest { f with Exact := f.Exact ++ [p] }
      | .pre p => Filters.setLoop rest { f with Prefix := f.Prefix ++ [p] }
      | .suf p => Filters.setLoop rest { f with Suffix := f.Suffix ++ [p] }
      | .invalid => (f, some "invalid filter") := by
  rw [Filters.setLoop]
  unfold classify CutSuffix CutPrefix
  have hlen : ("*" : String).data.length = 1 := rfl
  by_cases h1 : (TrimSpace e).data.getLast? = some '*'
  · have hs : HasSuffix (TrimSpace e) "*" = true := (hasSuffix_star _).2 h1
    simp only [hs, if_true, h1, hlen, ← List.dropLast_eq_take]
    by_cases hb : badPattern (TrimSpace e).data.dropLast
    · have hc := (containsAny_bad ⟨(TrimSpace e).data.dropLast⟩).2 hb
      simp [hc, hb]
    · have hc : ¬ ContainsAny ⟨(TrimSpace e).data.dropLast⟩ "* " = true :=
        fun h => hb ((containsAny_bad _).1 h)
      simp [hc, hb]
  · have hs : ¬ HasSuffix (TrimSpace e) "*" = true := fun h => h1 ((hasSuffix_star _).1 h)
    simp only [hs, if_false, h1]
    by_cases h2 : (TrimSpace e).data.head? = some '*'
    · have hp : HasPrefix (TrimSpace e) "*" = true := (hasPrefix_star _).2 h2
      simp only [hp, if_true, h2, hlen, List.drop_one]
      by_cases hb : badPattern (TrimSpace e).data.tail
      · have hc := (containsAny_bad ⟨(TrimSpace e).data.tail⟩).2 hb
        simp [hc, hb]
      · have hc : ¬ ContainsAny ⟨(TrimSpace e).data.tail⟩ "* " = true :=
          fun h => hb ((containsAny_bad _).1 h)
        simp [hc, hb]
    · have hp : ¬ HasPrefix (TrimSpace e) "*" = true := fun h => h2 ((hasPrefix_star _).1 h)
      simp only [hp, if_false, h2]
      by_cases h3 : (TrimSpace e).data = []
      · have h3s : TrimSpace e = "" := String.ext h3
        simp [h3, h3s]
      · have h3s : ¬ TrimSpace e = "" := fun h => h3 (by rw [h])
        simp only [h3s, if_false, h3]
        by_cases hb : badPattern (TrimSpace e).data
        · have hc := (containsAny_bad (TrimSpace e)).2 hb
          simp [hc, hb]
        · have hc : ¬ ContainsAny (TrimSpace e) "* " = true :=
            fun h => hb ((containsAny_bad _).1 h)
          simp [hc, hb]

/-- When no entry is invalid, the loop appends the patterns of the entries, kind
by kind and in input order, and returns no error. -/
theorem setLoop_valid (entries : List String) (f : Filters)
    (h : ∀ e ∈ entries, classify e ≠ .invalid) :
    Filters.setLoop entries f =
      ({ f with
          Exact := f.Exact ++ (entries.map classify).filterMap Entry.exactPattern
          Prefix := f.Prefix ++ (entries.map classify).filterMap Entry.prefixPattern
          Suffix := f.Suffix ++ (entries.map classify).filterMap Entry.suffixPattern },
        none) := by
  induction entries generalizing f with
  | nil => simp [Filters.setLoop]
  | cons e rest ih =>
    have hrest : ∀ x ∈ rest, classify x ≠ .invalid :=
      fun x hx => h x (List.mem_cons_of_mem _ hx)
    have he := h e (List.mem_cons_self _ _)
    rw [setLoop_cons]
    cases hc : classify e with
    | skip => simp [ih f hrest, hc, Entry.exactPattern, Entry.prefixPattern, Entry.suffixPattern]
    | exact p =>
      simp [ih _ hrest, hc, Entry.exactPattern, Entry.prefixPattern, Entry.suffixPattern]
    | pre p =>
      simp [ih _ hrest, hc, Entry.exactPattern, Entry.prefixPattern, Entry.suffixPattern]
    | suf p =>
      simp [ih _ hrest, hc, Entry.exactPattern, Entry.prefixPattern, Entry.suffixPattern]
    | invalid => exact absurd hc he

/-- An invalid entry makes the loop return the error. -/
theorem setLoop_invalid (entries : List String) (f : Filters)
    (h : ∃ e ∈ entries, classify e = .invalid) :
    (Filters.setLoop entries f).2 = some "invalid filter" := by
  induction entries generalizing f with
  | nil => obtain ⟨e, he, -⟩ := h; cases he
  | cons e rest ih =>
    rw [setLoop_cons]
    cases hc : classify e with
    | invalid => rfl
    | skip =>
      obtain ⟨x, hx, hxi⟩ := h
      rcases List.mem_cons.1 hx with rfl | hx
      · rw [hc] at hxi; cases hxi
      · exact ih _ ⟨x, hx, hxi⟩
    | exact p =>
      obtain ⟨x, hx, hxi⟩ := h
      rcases List.mem_cons.1 hx with rfl | hx
      · rw [hc] at hxi; cases hxi
      · exact ih _ ⟨x, hx, hxi⟩
    | pre p =>
      obtain ⟨x, hx, hxi⟩ := h
      rcases List.mem_cons.1 hx with rfl | hx
      · rw [hc] at hxi; cases hxi
      · exact ih _ ⟨x, hx, hxi⟩
    | suf p =>
      obtain ⟨x, hx, hxi⟩ := h
      rcases List.mem_cons.1 hx with rfl | hx
      · rw [hc] at hxi; cases hxi
      · exact ih _ ⟨x, hx, hxi⟩

theorem set_eq_setLoop (f : Filters) (value : String) :
    f.Set value = Filters.setLoop (Split value ',') (setBase f) := rfl

theorem setBase_flagSet (f : Filters) : (setBase f).flagSet = true := by
  unfold setBase
  cases h : f.flagSet <;> simp [h, Filters.Clear]

theorem invalid_mem_entriesOf (value : String) :
    Entry.invalid ∈ entriesOf value ↔ ∃ e ∈ Split value ',', classify e = .invalid := by
  simp [entriesOf, List.mem_map]

/-- An entry that holds a space after trimming is invalid. -/
theorem classify_space (e : String) (h : ' ' ∈ (TrimSpace e).data) :
    classify e = .invalid := by
  unfold classify
  simp only
  have hne : (TrimSpace e).data ≠ [] := List.ne_nil_of_mem h
  by_cases h1 : (TrimSpace e).data.getLast? = some '*'
  · have hb : badPattern (TrimSpace e).data.dropLast := by
      right
      have hsplit := List.dropLast_append_getLast hne
      have hl : (TrimSpace e).data.getLast hne = '*' := by
        have := List.getLast?_eq_getLast _ hne
        rw [h1] at this
        exact (Option.some.inj this).symm
      rw [← hsplit, hl, List.mem_append] at h
      rcases h with h | h
      · exact h
      · simp at h
    simp [h1, hb]
  · by_cases h2 : (TrimSpace e).data.head? = some '*'
    · have hb : badPattern (TrimSpace e).data.tail := by
        right
        cases ht : (TrimSpace e).data with
        | nil => exact absurd ht hne
        | cons a l =>
          rw [ht] at h h2
          simp only [List.head?_cons, Option.some.injEq] at h2
          subst h2
          simpa using h
      simp [h1, h2, hb]
    · have hb : badPattern (TrimSpace e).data := Or.inr h
      simp [h1, h2, hne, hb]

/-- Every pattern the loop appends is free of `*` and of spaces. -/
theorem setLoop_accepts_clean (entries : List String) (f : Filters) :
    (∀ p ∈ (Filters.setLoop entries f).1.Exact, p ∈ f.Exact ∨ ¬ badPattern p.data) ∧
    (∀ p ∈ (Filters.setLoop entries f).1.Prefix, p ∈ f.Prefix ∨ ¬ badPattern p.data) ∧
    (∀ p ∈ (Filters.setLoop entries f).1.Suffix, p ∈ f.Suffix ∨ ¬ badPattern p.data) := by
  induction entries generalizing f with
  | nil =>
    rw [Filters.setLoop]
    exact ⟨fun p hp => Or.inl hp, fun p hp => Or.inl hp, fun p hp => Or.inl hp⟩
  | cons e rest ih =>
    rw [setLoop_cons]
    cases hc : classify e with
    | invalid => exact ⟨fun p hp => Or.inl hp, fun p hp => Or.inl hp, fun p hp => Or.inl hp⟩
    | skip => exact ih f
    | exact p =>
      have hclean : ¬ badPattern p.data := by
        unfold classify at hc
        simp only at hc
        split at hc
        · split at hc <;> cases hc
        · split at hc
          · split at hc <;> cases hc
          · split at hc
            · cases hc
            · split at hc
              · cases hc
              · next hb => cases hc; exact hb
      obtain ⟨i1, i2, i3⟩ := ih { f with Exact := f.Exact ++ [p] }
      refine ⟨fun q hq => ?_, i2, i3⟩
      rcases i1 q hq with h | h
      · rcases List.mem_append.1 h with h | h
        · exact Or.inl h
        · simp only [List.mem_singleton] at h; subst h; exact Or.inr hclean
      · exact Or.inr h
    | pre p =>
      have hclean : ¬ badPattern p.data := by
        unfold classify at hc
        simp only at hc
        split at hc
        · split at hc
          · cases hc
          · next hb => cases hc; exact hb
        · split at hc
          · split at hc <;> cases hc
          · split at hc
            · cases hc
            · split at hc <;> cases hc
      obtain ⟨i1, i2, i3⟩ := ih { f with Prefix := f.Prefix ++ [p] }
      refine ⟨i1, fun q hq => ?_, i3⟩
      rcases i2 q hq with h | h
      · rcases List.mem_append.1 h with h | h
        · exact Or.inl h
        · simp only [List.mem_singleton] at h; subst h; exact Or.inr hclean
      · exact Or.inr h
    | suf p =>
      have hclean : ¬ badPattern p.data := by
        unfold classify at hc
        simp only at hc
        split at hc
        · split at hc <;> cases hc
        · split at hc
          · split at hc
            · cases hc
            · next hb => cases hc; exact hb
          · split at hc
            · cases hc
            · split at hc <;> cases hc
      obtain ⟨i1, i2, i3⟩ := ih { f with Suffix := f.Suffix ++ [p] }
      refine ⟨i1, i2, fun q hq => ?_⟩
      rcases i3 q hq with h | h
      · rcases List.mem_append.1 h with h | h
        · exact Or.inl h
        · simp only [List.mem_singleton] at h; subst h; exact Or.inr hclean
      · exact Or.inr h

/-- What the loop appends, and the error it returns, do not depend on the
filters it starts from. -/
theorem setLoop_delta (entries : List String) :
    ∃ (dE dP dS : List String) (err : Option String), ∀ f : Filters,
      Filters.setLoop entries f =
        ({ f with Exact := f.Exact ++ dE, Prefix := f.Prefix ++ dP, Suffix := f.Suffix ++ dS },
          err) := by
  induction entries with
  | nil => exact ⟨[], [], [], none, fun f => by simp [Filters.setLoop]⟩
  | cons e rest ih =>
    obtain ⟨dE, dP, dS, err, h⟩ := ih
    cases hc : classify e with
    | skip => exact ⟨dE, dP, dS, err, fun f => by rw [setLoop_cons, hc]; exact h f⟩
    | invalid =>
      exact ⟨[], [], [], some "invalid filter", fun f => by rw [setLoop_cons, hc]; simp⟩
    | exact p =>
      exact ⟨p :: dE, dP, dS, err, fun f => by rw [setLoop_cons, hc]; simp [h]⟩
    | pre p =>
      exact ⟨dE, p :: dP, dS, err, fun f => by rw [setLoop_cons, hc]; simp [h]⟩
    | suf p =>
      exact ⟨dE, dP, p :: dS, err, fun f => by rw [setLoop_cons, hc]; simp [h]⟩

theorem setBase_of_not_flagSet (f : Filters) (h : f.flagSet = false) :
    setBase f = { Exact := [], Prefix := [], Suffix := [], flagSet := true } := by
  simp [setBase, h, Filters.Clear]

theorem setBase_of_flagSet (f : Filters) (h : f.flagSet = true) : setBase f = f := by
  simp [setBase, h]

/-! ## Lemmas on the independence of the namespaces of a pass -/

theorem sim_start {n : String} {w1 w2 : World} (hf : w2.faults = w1.faults)
    (hu : w2.newUID = w1.newUID)
    (hs : nsFilter n w2.networkPolicies = nsFilter n w1.networkPolicies) :
    Sim n w1 w2 w1 w2 :=
  ⟨hf, hu, hs, ⟨[], by simp, by simp⟩, ⟨[], by simp, by simp⟩⟩

theorem sim_get {n : String} {b1 b2 w1 w2 : World} (h : Sim n b1 b2 w1 w2) (name : String) :
    w2.Get n name = w1.Get n name :=
  get_congr h.faults h.store name

theorem sim_lookup {n : String} {b1 b2 w1 w2 : World} (h : Sim n b1 b2 w1 w2) (name : String) :
    lookupNP w2.networkPolicies n name = lookupNP w1.networkPolicies n name := by
  rw [← lookupNP_nsFilter w2.networkPolicies, h.store, lookupNP_nsFilter]

theorem sim_Event {n : String} {b1 b2 w1 w2 : World} (h : Sim n b1 b2 w1 w2)
    (P : ClusterNetworkPolicy) (t r m : String) :
    Sim n b1 b2 (w1.Event P t r m) (w2.Event P t r m) := by
  obtain ⟨es, h1, h2⟩ := h.events
  refine ⟨h.faults, h.newUID, h.store, h.calls, es ++ [⟨P.Name, t, r, m⟩], ?_, ?_⟩
  · simp [World.Event, h1]
  · simp [World.Event, h2]

theorem sim_call {n : String} {b1 b2 w1 w2 : World} (h : Sim n b1 b2 w1 w2) (c : Call) :
    ∃ cs, w1.calls ++ [c] = b1.calls ++ cs ∧ w2.calls ++ [c] = b2.calls ++ cs := by
  obtain ⟨cs, h1, h2⟩ := h.calls
  exact ⟨cs ++ [c], by rw [h1, List.append_assoc], by rw [h2, List.append_assoc]⟩

theorem sim_Create {n : String} {b1 b2 w1 w2 : World} (h : Sim n b1 b2 w1 w2)
    (obj : NetworkPolicy) (hn : obj.Namespace = n) :
    (w2.Create obj).2 = (w1.Create obj).2 ∧ Sim n b1 b2 (w1.Create obj).1 (w2.Create obj).1 := by
  have hl := sim_lookup h obj.Name
  have hc := sim_call h (Call.create obj.Namespace obj.Name)
  subst hn
  unfold World.Create
  simp only [h.faults, hl, h.newUID]
  cases w1.faults.create obj.Namespace with
  | some e => exact ⟨rfl, ⟨rfl, rfl, h.store, hc, h.events⟩⟩
  | none =>
    cases lookupNP w1.networkPolicies obj.Namespace obj.Name with
    | some x => exact ⟨rfl, ⟨rfl, rfl, h.store, hc, h.events⟩⟩
    | none =>
      refine ⟨rfl, ⟨rfl, rfl, ?_, hc, h.events⟩⟩
      have := h.store
      simp only [nsFilter, List.filter_append] at this ⊢
      rw [this]

theorem sim_Patch {n : String} {b1 b2 w1 w2 : World} (h : Sim n b1 b2 w1 w2)
    (obj : NetworkPolicy) (hn : obj.Namespace = n) :
    (w2.Patch obj).2 = (w1.Patch obj).2 ∧ Sim n b1 b2 (w1.Patch obj).1 (w2.Patch obj).1 := by
  have hl := sim_lookup h obj.Name
  have hc := sim_call h (Call.patch obj.Namespace obj.Name)
  subst hn
  unfold World.Patch
  simp only [h.faults, hl]
  cases w1.faults.patch obj.Namespace with
  | some e => exact ⟨rfl, ⟨rfl, h.newUID, h.store, hc, h.events⟩⟩
  | none =>
    cases lookupNP w1.networkPolicies obj.Namespace obj.Name with
    | none => exact ⟨rfl, ⟨rfl, h.newUID, h.store, hc, h.events⟩⟩
    | some x =>
      refine ⟨rfl, ⟨rfl, h.newUID, ?_, hc, h.events⟩⟩
      have hcomm : ∀ s : List NetworkPolicy,
          nsFilter obj.Namespace
            (s.map (fun y => if y.hasKey obj.Namespace obj.Name then obj else y)) =
          (nsFilter obj.Namespace s).map
            (fun y => if y.hasKey obj.Namespace obj.Name then obj else y) := by
        intro s
        induction s with
        | nil => rfl
        | cons a l ih =>
          simp only [nsFilter, List.map_cons, List.filter_cons] at ih ⊢
          by_cases hk : a.hasKey obj.Namespace obj.Name = true
          · have ha : a.Namespace = obj.Namespace := by
              simp only [NetworkPolicy.hasKey, decide_eq_true_eq] at hk
              exact hk.1
            simp [hk, ha, ih]
          · by_cases ha : a.Namespace = obj.Namespace <;> simp [hk, ha, ih]
      show nsFilter obj.Namespace (w2.networkPolicies.map _) =
        nsFilter obj.Namespace (w1.networkPolicies.map _)
      rw [hcomm, hcomm, h.store]

theorem sim_Delete {n : String} {b1 b2 w1 w2 : World} (h : Sim n b1 b2 w1 w2)
    (obj : NetworkPolicy) (hn : obj.Namespace = n) :
    (w2.Delete obj).2 = (w1.Delete obj).2 ∧ Sim n b1 b2 (w1.Delete obj).1 (w2.Delete obj).1 := by
  have hl := sim_lookup h obj.Name
  have hc := sim_call h (Call.delete obj.Namespace obj.Name)
  subst hn
  unfold World.Delete
  simp only [h.faults, hl]
  cases w1.faults.delete obj.Namespace with
  | some e => exact ⟨rfl, ⟨rfl, h.newUID, h.store, hc, h.events⟩⟩
  | none =>
    cases lookupNP w1.networkPolicies obj.Namespace obj.Name with
    | none => exact ⟨rfl, ⟨rfl, h.newUID, h.store, hc, h.events⟩⟩
    | some x =>
      refine ⟨rfl, ⟨rfl, h.newUID, ?_, hc, h.events⟩⟩
      have := h.store
      simp only [nsFilter] at this ⊢
      rw [List.filter_comm, this, List.filter_comm]

theorem sim_mutateFn {n : String} {b1 b2 w1 w2 : World} (h : Sim n b1 b2 w1 w2)
    (P : ClusterNetworkPolicy) (rep : Bool) (np : NetworkPolicy) :
    (mutateFn P rep w2 np).2 = (mutateFn P rep w1 np).2 ∧
      Sim n b1 b2 (mutateFn P rep w1 np).1 (mutateFn P rep w2 np).1 := by
  unfold mutateFn
  split
  · exact ⟨rfl, sim_Event h _ _ _ _⟩
  · split
    · exact ⟨rfl, h⟩
    · exact ⟨rfl, h⟩

theorem sim_mutate {n : String} {b1 b2 w1 w2 : World} (h : Sim n b1 b2 w1 w2)
    (P : ClusterNetworkPolicy) (rep : Bool) (ns name : String) (np : NetworkPolicy) :
    (mutate (mutateFn P rep) ns name w2 np).2 = (mutate (mutateFn P rep) ns name w1 np).2 ∧
      Sim n b1 b2 (mutate (mutateFn P rep) ns name w1 np).1
        (mutate (mutateFn P rep) ns name w2 np).1 := by
  obtain ⟨hr, hs⟩ := sim_mutateFn h P rep np
  unfold mutate
  rcases h1 : mutateFn P rep w1 np with ⟨a1, r1⟩
  rcases h2 : mutateFn P rep w2 np with ⟨a2, r2⟩
  rw [h1, h2] at hr hs
  simp only at hr hs
  subst hr
  cases r2 with
  | error e => exact ⟨rfl, hs⟩
  | ok obj1 =>
    simp only
    split
    · exact ⟨rfl, hs⟩
    · exact ⟨rfl, hs⟩

theorem sim_CreateOrPatch {n : String} {b1 b2 w1 w2 : World} (h : Sim n b1 b2 w1 w2)
    (P : ClusterNetworkPolicy) (rep : Bool) (obj : NetworkPolicy) (hn : obj.Namespace = n) :
    (CreateOrPatch w2 obj (mutateFn P rep)).2 = (CreateOrPatch w1 obj (mutateFn P rep)).2 ∧
      Sim n b1 b2 (CreateOrPatch w1 obj (mutateFn P rep)).1
        (CreateOrPatch w2 obj (mutateFn P rep)).1 := by
  have hg : w2.Get obj.Namespace obj.Name = w1.Get obj.Namespace obj.Name := by
    rw [hn]; exact sim_get h _
  unfold CreateOrPatch
  rw [hg]
  cases hget : w1.Get obj.Namespace obj.Name with
  | error e =>
    simp only
    split
    · obtain ⟨hr, hs⟩ := sim_mutate h P rep obj.Namespace obj.Name obj
      rcases h1 : mutate (mutateFn P rep) obj.Namespace obj.Name w1 obj with ⟨a1, r1⟩
      rcases h2 : mutate (mutateFn P rep) obj.Namespace obj.Name w2 obj with ⟨a2, r2⟩
      rw [h1, h2] at hr hs
      simp only at hr hs
      subst hr
      cases r2 with
      | error e1 => exact ⟨rfl, hs⟩
      | ok obj1 =>
        have hk : obj1.Namespace = n := by rw [(mutate_ok_key h1).1, hn]
        obtain ⟨hcr, hcs⟩ := sim_Create hs obj1 hk
        simp only
        rcases c1 : a1.Create obj1 with ⟨x1, e1⟩
        rcases c2 : a2.Create obj1 with ⟨x2, e2⟩
        rw [c1, c2] at hcr hcs
        simp only at hcr hcs
        subst hcr
        cases e2 with
        | some e => exact ⟨rfl, hcs⟩
        | none => exact ⟨rfl, hcs⟩
    · exact ⟨rfl, h⟩
  | ok before =>
    simp only
    obtain ⟨hr, hs⟩ := sim_mutate h P rep obj.Namespace obj.Name before
    rcases h1 : mutate (mutateFn P rep) obj.Namespace obj.Name w1 before with ⟨a1, r1⟩
    rcases h2 : mutate (mutateFn P rep) obj.Namespace obj.Name w2 before with ⟨a2, r2⟩
    rw [h1, h2] at hr hs
    simp only at hr hs
    subst hr
    cases r2 with
    | error e1 => exact ⟨rfl, hs⟩
    | ok after =>
      have hk : after.Namespace = n := by rw [(mutate_ok_key h1).1, hn]
      simp only
      split
      · obtain ⟨hpr, hps⟩ := sim_Patch hs after hk
        rcases c1 : a1.Patch after with ⟨x1, e1⟩
        rcases c2 : a2.Patch after with ⟨x2, e2⟩
        rw [c1, c2] at hpr hps
        simp only at hpr hps
        subst hpr
        cases e2 with
        | some e => exact ⟨rfl, hps⟩
        | none => exact ⟨rfl, hps⟩
      · exact ⟨rfl, hs⟩

/-- Two runs that see the namespace of `N` alike take the same step on `N`:
the same errors are appended, and the runs still see the namespace alike. -/
theorem sim_step {b1 b2 : World} {st1 st2 : LoopState} (P : ClusterNetworkPolicy)
    (rep : Bool) (sel : Selector) (N : Namespace)
    (h : Sim N.Name b1 b2 st1.world st2.world) :
    Sim N.Name b1 b2 (reconcileNamespace P rep sel st1 N).world
        (reconcileNamespace P rep sel st2 N).world ∧
      ∃ es, (reconcileNamespace P rep sel st1 N).errs = st1.errs ++ es ∧
        (reconcileNamespace P rep sel st2 N).errs = st2.errs ++ es := by
  unfold reconcileNamespace
  simp only
  split
  · rw [sim_get h P.Name]
    cases hget : st1.world.Get N.Name P.Name with
    | error e =>
      simp only
      split
      · exact ⟨h, [], by simp, by simp⟩
      · exact ⟨h, _, rfl, rfl⟩
    | ok found =>
      simp only
      split
      · exact ⟨h, [], by simp, by simp⟩
      · obtain ⟨hdr, hds⟩ := sim_Delete h found (get_hasKey hget).1
        rw [hdr]
        split
        · exact ⟨hds, _, rfl, rfl⟩
        · exact ⟨sim_Event hds _ _ _ _, [], by simp, by simp⟩
  · obtain ⟨hr, hs⟩ := sim_CreateOrPatch h P rep { Name := P.Name, Namespace := N.Name } rfl
    rcases c1 : CreateOrPatch st1.world { Name := P.Name, Namespace := N.Name }
      (mutateFn P rep) with ⟨x1, res1, e1⟩
    rcases c2 : CreateOrPatch st2.world { Name := P.Name, Namespace := N.Name }
      (mutateFn P rep) with ⟨x2, res2, e2⟩
    rw [c1, c2] at hr hs
    simp only [Prod.mk.injEq] at hr hs
    obtain ⟨hres, herr⟩ := hr
    subst hres herr
    cases res2 <;> cases e2 <;>
      first
      | exact ⟨hs, _, rfl, rfl⟩
      | exact ⟨hs, [], by simp, by simp⟩
      | exact ⟨sim_Event hs _ _ _ _, [], by simp, by simp⟩

/-- In a state of the pass that differs from the initial world only outside
the namespace of `N`, the step on `N` is the own action of `N`: it appends the
errors and the calls of `ownStep`, and leaves in `N` what `ownStep` leaves. -/
theorem step_is_own (P : ClusterNetworkPolicy) (w : World) (st : LoopState)
    (S : List String) (N : Namespace) (ht : Touches S w st.world) (hN : N.Name ∉ S) :
    (reconcileNamespace P (replaceOnConflict P) (policySelector P) st N).errs =
        st.errs ++ (ownStep P w N).errs ∧
    (reconcileNamespace P (replaceOnConflict P) (policySelector P) st N).world.calls =
        st.world.calls ++ ownCalls P w N ∧
    nsFilter N.Name
        (reconcileNamespace P (replaceOnConflict P) (policySelector P) st N).world.networkPolicies =
      nsFilter N.Name (ownStep P w N).world.networkPolicies := by
  have h0 : Sim N.Name w st.world ({ world := w, errs := [] } : LoopState).world st.world :=
    sim_start ht.faults ht.newUID (ht.store N.Name hN)
  obtain ⟨hs, es, he1, he2⟩ := sim_step P (replaceOnConflict P) (policySelector P) N h0
  obtain ⟨cs, hc1, hc2⟩ := hs.calls
  refine ⟨?_, ?_, hs.store⟩
  · rw [he2]
    unfold ownStep
    rw [he1]
    simp
  · rw [hc2]
    unfold ownCalls ownStep
    rw [hc1, List.drop_left]

theorem foldl_is_own (P : ClusterNetworkPolicy) (w : World) (l : List Namespace)
    (st : LoopState) (S : List String)
    (hnd : (l.map (fun ns => ns.Name)).Nodup) (ht : Touches S w st.world)
    (hS : ∀ N ∈ l, N.Name ∉ S) :
    (l.foldl (reconcileNamespace P (replaceOnConflict P) (policySelector P)) st).errs =
        st.errs ++ l.flatMap (fun N => (ownStep P w N).errs) ∧
    (l.foldl (reconcileNamespace P (replaceOnConflict P) (policySelector P)) st).world.calls =
        st.world.calls ++ l.flatMap (ownCalls P w) := by
  induction l generalizing st S with
  | nil => simp
  | cons a l ih =>
    rw [List.map_cons, List.nodup_cons] at hnd
    obtain ⟨ha, hnd2⟩ := hnd
    obtain ⟨e1, c1, -⟩ := step_is_own P w st S a ht (hS a (List.mem_cons_self _ _))
    have ht2 : Touches (a.Name :: S) w
        (reconcileNamespace P (replaceOnConflict P) (policySelector P) st a).world :=
      (ht.mono (List.subset_cons_self _ _)).andThen
        ((touches_reconcileNamespace P _ _ st a).1.mono (by simp))
    have hS2 : ∀ N ∈ l, N.Name ∉ a.Name :: S := by
      intro N hN hmem
      rcases List.mem_cons.1 hmem with h | h
      · exact ha (h ▸ List.mem_map_of_mem _ hN)
      · exact hS N (List.mem_cons_of_mem _ hN) h
    obtain ⟨e2, c2⟩ := ih _ _ hnd2 ht2 hS2
    rw [List.foldl_cons, e2, c2, e1, c1]
    simp [List.flatMap_cons, List.append_assoc]

theorem ownStep_namespaces (P : ClusterNetworkPolicy) (w : World) (l : List Namespace)
    (N : Namespace) :
    nsFilter N.Name (ownStep P { w with namespaces := l } N).world.networkPolicies =
      nsFilter N.Name (ownStep P w N).world.networkPolicies := by
  have h0 : Sim N.Name w { w with namespaces := l }
      ({ world := w, errs := [] } : LoopState).world
      ({ world := { w with namespaces := l }, errs := [] } : LoopState).world :=
    sim_start rfl rfl rfl
  exact (sim_step P (replaceOnConflict P) (policySelector P) N h0).1.store

theorem classify_invalid_iff (e : String) :
    classify e = .invalid ↔ badPattern (remaining e) := by
  unfold classify remaining
  simp only
  split
  · split
    · simp [*]
    · simp [*]
  · split
    · split
      · simp [*]
      · simp [*]
    · split
      · next h => simp [h, badPattern]
      · split
        · simp [*]
        · simp [*]

/-- The loop of `Set` in one equation: it appends the patterns of the entries
before the first invalid one, and returns the error if there is an invalid one. -/
theorem setLoop_general (entries : List String) (f : Filters) :
    Filters.setLoop entries f =
      ({ f with
          Exact := f.Exact ++ ((entries.map classify).takeWhile
            (fun e => decide (e ≠ Entry.invalid))).filterMap Entry.exactPattern
          Prefix := f.Prefix ++ ((entries.map classify).takeWhile
            (fun e => decide (e ≠ Entry.invalid))).filterMap Entry.prefixPattern
          Suffix := f.Suffix ++ ((entries.map classify).takeWhile
            (fun e => decide (e ≠ Entry.invalid))).filterMap Entry.suffixPattern },
        if Entry.invalid ∈ entries.map classify then some "invalid filter" else none) := by
  induction entries generalizing f with
  | nil => simp [Filters.setLoop]
  | cons e rest ih =>
    rw [setLoop_cons]
    cases hc : classify e with
    | skip =>
      simp [ih, hc, List.takeWhile_cons, Entry.exactPattern, Entry.prefixPattern,
        Entry.suffixPattern]
    | invalid => simp [hc, List.takeWhile_cons]
    | exact p =>
      simp [ih, hc, List.takeWhile_cons, Entry.exactPattern, Entry.prefixPattern,
        Entry.suffixPattern]
    | pre p =>
      simp [ih, hc, List.takeWhile_cons, Entry.exactPattern, Entry.prefixPattern,
        Entry.suffixPattern]
    | suf p =>
      simp [ih, hc, List.takeWhile_cons, Entry.exactPattern, Entry.prefixPattern,
        Entry.suffixPattern]

theorem acceptedEntries_of_valid (value : String) (h : Entry.invalid ∉ entriesOf value) :
    acceptedEntries value = entriesOf value := by
  unfold acceptedEntries
  rw [List.takeWhile_eq_self_iff]
  intro e he
  simp only [ne_eq, decide_not, Bool.not_eq_true', decide_eq_false_iff_not]
  intro heq
  exact h (heq ▸ he)

/-! ## Lemmas on rendering and reading back the filters -/

theorem splitOnP_pieces {α : Type} (p : α → Bool) (xs : List α) :
    ∀ l ∈ xs.splitOnP p, ∀ y ∈ l, p y = false := by
  induction xs with
  | nil =>
    intro l hl y hy
    rw [List.splitOnP_nil, List.mem_singleton] at hl
    subst hl
    cases hy
  | cons a xs ih =>
    intro l hl y hy
    rw [List.splitOnP_cons] at hl
    by_cases ha : p a = true
    · rw [if_pos ha, List.mem_cons] at hl
      rcases hl with hl | hl
      · subst hl
        cases hy
      · exact ih l hl y hy
    · rw [if_neg ha] at hl
      have hne := List.splitOnP_ne_nil p xs
      cases hs : xs.splitOnP p with
      | nil => exact absurd hs hne
      | cons h t =>
        rw [hs] at hl ih
        simp only [List.modifyHead_cons, List.mem_cons] at hl
        rcases hl with hl | hl
        · subst hl
          rcases List.mem_cons.1 hy with hy | hy
          · subst hy
            simpa using ha
          · exact ih h (List.mem_cons_self _ _) y hy
        · exact ih l (List.mem_cons_of_mem _ hl) y hy

theorem split_no_sep (s : String) (sep : Char) : ∀ e ∈ Split s sep, sep ∉ e.data := by
  intro e he hmem
  unfold Split at he
  rcases List.mem_map.1 he with ⟨l, hl, rfl⟩
  have := splitOnP_pieces (fun c => c == sep) s.data l hl sep hmem
  simp at this

theorem trim_mem (e : String) (c : Char) (h : c ∈ (TrimSpace e).data) : c ∈ e.data := by
  unfold TrimSpace at h
  exact (List.dropWhile_suffix IsSpace).subset ((List.rdropWhile_prefix IsSpace _).subset h)

theorem trim_head (e : String) : NoSpaceAtHead (TrimSpace e).data := by
  intro c hc
  unfold TrimSpace at hc
  dsimp only at hc
  rcases List.rdropWhile_prefix IsSpace (e.data.dropWhile IsSpace) with ⟨t, ht⟩
  cases hr : (e.data.dropWhile IsSpace).rdropWhile IsSpace with
  | nil => rw [hr] at hc; cases hc
  | cons a r =>
    rw [hr] at hc ht
    simp only [List.head?_cons, Option.some.injEq] at hc
    subst hc
    have h1 : (e.data.dropWhile IsSpace).head? = some a := by
      rw [← ht]; rfl
    have := List.head?_dropWhile_not IsSpace e.data
    rw [h1] at this
    simpa using this

theorem trim_last (e : String) : NoSpaceAtEnd (TrimSpace e).data := by
  intro c hc
  unfold TrimSpace at hc
  dsimp only at hc
  cases hne : (e.data.dropWhile IsSpace).rdropWhile IsSpace with
  | nil => rw [hne] at hc; cases hc
  | cons a r =>
    have hn : (e.data.dropWhile IsSpace).rdropWhile IsSpace ≠ [] := by
      rw [hne]; exact List.cons_ne_nil _ _
    have := List.rdropWhile_last_not IsSpace (e.data.dropWhile IsSpace) hn
    rw [List.getLast?_eq_getLast _ hn, Option.some.injEq] at hc
    rw [hc] at this
    simpa using this

theorem trim_id (l : List Char) (h1 : NoSpaceAtHead l) (h2 : NoSpaceAtEnd l) :
    TrimSpace ⟨l⟩ = ⟨l⟩ := by
  unfold TrimSpace
  dsimp only
  have hd : l.dropWhile IsSpace = l := by
    cases l with
    | nil => rfl
    | cons a r =>
      have := h1 a rfl
      rw [List.dropWhile_cons_of_neg (by simp [this])]
  rw [hd]
  have hr : l.rdropWhile IsSpace = l := by
    rw [List.rdropWhile_eq_self_iff]
    intro hl
    have := h2 (l.getLast hl) (List.getLast?_eq_getLast _ hl)
    simp [this]
  rw [hr]

theorem trim_space_cons (x : String) : TrimSpace (" " ++ x) = TrimSpace x := by
  unfold TrimSpace
  have : (" " ++ x).data = ' ' :: x.data := rfl
  rw [this, List.dropWhile_cons_of_pos (by decide)]

theorem classify_space_cons (x : String) : classify (" " ++ x) = classify x := by
  unfold classify
  rw [trim_space_cons]

theorem classify_exact_good (e p : String) (h : classify e = .exact p)
    (hc : ',' ∉ e.data) :
    p.data ≠ [] ∧ Clean p.data ∧ NoSpaceAtHead p.data ∧ NoSpaceAtEnd p.data := by
  unfold classify at h
  dsimp only at h
  split_ifs at h
  injection h with h
  subst h
  have h3 : (TrimSpace e).data ≠ [] := by assumption
  have h4 : ¬ badPattern (TrimSpace e).data := by assumption
  exact ⟨h3, ⟨h4, fun hm => hc (trim_mem e _ hm)⟩, trim_head e, trim_last e⟩

theorem classify_pre_good (e p : String) (h : classify e = .pre p)
    (hc : ',' ∉ e.data) : Clean p.data ∧ NoSpaceAtHead p.data := by
  unfold classify at h
  dsimp only at h
  split_ifs at h
  injection h with h
  subst h
  have h2 : ¬ badPattern (TrimSpace e).data.dropLast := by assumption
  refine ⟨⟨h2, fun hm => hc (trim_mem e _ ((List.dropLast_subset _) hm))⟩, ?_⟩
  intro c hcc
  apply trim_head e c
  dsimp only at hcc
  cases ht : (TrimSpace e).data with
  | nil => rw [ht] at hcc; cases hcc
  | cons a r =>
    rw [ht] at hcc
    cases r with
    | nil => cases hcc
    | cons b r => simpa using hcc

theorem classify_suf_good (e p : String) (h : classify e = .suf p)
    (hc : ',' ∉ e.data) : p.data ≠ [] ∧ Clean p.data ∧ NoSpaceAtEnd p.data := by
  unfold classify at h
  dsimp only at h
  split_ifs at h
  injection h with h
  subst h
  have h1 : ¬ (TrimSpace e).data.getLast? = some '*' := by assumption
  have h2 : (TrimSpace e).data.head? = some '*' := by assumption
  have h3 : ¬ badPattern (TrimSpace e).data.tail := by assumption
  dsimp only
  cases ht : (TrimSpace e).data with
  | nil => rw [ht] at h2; cases h2
  | cons a r =>
    rw [ht] at h1 h2 h3
    simp only [List.head?_cons, Option.some.injEq] at h2
    subst h2
    have hr : r ≠ [] := by
      rintro rfl
      exact h1 rfl
    refine ⟨hr, ⟨h3, fun hm => hc (trim_mem e _ ?_)⟩, ?_⟩
    · rw [ht]
      exact List.mem_cons_of_mem _ hm
    · intro c hcc
      apply trim_last e c
      rw [ht]
      simp only [List.tail_cons] at hcc
      cases r with
      | nil => exact absurd rfl hr
      | cons b r => rw [List.getLast?_cons_cons]; exact hcc

theorem wellFormed_empty (b : Bool) :
    WellFormed { Exact := [], Prefix := [], Suffix := [], flagSet := b } :=
  ⟨fun _ h => (nomatch h), fun _ h => (nomatch h), fun _ h => (nomatch h)⟩

theorem setLoop_wellFormed (entries : List String) :
    ∀ f : Filters, (∀ e ∈ entries, ',' ∉ e.data) → WellFormed f →
      WellFormed (Filters.setLoop entries f).1 := by
  induction entries with
  | nil => intro f _ hf; exact hf
  | cons e rest ih =>
    intro f hc hf
    have hrest : ∀ x ∈ rest, ',' ∉ x.data := fun x hx => hc x (List.mem_cons_of_mem _ hx)
    have he := hc e (List.mem_cons_self _ _)
    rw [setLoop_cons]
    cases hcl : classify e with
    | skip => exact ih f hrest hf
    | invalid => exact hf
    | exact p =>
      apply ih _ hrest
      refine ⟨?_, hf.pre, hf.suf⟩
      intro q hq
      rcases List.mem_append.1 hq with hq | hq
      · exact hf.exact q hq
      · rw [List.mem_singleton] at hq
        subst hq
        exact classify_exact_good e q hcl he
    | pre p =>
      apply ih _ hrest
      refine ⟨hf.exact, ?_, hf.suf⟩
      intro q hq
      rcases List.mem_append.1 hq with hq | hq
      · exact hf.pre q hq
      · rw [List.mem_singleton] at hq
        subst hq
        exact classify_pre_good e q hcl he
    | suf p =>
      apply ih _ hrest
      refine ⟨hf.exact, hf.pre, ?_⟩
      intro q hq
      rcases List.mem_append.1 hq with hq | hq
      · exact hf.suf q hq
      · rw [List.mem_singleton] at hq
        subst hq
        exact classify_suf_good e q hcl he

theorem set_wellFormed (f : Filters) (v : String) (hf : WellFormed f) :
    WellFormed (f.Set v).1 := by
  rw [set_eq_setLoop]
  apply setLoop_wellFormed _ _ (split_no_sep v ',')
  cases hfl : f.flagSet with
  | false => rw [setBase_of_not_flagSet f hfl]; exact wellFormed_empty true
  | true => rw [setBase_of_flagSet f hfl]; exact hf

theorem fromSetCalls_wellFormed (f : Filters) (h : FromSetCalls f) : WellFormed f := by
  induction h with
  | first v _ => exact set_wellFormed _ v (wellFormed_empty false)
  | next f v _ _ ih => exact set_wellFormed f v ih

theorem classify_of_exact (p : String) (hne : p.data ≠ []) (hcl : ¬ badPattern p.data)
    (h1 : NoSpaceAtHead p.data) (h2 : NoSpaceAtEnd p.data) : classify p = .exact p := by
  have ht : TrimSpace p = p := trim_id p.data h1 h2
  have hstar : '*' ∉ p.data := fun h => hcl (Or.inl h)
  unfold classify
  dsimp only
  rw [ht]
  have hl : ¬ p.data.getLast? = some '*' := fun h => hstar (List.mem_of_getLast?_eq_some h)
  have hh : ¬ p.data.head? = some '*' := fun h => hstar (List.mem_of_mem_head? h)
  rw [if_neg hl, if_neg hh, if_neg hne, if_neg hcl]

theorem classify_of_pre (p : String) (hcl : ¬ badPattern p.data)
    (h1 : NoSpaceAtHead p.data) : classify (p ++ "*") = .pre p := by
  have hd : (p ++ "*").data = p.data ++ ['*'] := rfl
  have ht : TrimSpace (p ++ "*") = p ++ "*" := by
    apply trim_id (p ++ "*").data
    · intro c hc
      rw [hd] at hc
      cases hp : p.data with
      | nil =>
        rw [hp] at hc
        simp only [List.nil_append, List.head?_cons, Option.some.injEq] at hc
        subst hc
        decide
      | cons a r =>
        rw [hp] at hc
        apply h1 c
        rw [hp]
        simpa using hc
    · intro c hc
      rw [hd, List.getLast?_append, List.getLast?_singleton] at hc
      have hc2 : c = '*' := by simpa [Option.or] using hc.symm
      subst hc2
      decide
  unfold classify
  dsimp only
  rw [ht, hd]
  have hl : (p.data ++ ['*']).getLast? = some '*' := by
    rw [List.getLast?_append, List.getLast?_singleton]; rfl
  rw [if_pos hl, List.dropLast_concat, if_neg hcl]

theorem classify_of_suf (p : String) (hne : p.data ≠ []) (hcl : ¬ badPattern p.data)
    (h2 : NoSpaceAtEnd p.data) : classify ("*" ++ p) = .suf p := by
  have hd : ("*" ++ p).data = '*' :: p.data := rfl
  have hstar : '*' ∉ p.data := fun h => hcl (Or.inl h)
  have hlast : ('*' :: p.data).getLast? = p.data.getLast? := by
    cases hp : p.data with
    | nil => exact absurd hp hne
    | cons a r => rw [List.getLast?_cons_cons]
  have ht : TrimSpace ("*" ++ p) = "*" ++ p := by
    apply trim_id ("*" ++ p).data
    · intro c hc
      rw [hd] at hc
      simp only [List.head?_cons, Option.some.injEq] at hc
      subst hc
      decide
    · intro c hc
      rw [hd, hlast] at hc
      exact h2 c hc
  unfold classify
  dsimp only
  rw [ht, hd]
  have hl : ¬ ('*' :: p.data).getLast? = some '*' := by
    rw [hlast]
    exact fun h => hstar (List.mem_of_getLast?_eq_some h)
  have hh : ('*' :: p.data).head? = some '*' := rfl
  rw [if_neg hl, if_pos hh, List.tail_cons, if_neg hcl]

theorem intercalate_cons_cons (sep : List Char) (c : Char) (y : List Char)
    (rest : List (List Char)) :
    sep.intercalate ((c :: y) :: rest) = c :: sep.intercalate (y :: rest) := by
  cases rest <;> simp [List.intercalate, List.intersperse]

theorem intercalate_cons_append (sep x y : List Char) (rest : List (List Char)) :
    sep.intercalate (x :: y :: rest) = x ++ (sep ++ sep.intercalate (y :: rest)) := by
  simp [List.intercalate, List.intersperse]

theorem join_data (rest : List String) : ∀ a : String,
    (Join (a :: rest) ", ").data =
      [','].intercalate (a.data :: rest.map (fun s => ' ' :: s.data)) := by
  induction rest with
  | nil => intro a; simp [Join, List.intercalate, List.intersperse]
  | cons b rest ih =>
    intro a
    have h : (Join (a :: b :: rest) ", ").data =
        a.data ++ (',' :: ' ' :: (Join (b :: rest) ", ").data) := by
      rw [Join, String.data_append, String.data_append, List.append_assoc]
      rfl
    rw [h, ih b, List.map_cons, intercalate_cons_append, intercalate_cons_cons]
    rfl

theorem split_join (a : String) (rest : List String)
    (hc : ∀ s ∈ a :: rest, ',' ∉ s.data) :
    Split (Join (a :: rest) ", ") ',' = a :: rest.map (fun s => " " ++ s) := by
  unfold Split
  rw [join_data, List.splitOn_intercalate]
  · simp only [List.map_cons, List.map_map]
    rfl
  · intro l hl
    rcases List.mem_cons.1 hl with hl | hl
    · subst hl
      exact hc a (List.mem_cons_self _ _)
    · rcases List.mem_map.1 hl with ⟨s, hs, rfl⟩
      intro hm
      rcases List.mem_cons.1 hm with hm | hm
      · exact absurd hm (by decide)
      · exact hc s (List.mem_cons_of_mem _ hs) hm
  · exact List.cons_ne_nil _ _

theorem split_join_classify (a : String) (rest : List String)
    (hc : ∀ s ∈ a :: rest, ',' ∉ s.data) :
    (Split (Join (a :: rest) ", ") ',').map classify = (a :: rest).map classify := by
  rw [split_join a rest hc]
  simp only [List.map_cons, List.map_map]
  rw [List.cons.injEq]
  exact ⟨rfl, List.map_congr_left (fun s _ => classify_space_cons s)⟩

theorem filterMap_const_none {α β : Type} (l : List α) :
    l.filterMap (fun _ => (none : Option β)) = [] := by
  induction l with
  | nil => rfl
  | cons a l ih => rw [List.filterMap_cons_none rfl, ih]

theorem setLoop_rendered (E P S : List String) (entries : List String) (base : Filters)
    (h : entries.map classify = E.map .exact ++ P.map .pre ++ S.map .suf) :
    Filters.setLoop entries base =
      ({ base with
          Exact := base.Exact ++ E
          Prefix := base.Prefix ++ P
          Suffix := base.Suffix ++ S }, none) := by
  rw [setLoop_valid]
  · rw [h]
    simp [List.filterMap_append, List.filterMap_map, Function.comp_def,
      Entry.exactPattern, Entry.prefixPattern, Entry.suffixPattern, filterMap_const_none]
  · intro e he hinv
    have hm : classify e ∈ entries.map classify := List.mem_map_of_mem _ he
    rw [h, hinv] at hm
    simp at hm

theorem rendered_classify (f : Filters) (hf : WellFormed f) :
    (f.Exact ++ f.Prefix.map (fun filter => filter ++ "*") ++
        f.Suffix.map (fun filter => "*" ++ filter)).map classify =
      f.Exact.map .exact ++ f.Prefix.map .pre ++ f.Suffix.map .suf := by
  rw [List.map_append, List.map_append, List.map_map, List.map_map]
  congr 1
  · congr 1
    · apply List.map_congr_left
      intro p hp
      obtain ⟨h1, h2, h3, h4⟩ := hf.exact p hp
      exact classify_of_exact p h1 h2.1 h3 h4
    · apply List.map_congr_left
      intro p hp
      obtain ⟨h1, h2⟩ := hf.pre p hp
      exact classify_of_pre p h1.1 h2
  · apply List.map_congr_left
    intro p hp
    obtain ⟨h1, h2, h3⟩ := hf.suf p hp
    exact classify_of_suf p h1 h2.1 h3

theorem rendered_no_comma (f : Filters) (hf : WellFormed f) :
    ∀ s ∈ f.Exact ++ f.Prefix.map (fun filter => filter ++ "*") ++
        f.Suffix.map (fun filter => "*" ++ filter), ',' ∉ s.data := by
  intro s hs
  rcases List.mem_append.1 hs with hs | hs
  · rcases List.mem_append.1 hs with hs | hs
    · exact (hf.exact s hs).2.1.2
    · rcases List.mem_map.1 hs with ⟨p, hp, rfl⟩
      intro hm
      have hd : (p ++ "*").data = p.data ++ ['*'] := rfl
      rw [hd] at hm
      rcases List.mem_append.1 hm with hm | hm
      · exact (hf.pre p hp).1.2 hm
      · exact absurd (List.mem_singleton.1 hm) (by decide)
  · rcases List.mem_map.1 hs with ⟨p, hp, rfl⟩
    intro hm
    have hd : ("*" ++ p).data = '*' :: p.data := rfl
    rw [hd] at hm
    rcases List.mem_cons.1 hm with hm | hm
    · exact absurd hm (by decide)
    · exact (hf.suf p hp).2.1.2 hm

theorem set_string_of_wellFormed (f : Filters) (hf : WellFormed f) :
    ({} : Filters).Set f.String =
      ({ Exact := f.Exact, Prefix := f.Prefix, Suffix := f.Suffix, flagSet := true },
        none) := by
  rw [set_eq_setLoop, setBase_of_not_flagSet _ rfl]
  unfold Filters.String
  dsimp only
  cases hitems : f.Exact ++ f.Prefix.map (fun filter => filter ++ "*") ++
      f.Suffix.map (fun filter => "*" ++ filter) with
  | nil =>
    have h1 := List.append_eq_nil.1 hitems
    have h2 := List.append_eq_nil.1 h1.1
    have hE : f.Exact = [] := h2.1
    have hP : f.Prefix = [] := List.map_eq_nil_iff.1 h2.2
    have hS : f.Suffix = [] := List.map_eq_nil_iff.1 h1.2
    rw [hE, hP, hS]
    rfl
  | cons a rest =>
    have hc := rendered_no_comma f hf
    have hcl := rendered_classify f hf
    rw [hitems] at hc hcl
    have h := setLoop_rendered f.Exact f.Prefix f.Suffix (Split (Join (a :: rest) ", ") ',')
      { Exact := [], Prefix := [], Suffix := [], flagSet := true }
      ((split_join_classify a rest hc).trans hcl)
    rw [h]
    simp only [List.nil_append]

theorem join_intercalate (sep : String) (items : List String) :
    (Join items sep).data = sep.data.intercalate (items.map String.data) := by
  induction items with
  | nil => rfl
  | cons a rest ih =>
    cases rest with
    | nil => simp [Join, List.intercalate, List.intersperse]
    | cons b rest =>
      rw [Join, String.data_append, String.data_append, ih, List.append_assoc]
      simp [List.intercalate, List.intersperse]

/-! ## Lemmas on `reflect.DeepEqual` over label maps -/

theorem labelMap_mem_keys (m : LabelMap) (k : String) :
    k ∈ m.keys ↔ (m.lookup k).isSome = true := by
  cases m with
  | nil => simp [LabelMap.keys, LabelMap.lookup]
  | table entries =>
    simp only [LabelMap.keys, LabelMap.lookup, List.mem_dedup, List.mem_map,
      List.lookup_isSome_iff, beq_iff_eq]
    constructor
    · rintro ⟨p, hp, rfl⟩
      exact ⟨p, hp, rfl⟩
    · rintro ⟨p, hp, h⟩
      exact ⟨p, hp, h.symm⟩

theorem labelMap_keys_nodup (m : LabelMap) : m.keys.Nodup := by
  cases m with
  | nil => exact List.nodup_nil
  | table entries => exact List.nodup_dedup _

theorem labelMap_lookup_of_not_mem (m : LabelMap) (k : String) (h : k ∉ m.keys) :
    m.lookup k = none := by
  rw [labelMap_mem_keys] at h
  cases hl : m.lookup k with
  | none => rfl
  | some v => rw [hl] at h; exact absurd rfl h

theorem deepEqual_iff (a b : LabelMap) :
    DeepEqual a b = true ↔ a.IsNil = b.IsNil ∧ SameLabels a b := by
  unfold DeepEqual
  constructor
  · intro h
    split_ifs at h with h1 h2
    have hn : a.IsNil = b.IsNil := by simpa using h1
    have hlen : a.len = b.len := by simpa using h2
    have hall : ∀ k ∈ a.keys, ∃ v, a.lookup k = some v ∧ b.lookup k = some v := by
      intro k hk
      have hk2 := List.all_eq_true.1 h k hk
      cases ha : a.lookup k with
      | none => rw [ha] at hk2; simp at hk2
      | some v1 =>
        cases hb : b.lookup k with
        | none => rw [ha, hb] at hk2; simp at hk2
        | some v2 =>
          rw [ha, hb] at hk2
          have : v1 = v2 := by simpa using hk2
          exact ⟨v1, rfl, by rw [this]⟩
    have hsub : a.keys ⊆ b.keys := by
      intro k hk
      obtain ⟨v, -, hb⟩ := hall k hk
      rw [labelMap_mem_keys, hb]
      rfl
    have hperm : a.keys.Perm b.keys :=
      ((labelMap_keys_nodup a).subperm hsub).perm_of_length_le (le_of_eq hlen.symm)
    refine ⟨hn, fun k => ?_⟩
    by_cases hk : k ∈ a.keys
    · obtain ⟨v, ha, hb⟩ := hall k hk
      rw [ha, hb]
    · have hkb : k ∉ b.keys := fun hb => hk (hperm.mem_iff.2 hb)
      rw [labelMap_lookup_of_not_mem a k hk, labelMap_lookup_of_not_mem b k hkb]
  · rintro ⟨hn, hs⟩
    have hmem : ∀ k, k ∈ a.keys ↔ k ∈ b.keys := by
      intro k
      rw [labelMap_mem_keys, labelMap_mem_keys, hs k]
    have hperm : a.keys.Perm b.keys :=
      (List.perm_ext_iff_of_nodup (labelMap_keys_nodup a) (labelMap_keys_nodup b)).2 hmem
    have hlen : a.len = b.len := hperm.length_eq
    have h1 : ¬ (a.IsNil != b.IsNil) = true := by simp [hn]
    have h2 : ¬ (a.len != b.len) = true := by simp [hlen]
    rw [if_neg h1, if_neg h2, List.all_eq_true]
    intro k hk
    rw [labelMap_mem_keys] at hk
    rw [← hs k]
    cases ha : a.lookup k with
    | none => rw [ha] at hk; exact absurd hk (by simp)
    | some v => simp

/-! ## Lemmas on the kind of the calls of a pass -/

/-- C1: for every pair of filter sets and every name, `EvaluateFilters` returns
exactly the verdict of the seven-step, first-match-wins procedure: the code
returns `b` if and only if the procedure yields `b`. -/
theorem C1_evaluateFilters_matches_seven_steps (excluded included : Filters) (name : String)
    (b : Bool) :
    EvaluateFilters excluded included name = b ↔ InScopeSpec excluded included name b := by
  have e1 := any_eq_iff_mem excluded.Exact name
  have e2 := any_eq_iff_mem included.Exact name
  have e3 := any_hasPrefix_iff excluded.Prefix name
  have e4 := any_hasSuffix_iff excluded.Suffix name
  have e5 := any_hasPrefix_iff included.Prefix name
  have e6 := any_hasSuffix_iff included.Suffix name
  have e7 := isEmpty_iff included
  constructor
  · intro h
    subst h
    unfold EvaluateFilters
    by_cases h1 : name ∈ excluded.Exact
    · rw [if_pos (e1.2 h1)]; exact .step1 h1
    rw [if_neg (fun h => h1 (e1.1 h))]
    by_cases h2 : name ∈ included.Exact
    · rw [if_pos (e2.2 h2)]; exact .step2 h1 h2
    rw [if_neg (fun h => h2 (e2.1 h))]
    by_cases h3 : ∃ p ∈ excluded.Prefix, StartsWith name p
    · rw [if_pos (e3.2 h3)]; exact .step3 h1 h2 h3
    rw [if_neg (fun h => h3 (e3.1 h))]
    by_cases h4 : ∃ p ∈ excluded.Suffix, EndsWith name p
    · rw [if_pos (e4.2 h4)]; exact .step4 h1 h2 h3 h4
    rw [if_neg (fun h => h4 (e4.1 h))]
    by_cases h5 : ∃ p ∈ included.Prefix, StartsWith name p
    · rw [if_pos (e5.2 h5)]; exact .step5 h1 h2 h3 h4 h5
    rw [if_neg (fun h => h5 (e5.1 h))]
    by_cases h6 : ∃ p ∈ included.Suffix, EndsWith name p
    · rw [if_pos (e6.2 h6)]; exact .step6 h1 h2 h3 h4 h5 h6
    rw [if_neg (fun h => h6 (e6.1 h))]
    exact .step7 _ h1 h2 h3 h4 h5 h6 e7
  · intro h
    unfold EvaluateFilters
    cases h with
    | step1 h1 => rw [if_pos (e1.2 h1)]
    | step2 h1 h2 =>
      rw [if_neg (fun h => h1 (e1.1 h)), if_pos (e2.2 h2)]
    | step3 h1 h2 h3 =>
      rw [if_neg (fun h => h1 (e1.1 h)), if_neg (fun h => h2 (e2.1 h)), if_pos (e3.2 h3)]
    | step4 h1 h2 h3 h4 =>
      rw [if_neg (fun h => h1 (e1.1 h)), if_neg (fun h => h2 (e2.1 h)),
        if_neg (fun h => h3 (e3.1 h)), if_pos (e4.2 h4)]
    | step5 h1 h2 h3 h4 h5 =>
      rw [if_neg (fun h => h1 (e1.1 h)), if_neg (fun h => h2 (e2.1 h)),
        if_neg (fun h => h3 (e3.1 h)), if_neg (fun h => h4 (e4.1 h)), if_pos (e5.2 h5)]
    | step6 h1 h2 h3 h4 h5 h6 =>
      rw [if_neg (fun h => h1 (e1.1 h)), if_neg (fun h => h2 (e2.1 h)),
        if_neg (fun h => h3 (e3.1 h)), if_neg (fun h => h4 (e4.1 h)),
        if_neg (fun h => h5 (e5.1 h)), if_pos (e6.2 h6)]
    | step7 _ h1 h2 h3 h4 h5 h6 h7 =>
      rw [if_neg (fun h => h1 (e1.1 h)), if_neg (fun h => h2 (e2.1 h)),
        if_neg (fun h => h3 (e3.1 h)), if_neg (fun h => h4 (e4.1 h)),
        if_neg (fun h => h5 (e5.1 h)), if_neg (fun h => h6 (e6.1 h))]
      cases b with
      | true => exact e7.2 (h7.1 rfl)
      | false =>
        cases hE : included.IsEmpty with
        | false => rfl
        | true => exact absurd (h7.2 (e7.1 hE)) (by simp)

/-- C2: when the conflict-policy annotation of `P` is absent or anything other
than "replace", an Active, in-scope namespace `N` matching the selector of `P`
that holds a NetworkPolicy `np` named like `P`, with a non-empty UID and not
controlled by `P`, keeps `np` as it is (labels, annotations, spec and owner
references), a `NetworkPolicyConflict` warning event naming `N` is recorded
during the pass, and `Reconcile` returns a non-nil error. -/
theorem C2_conflict_leaves_resource_untouched
    (r : ClusterNetworkPolicyReconciler) (w : World) (req : Request)
    (P : ClusterNetworkPolicy) (N : Namespace) (np : NetworkPolicy)
    (hP : w.GetPolicy req.Name = .ok P)
    (hlist : w.faults.listNamespaces = none)
    (huniq : (w.namespaces.map (fun ns => ns.Name)).Nodup)
    (hrep : mapIndex P.Annotations ConflictAnnotation ≠ ConflictReplace)
    (hN : N ∈ w.namespaces) (hact : N.Phase = NamespaceActive)
    (hscope : EvaluateFilters r.ExcludedNamespaces r.IncludedNamespaces N.Name = true)
    (hmatch : (policySelector P).Matches N.Labels = true)
    (hget : w.Get N.Name P.Name = .ok np) (huid : np.UID ≠ "")
    (hctl : IsControlledBy np P = false) :
    (Reconcile r w req).2.2.Get N.Name P.Name = .ok np ∧
      (∃ es, (Reconcile r w req).2.2.events = w.events ++ es ∧
        (⟨P.Name, EventTypeWarning, "NetworkPolicyConflict",
          "NetworkPolicy conflict in namespace " ++ N.Name⟩ : Event) ∈ es) ∧
      (Reconcile r w req).2.1 ≠ none := by
  rw [Reconcile_world r w req P hP hlist, Reconcile_error r w req P hP hlist]
  have hrep' : replaceOnConflict P = false := by simp [replaceOnConflict, hrep]
  obtain ⟨st1, S1, S2, hS1, hS2, t0, t2, ⟨es2, he2⟩⟩ :=
    pass_visit r w P N huniq ((mem_inScope r w N).2 ⟨hN, hact, hscope⟩)
  have hget1 : st1.world.Get N.Name P.Name = .ok np := by
    rw [touches_get t0 hS1]; exact hget
  rw [hrep', step_conflict hmatch hget1 huid hctl] at t2 he2
  dsimp only at t2 he2
  refine ⟨?_, ?_, ?_⟩
  · rw [touches_get t2 hS2, ← hget1]
    exact get_congr rfl rfl _
  · obtain ⟨ea, hea⟩ := t0.events
    obtain ⟨eb, heb⟩ := t2.events
    refine ⟨ea ++ [⟨P.Name, EventTypeWarning, "NetworkPolicyConflict",
      "NetworkPolicy conflict in namespace " ++ N.Name⟩] ++ eb, ?_, by simp⟩
    rw [heb]
    simp [World.Event, hea]
  · rw [he2]
    exact newAggregate_append_ne_none _ _ _

/-- The hypotheses of C2 hold in `conflictWorld` for the namespace `ns2`. -/
theorem C2_witness :
    (Reconcile defaultReconciler conflictWorld ⟨"", "p"⟩).2.2.Get "ns2" "p" = .ok existingPolicy ∧
      (∃ es, (Reconcile defaultReconciler conflictWorld ⟨"", "p"⟩).2.2.events =
          conflictWorld.events ++ es ∧
        (⟨"p", EventTypeWarning, "NetworkPolicyConflict",
          "NetworkPolicy conflict in namespace " ++ "ns2"⟩ : Event) ∈ es) ∧
      (Reconcile defaultReconciler conflictWorld ⟨"", "p"⟩).2.1 ≠ none :=
  C2_conflict_leaves_resource_untouched defaultReconciler conflictWorld ⟨"", "p"⟩ basicPolicy
    { Name := "ns2" } existingPolicy rfl rfl (by decide) (by decide) (by decide)
    (by decide) (by decide) (by decide) rfl (by decide) (by decide)

/-- C3 (as stated) fails: with the annotation set to "replace", a NetworkPolicy
of a matching namespace that is not controlled by `P` but has another
controller is left as it was (`SetControllerReference` refuses it), and so is
an unowned one when the patch call fails: in both clusters the object after
`Reconcile` is the object before, which has neither the labels of `P` nor `P`
as controller. -/
theorem C3_counterexample :
    (mapIndex replacePolicy.Annotations ConflictAnnotation = ConflictReplace ∧
      EvaluateFilters defaultReconciler.ExcludedNamespaces
        defaultReconciler.IncludedNamespaces "ns2" = true ∧
      (policySelector replacePolicy).Matches .nil = true ∧
      foreignWorld.Get "ns2" "p" = .ok foreignPolicy ∧
      IsControlledBy foreignPolicy replacePolicy = false ∧
      (Reconcile defaultReconciler foreignWorld ⟨"", "p"⟩).2.2.Get "ns2" "p" = .ok foreignPolicy ∧
      foreignPolicy.Labels ≠ replacePolicy.Spec.Labels) ∧
    (patchFailWorld.Get "ns2" "p" = .ok existingPolicy ∧
      IsControlledBy existingPolicy replacePolicy = false ∧
      (Reconcile defaultReconciler patchFailWorld ⟨"", "p"⟩).2.2.Get "ns2" "p" =
        .ok existingPolicy ∧
      existingPolicy.Labels ≠ replacePolicy.Spec.Labels) :=
  ⟨⟨by decide, by decide, by decide, rfl, by decide, rfl, by decide⟩,
    ⟨rfl, by decide, rfl, by decide⟩⟩

/-- C3 (amended): when the annotation of `P` equals "replace", an Active,
in-scope namespace `N` matching the selector of `P` holds a NetworkPolicy `np`
named like `P` that is not controlled by `P` and has no other controller, and
the patch call for `N` succeeds, then after `Reconcile` the NetworkPolicy of
`N` has the labels, annotations and spec of `P.Spec` and carries a controller
owner reference (controller = true) with the UID of `P`, by which it is
controlled. -/
theorem C3_replace_overwrites_unowned
    (r : ClusterNetworkPolicyReconciler) (w : World) (req : Request)
    (P : ClusterNetworkPolicy) (N : Namespace) (np : NetworkPolicy)
    (hP : w.GetPolicy req.Name = .ok P)
    (hlist : w.faults.listNamespaces = none)
    (huniq : (w.namespaces.map (fun ns => ns.Name)).Nodup)
    (hrep : mapIndex P.Annotations ConflictAnnotation = ConflictReplace)
    (hN : N ∈ w.namespaces) (hact : N.Phase = NamespaceActive)
    (hscope : EvaluateFilters r.ExcludedNamespaces r.IncludedNamespaces N.Name = true)
    (hmatch : (policySelector P).Matches N.Labels = true)
    (hget : w.Get N.Name P.Name = .ok np)
    (hctl : IsControlledBy np P = false)
    (hfc : NoForeignController P np)
    (hpatch : w.faults.patch N.Name = none) :
    ∃ np2, (Reconcile r w req).2.2.Get N.Name P.Name = .ok np2 ∧
      np2.Labels = P.Spec.Labels ∧ np2.Annotations = P.Spec.Annotations ∧
      np2.Spec = P.Spec.NetworkPolicySpec ∧
      (∃ ref ∈ np2.OwnerReferences, ref.Controller = some true ∧ ref.UID = P.UID) ∧
      IsControlledBy np2 P = true := by
  rw [Reconcile_world r w req P hP hlist]
  have hrep2 : replaceOnConflict P = true := by simp [replaceOnConflict, hrep]
  obtain ⟨st1, S1, S2, hS1, hS2, t0, t2, -⟩ :=
    pass_visit r w P N huniq ((mem_inScope r w N).2 ⟨hN, hact, hscope⟩)
  have hget1 : st1.world.Get N.Name P.Name = .ok np := by
    rw [touches_get t0 hS1]; exact hget
  obtain ⟨hk1, hk2⟩ := get_hasKey hget1
  have hg1 := (get_ok_iff _ _ _ _).1 hget1
  have hpatch1 : st1.world.faults.patch N.Name = none := by rw [t0.faults]; exact hpatch
  have hctl2 := isControlledBy_desiredFrom P np hfc
  have hne : np ≠ desiredFrom P np := by
    intro h
    rw [← h, hctl] at hctl2
    exact Bool.false_ne_true hctl2
  rw [hrep2, step_update hmatch hget1 (by simp) hfc hne hpatch1] at t2
  dsimp only at t2
  refine ⟨desiredFrom P np, ?_, rfl, rfl, rfl,
    ⟨controllerRef P, mem_upsertOwnerRef _ _, rfl, rfl⟩, hctl2⟩
  rw [touches_get t2 hS2, get_Event]
  have := @get_after_patch st1.world (desiredFrom P np) np
    (by rw [(desiredFrom_key P np).1, hk1]; exact hg1.1)
    (by rw [(desiredFrom_key P np).1, hk1]; exact hpatch1)
    (by rw [(desiredFrom_key P np).1, (desiredFrom_key P np).2, hk1, hk2]; exact hg1.2)
  rw [(desiredFrom_key P np).1, (desiredFrom_key P np).2, hk1, hk2] at this
  exact this

/-- The hypotheses of the amended C3 hold in `replaceWorld` for the namespace `ns2`. -/
theorem C3_witness :
    ∃ np2, (Reconcile defaultReconciler replaceWorld ⟨"", "p"⟩).2.2.Get "ns2" "p" = .ok np2 ∧
      np2.Labels = replacePolicy.Spec.Labels ∧
      np2.Annotations = replacePolicy.Spec.Annotations ∧
      np2.Spec = replacePolicy.Spec.NetworkPolicySpec ∧
      (∃ ref ∈ np2.OwnerReferences, ref.Controller = some true ∧ ref.UID = replacePolicy.UID) ∧
      IsControlledBy np2 replacePolicy = true :=
  C3_replace_overwrites_unowned defaultReconciler replaceWorld ⟨"", "p"⟩ replacePolicy
    { Name := "ns2" } existingPolicy rfl rfl (by decide) (by decide) (by decide) (by decide)
    (by decide) (by decide) rfl (by decide) (by decide) rfl

/-- C4: an Active, in-scope namespace `N` whose labels match the selector of
`P` and which holds no NetworkPolicy named like `P` holds, after `Reconcile`
with the create call succeeding, exactly one NetworkPolicy under the key
(`N`, name of `P`); its labels, annotations and spec are those of `P.Spec`, its
only owner reference is the controller reference of `P` (controller = true,
UID of `P`), and a `NetworkPolicyCreated` event naming `N` is recorded during
the pass. -/
theorem C4_create_in_matching_namespace
    (r : ClusterNetworkPolicyReconciler) (w : World) (req : Request)
    (P : ClusterNetworkPolicy) (N : Namespace)
    (hP : w.GetPolicy req.Name = .ok P)
    (hlist : w.faults.listNamespaces = none)
    (huniq : (w.namespaces.map (fun ns => ns.Name)).Nodup)
    (hN : N ∈ w.namespaces) (hact : N.Phase = NamespaceActive)
    (hscope : EvaluateFilters r.ExcludedNamespaces r.IncludedNamespaces N.Name = true)
    (hmatch : (policySelector P).Matches N.Labels = true)
    (hnone : lookupNP w.networkPolicies N.Name P.Name = none)
    (hget : w.Get N.Name P.Name = .error .NotFound)
    (hcreate : w.faults.create N.Name = none) :
    (∃ created,
      (Reconcile r w req).2.2.networkPolicies.filter (fun x => x.hasKey N.Name P.Name) =
        [created] ∧
      created.Name = P.Name ∧ created.Namespace = N.Name ∧
      created.Labels = P.Spec.Labels ∧ created.Annotations = P.Spec.Annotations ∧
      created.Spec = P.Spec.NetworkPolicySpec ∧
      created.OwnerReferences = [controllerRef P] ∧
      (controllerRef P).Controller = some true ∧ (controllerRef P).UID = P.UID) ∧
    (∃ es, (Reconcile r w req).2.2.events = w.events ++ es ∧
      (⟨P.Name, EventTypeNormal, "NetworkPolicyCreated",
        "NetworkPolicy created in namespace " ++ N.Name⟩ : Event) ∈ es) := by
  rw [Reconcile_world r w req P hP hlist]
  obtain ⟨st1, S1, S2, hS1, hS2, t0, t2, -⟩ :=
    pass_visit r w P N huniq ((mem_inScope r w N).2 ⟨hN, hact, hscope⟩)
  have hget1 : st1.world.Get N.Name P.Name = .error .NotFound := by
    rw [touches_get t0 hS1]; exact hget
  have hnone1 : lookupNP st1.world.networkPolicies N.Name P.Name = none := by
    rw [touches_lookup t0 hS1]; exact hnone
  have hcreate1 : st1.world.faults.create N.Name = none := by rw [t0.faults]; exact hcreate
  rw [step_create hmatch hget1 hnone1 hcreate1] at t2
  dsimp only at t2
  constructor
  · refine ⟨{ desiredFrom P { Name := P.Name, Namespace := N.Name } with
        UID := st1.world.newUID N.Name P.Name }, ?_, rfl, rfl, rfl, rfl, rfl, rfl, rfl, rfl⟩
    rw [touches_keyFilter t2 hS2]
    exact @keyFilter_after_create st1.world (desiredFrom P { Name := P.Name, Namespace := N.Name })
      hcreate1 hnone1
  · obtain ⟨ea, hea⟩ := t0.events
    obtain ⟨eb, heb⟩ := t2.events
    have hce : (st1.world.Create
        (desiredFrom P { Name := P.Name, Namespace := N.Name })).1.events = st1.world.events := by
      rw [@create_ok st1.world (desiredFrom P { Name := P.Name, Namespace := N.Name })
        hcreate1 hnone1]
    refine ⟨ea ++ [⟨P.Name, EventTypeNormal, "NetworkPolicyCreated",
      "NetworkPolicy created in namespace " ++ N.Name⟩] ++ eb, ?_, by simp⟩
    rw [heb]
    simp [World.Event, hce, hea]

/-- The hypotheses of C4 hold in `conflictWorld` for the namespace `ns1`. -/
theorem C4_witness :
    (∃ created,
      (Reconcile defaultReconciler conflictWorld ⟨"", "p"⟩).2.2.networkPolicies.filter
        (fun x => x.hasKey "ns1" "p") = [created] ∧
      created.Name = "p" ∧ created.Namespace = "ns1" ∧
      created.Labels = basicPolicy.Spec.Labels ∧
      created.Annotations = basicPolicy.Spec.Annotations ∧
      created.Spec = basicPolicy.Spec.NetworkPolicySpec ∧
      created.OwnerReferences = [controllerRef basicPolicy] ∧
      (controllerRef basicPolicy).Controller = some true ∧
      (controllerRef basicPolicy).UID = basicPolicy.UID) ∧
    (∃ es, (Reconcile defaultReconciler conflictWorld ⟨"", "p"⟩).2.2.events =
        conflictWorld.events ++ es ∧
      (⟨"p", EventTypeNormal, "NetworkPolicyCreated",
        "NetworkPolicy created in namespace " ++ "ns1"⟩ : Event) ∈ es) :=
  C4_create_in_matching_namespace defaultReconciler conflictWorld ⟨"", "p"⟩ basicPolicy
    { Name := "ns1" } rfl rfl (by decide) (by decide) (by decide) (by decide) (by decide)
    (by decide) rfl rfl

/-- C5 (code at the failing input): in `staleWorld` the namespace `ns1` is
Active, in scope, does not match the selector and holds a NetworkPolicy
controlled by the policy. `Reconcile` issues the delete and the delete
succeeds (the object is gone), yet no `NetworkPolicyDeleted` event is recorded,
an error wrapping a nil cause is accumulated for `ns1`, and `Reconcile` returns
that aggregate error with a zero result. -/
theorem C5_successful_delete_is_reported_as_error :
    staleWorld.Get "ns1" "p" = .ok ownedPolicy ∧
    IsControlledBy ownedPolicy selectivePolicy = true ∧
    (policySelector selectivePolicy).Matches (.table [("create-networkpolicy", "false")]) = false ∧
    staleWorld.faults.delete "ns1" = none ∧
    (Reconcile defaultReconciler staleWorld ⟨"", "p"⟩).2.2.calls = [Call.delete "ns1" "p"] ∧
    (Reconcile defaultReconciler staleWorld ⟨"", "p"⟩).2.2.networkPolicies = [] ∧
    (Reconcile defaultReconciler staleWorld ⟨"", "p"⟩).2.2.events = [] ∧
    (Reconcile defaultReconciler staleWorld ⟨"", "p"⟩).2.1 =
      some (.aggregate [.delete "ns1" none]) ∧
    (Reconcile defaultReconciler staleWorld ⟨"", "p"⟩).1 = {} :=
  ⟨rfl, by decide, by decide, rfl, by decide, by decide, by decide, by decide, by decide⟩

/-- C6: whatever the conflict-policy annotation of `P`, in an Active, in-scope
namespace `N` whose labels do not match the selector of `P`, a NetworkPolicy
`np` named like `P` that `P` does not control is still there, unchanged, after
`Reconcile`; no mutating call is issued for `N`; and `N` contributes nothing to
the outcome: the pass ends in the state, and `Reconcile` returns the error, of
the same loop run over the other namespaces only. -/
theorem C6_unowned_in_non_matching_namespace_untouched
    (r : ClusterNetworkPolicyReconciler) (w : World) (req : Request)
    (P : ClusterNetworkPolicy) (N : Namespace) (np : NetworkPolicy)
    (hP : w.GetPolicy req.Name = .ok P)
    (hlist : w.faults.listNamespaces = none)
    (huniq : (w.namespaces.map (fun ns => ns.Name)).Nodup)
    (hN : N ∈ w.namespaces) (hact : N.Phase = NamespaceActive)
    (hscope : EvaluateFilters r.ExcludedNamespaces r.IncludedNamespaces N.Name = true)
    (hnomatch : (policySelector P).Matches N.Labels = false)
    (hget : w.Get N.Name P.Name = .ok np)
    (hctl : IsControlledBy np P = false) :
    (Reconcile r w req).2.2.Get N.Name P.Name = .ok np ∧
    (∃ cs, (Reconcile r w req).2.2.calls = w.calls ++ cs ∧ ∀ c ∈ cs, c.ns ≠ N.Name) ∧
    loopResult r w P =
      ((inScopeNamespaces r w).erase N).foldl
        (reconcileNamespace P (replaceOnConflict P) (policySelector P))
        { world := (resolveSelector P w).1, errs := [] } ∧
    (Reconcile r w req).2.1 =
      NewAggregate (((inScopeNamespaces r w).erase N).foldl
        (reconcileNamespace P (replaceOnConflict P) (policySelector P))
        { world := (resolveSelector P w).1, errs := [] }).errs := by
  have hmem : N ∈ inScopeNamespaces r w := (mem_inScope r w N).2 ⟨hN, hact, hscope⟩
  obtain ⟨l1, l2, hl, herase, h1, h2⟩ := loop_split hmem (inScope_nodup r w huniq)
  have hskip : loopResult r w P =
      ((inScopeNamespaces r w).erase N).foldl
        (reconcileNamespace P (replaceOnConflict P) (policySelector P))
        { world := (resolveSelector P w).1, errs := [] } := by
    unfold loopResult
    rw [herase, hl, List.foldl_append, List.foldl_append, List.foldl_cons]
    have t1 := (touches_resolveSelector _ P w).andThen
      (touches_foldl P (replaceOnConflict P) (policySelector P) l1
        { world := (resolveSelector P w).1, errs := [] }).1
    have hget1 : (l1.foldl (reconcileNamespace P (replaceOnConflict P) (policySelector P))
        { world := (resolveSelector P w).1, errs := [] }).world.Get N.Name P.Name = .ok np := by
      rw [touches_get t1 h1]; exact hget
    rw [step_skip_unowned hnomatch hget1 hctl]
  have hnot : N.Name ∉ ((inScopeNamespaces r w).erase N).map (fun ns => ns.Name) := by
    rw [herase, List.map_append, List.mem_append]
    rintro (h | h)
    · exact h1 h
    · exact h2 h
  have tt : Touches (((inScopeNamespaces r w).erase N).map (fun ns => ns.Name)) w
      (loopResult r w P).world := by
    rw [hskip]
    exact (touches_resolveSelector _ P w).andThen
      (touches_foldl P (replaceOnConflict P) (policySelector P) ((inScopeNamespaces r w).erase N)
        { world := (resolveSelector P w).1, errs := [] }).1
  rw [Reconcile_world r w req P hP hlist, Reconcile_error r w req P hP hlist]
  refine ⟨?_, ?_, hskip, by rw [hskip]⟩
  · rw [touches_get tt hnot]; exact hget
  · obtain ⟨cs, hcs, hmemcs⟩ := tt.calls
    exact ⟨cs, hcs, fun c hc heq => hnot (heq ▸ hmemcs c hc)⟩

/-- The hypotheses of C6 hold in `excludedWorld` for the namespace `ns1`. -/
theorem C6_witness :
    (Reconcile defaultReconciler excludedWorld ⟨"", "p"⟩).2.2.Get "ns1" "p" =
        .ok { existingPolicy with Namespace := "ns1" } ∧
    (∃ cs, (Reconcile defaultReconciler excludedWorld ⟨"", "p"⟩).2.2.calls =
        excludedWorld.calls ++ cs ∧ ∀ c ∈ cs, c.ns ≠ "ns1") ∧
    loopResult defaultReconciler excludedWorld selectivePolicy =
      ((inScopeNamespaces defaultReconciler excludedWorld).erase { Name := "ns1" }).foldl
        (reconcileNamespace selectivePolicy (replaceOnConflict selectivePolicy)
          (policySelector selectivePolicy))
        { world := (resolveSelector selectivePolicy excludedWorld).1, errs := [] } ∧
    (Reconcile defaultReconciler excludedWorld ⟨"", "p"⟩).2.1 =
      NewAggregate
        (((inScopeNamespaces defaultReconciler excludedWorld).erase { Name := "ns1" }).foldl
          (reconcileNamespace selectivePolicy (replaceOnConflict selectivePolicy)
            (policySelector selectivePolicy))
          { world := (resolveSelector selectivePolicy excludedWorld).1, errs := [] }).errs :=
  C6_unowned_in_non_matching_namespace_untouched defaultReconciler excludedWorld ⟨"", "p"⟩
    selectivePolicy { Name := "ns1" } { existingPolicy with Namespace := "ns1" }
    rfl rfl (by decide) (by decide) (by decide) (by decide) (by decide) rfl (by decide)

/-- C8: `Reconcile` writes nothing in a namespace `N` of the cluster whose phase
is not Active or whose name is out of scope under the filter: the
NetworkPolicies of `N` are the same after the pass and no call (so no create)
is issued for `N`, whatever the labels of `N`. With the default filter sets
(excluded prefix `kube-`, nothing included) `EvaluateFilters` is false for
every name that starts with `kube-`. And `listNamespaces` returns, in list
order, exactly the listed namespaces that are Active and in scope. -/
theorem C8_no_write_outside_active_in_scope_namespaces
    (r : ClusterNetworkPolicyReconciler) (w : World) (req : Request) (N : Namespace)
    (huniq : (w.namespaces.map (fun ns => ns.Name)).Nodup) (hN : N ∈ w.namespaces)
    (hbad : N.Phase ≠ NamespaceActive ∨
      EvaluateFilters r.ExcludedNamespaces r.IncludedNamespaces N.Name = false) :
    (nsFilter N.Name (Reconcile r w req).2.2.networkPolicies = nsFilter N.Name w.networkPolicies ∧
      ∃ cs, (Reconcile r w req).2.2.calls = w.calls ++ cs ∧ ∀ c ∈ cs, c.ns ≠ N.Name) ∧
    (∀ name : String, StartsWith name "kube-" →
      EvaluateFilters defaultReconciler.ExcludedNamespaces
        defaultReconciler.IncludedNamespaces name = false) ∧
    listNamespaces r w =
      w.ListNamespaces.map (fun items => items.filter (fun ns =>
        decide (ns.Phase = NamespaceActive) &&
          EvaluateFilters r.ExcludedNamespaces r.IncludedNamespaces ns.Name)) := by
  have tt := Reconcile_touches r w req
  have hnot := not_mem_inScope_names r w N huniq hN hbad
  refine ⟨⟨tt.store N.Name hnot, ?_⟩, ?_, ?_⟩
  · obtain ⟨cs, hcs, hmemcs⟩ := tt.calls
    exact ⟨cs, hcs, fun c hc heq => hnot (heq ▸ hmemcs c hc)⟩
  · intro name hname
    have hp : HasPrefix name "kube-" = true := (hasPrefix_iff _ _).2 hname
    simp [EvaluateFilters, defaultReconciler, hp]
  · cases hl : w.faults.listNamespaces with
    | none =>
      rw [listNamespaces_eq r w hl]
      simp [World.ListNamespaces, hl, Except.map, inScopeNamespaces]
    | some e => simp [listNamespaces, World.ListNamespaces, hl, Except.map]

/-- The hypotheses of C8 hold in `excludedWorld` for `kube-system`. -/
theorem C8_witness :
    (nsFilter "kube-system" (Reconcile defaultReconciler excludedWorld ⟨"", "p"⟩).2.2.networkPolicies =
        nsFilter "kube-system" excludedWorld.networkPolicies ∧
      ∃ cs, (Reconcile defaultReconciler excludedWorld ⟨"", "p"⟩).2.2.calls =
        excludedWorld.calls ++ cs ∧ ∀ c ∈ cs, c.ns ≠ "kube-system") ∧
    (∀ name : String, StartsWith name "kube-" →
      EvaluateFilters defaultReconciler.ExcludedNamespaces
        defaultReconciler.IncludedNamespaces name = false) ∧
    listNamespaces defaultReconciler excludedWorld =
      excludedWorld.ListNamespaces.map (fun items => items.filter (fun ns =>
        decide (ns.Phase = NamespaceActive) &&
          EvaluateFilters defaultReconciler.ExcludedNamespaces
            defaultReconciler.IncludedNamespaces ns.Name)) :=
  C8_no_write_outside_active_in_scope_namespaces defaultReconciler excludedWorld ⟨"", "p"⟩
    { Name := "kube-system" } (by decide) (by decide) (Or.inr (by decide))

/-- C9 (as stated) fails: in `conflictWorld`, where `ns2` holds an unowned
NetworkPolicy named like the policy and replacement is not requested, a second
`Reconcile` run right after the first one records one more event, the
`NetworkPolicyConflict` warning for `ns2`; and in `patchFailWorld`, where the
API refuses the patch in both runs, the second run issues the patch again. -/
theorem C9_counterexample :
    (Reconcile defaultReconciler
        (Reconcile defaultReconciler conflictWorld ⟨"", "p"⟩).2.2 ⟨"", "p"⟩).2.2.events =
      (Reconcile defaultReconciler conflictWorld ⟨"", "p"⟩).2.2.events ++
        [⟨"p", "Warning", "NetworkPolicyConflict", "NetworkPolicy conflict in namespace ns2"⟩] ∧
    (Reconcile defaultReconciler
        (Reconcile defaultReconciler patchFailWorld ⟨"", "p"⟩).2.2 ⟨"", "p"⟩).2.2.calls =
      (Reconcile defaultReconciler patchFailWorld ⟨"", "p"⟩).2.2.calls ++
        [Call.patch "ns2" "p"] := by
  decide

/-- C9 (amended): when every call on NetworkPolicies is served by the API and
nothing changes between the two runs, a second `Reconcile` right after the
first one issues no create, patch or delete, leaves every NetworkPolicy as it
is, and records no `NetworkPolicyCreated`, `NetworkPolicyUpdated` or
`NetworkPolicyDeleted` event: every event it records is a warning with reason
`InvalidConfiguration` or `NetworkPolicyConflict`, which each pass repeats. -/
theorem C9_second_pass_writes_nothing
    (r : ClusterNetworkPolicyReconciler) (w : World) (req : Request)
    (hnf : NoFaults w) (huniq : (w.namespaces.map (fun ns => ns.Name)).Nodup) :
    (Reconcile r (Reconcile r w req).2.2 req).2.2.calls = (Reconcile r w req).2.2.calls ∧
    (Reconcile r (Reconcile r w req).2.2 req).2.2.networkPolicies =
      (Reconcile r w req).2.2.networkPolicies ∧
    ∃ es, (Reconcile r (Reconcile r w req).2.2 req).2.2.events =
        (Reconcile r w req).2.2.events ++ es ∧
      ∀ e ∈ es, e.eventtype = EventTypeWarning ∧
        (e.reason = "InvalidConfiguration" ∨ e.reason = "NetworkPolicyConflict") := by
  have q := second_pass_quiet r w req hnf huniq
  exact ⟨q.calls, q.store, q.events⟩

/-- The hypotheses of the amended C9 hold in `conflictWorld`. -/
theorem C9_witness :
    (Reconcile defaultReconciler
        (Reconcile defaultReconciler conflictWorld ⟨"", "p"⟩).2.2 ⟨"", "p"⟩).2.2.calls =
      (Reconcile defaultReconciler conflictWorld ⟨"", "p"⟩).2.2.calls ∧
    (Reconcile defaultReconciler
        (Reconcile defaultReconciler conflictWorld ⟨"", "p"⟩).2.2 ⟨"", "p"⟩).2.2.networkPolicies =
      (Reconcile defaultReconciler conflictWorld ⟨"", "p"⟩).2.2.networkPolicies ∧
    ∃ es, (Reconcile defaultReconciler
          (Reconcile defaultReconciler conflictWorld ⟨"", "p"⟩).2.2 ⟨"", "p"⟩).2.2.events =
        (Reconcile defaultReconciler conflictWorld ⟨"", "p"⟩).2.2.events ++ es ∧
      ∀ e ∈ es, e.eventtype = EventTypeWarning ∧
        (e.reason = "InvalidConfiguration" ∨ e.reason = "NetworkPolicyConflict") :=
  C9_second_pass_writes_nothing defaultReconciler conflictWorld ⟨"", "p"⟩
    (fun _ => ⟨rfl, rfl, rfl, rfl⟩) (by decide)

/-- C10: for an existing policy `P` whose namespace listing succeeds,
`Reconcile` returns `RequeueAfter` = 6 hours with a nil error when the loop
accumulated no per-namespace error, and otherwise the aggregate of the
accumulated errors with a zero result; exactly one of the two outcomes occurs. -/
theorem C10_result_is_requeue_or_aggregate_error
    (r : ClusterNetworkPolicyReconciler) (w : World) (req : Request)
    (P : ClusterNetworkPolicy)
    (hP : w.GetPolicy req.Name = .ok P)
    (hlist : w.faults.listNamespaces = none) :
    ((loopResult r w P).errs = [] →
      (Reconcile r w req).1 = { Requeue := false, RequeueAfter := 6 * 3600 * 1000000000 } ∧
      (Reconcile r w req).2.1 = none) ∧
    ((loopResult r w P).errs ≠ [] →
      (Reconcile r w req).1 = { Requeue := false, RequeueAfter := 0 } ∧
      (Reconcile r w req).2.1 = some (.aggregate (loopResult r w P).errs)) ∧
    (((Reconcile r w req).1.RequeueAfter = 6 * 3600 * 1000000000 ∧
        (Reconcile r w req).2.1 = none) ∨
      ((Reconcile r w req).1 = { Requeue := false, RequeueAfter := 0 } ∧
        (Reconcile r w req).2.1 ≠ none)) ∧
    ¬ (((Reconcile r w req).1.RequeueAfter = 6 * 3600 * 1000000000 ∧
        (Reconcile r w req).2.1 = none) ∧
      ((Reconcile r w req).1 = { Requeue := false, RequeueAfter := 0 } ∧
        (Reconcile r w req).2.1 ≠ none)) := by
  rw [Reconcile_eq r w req P hP hlist]
  by_cases h : (loopResult r w P).errs = []
  · simp [h, NewAggregate, Hour]
  · have hlen : (loopResult r w P).errs.length ≠ 0 := by
      simpa [List.length_eq_zero] using h
    simp [h, hlen, NewAggregate]

/-- The hypotheses of C10 hold in `conflictWorld`. -/
theorem C10_witness :
    ((loopResult defaultReconciler conflictWorld basicPolicy).errs = [] →
      (Reconcile defaultReconciler conflictWorld ⟨"", "p"⟩).1 =
        { Requeue := false, RequeueAfter := 6 * 3600 * 1000000000 } ∧
      (Reconcile defaultReconciler conflictWorld ⟨"", "p"⟩).2.1 = none) ∧
    ((loopResult defaultReconciler conflictWorld basicPolicy).errs ≠ [] →
      (Reconcile defaultReconciler conflictWorld ⟨"", "p"⟩).1 =
        { Requeue := false, RequeueAfter := 0 } ∧
      (Reconcile defaultReconciler conflictWorld ⟨"", "p"⟩).2.1 =
        some (.aggregate (loopResult defaultReconciler conflictWorld basicPolicy).errs)) ∧
    (((Reconcile defaultReconciler conflictWorld ⟨"", "p"⟩).1.RequeueAfter =
          6 * 3600 * 1000000000 ∧
        (Reconcile defaultReconciler conflictWorld ⟨"", "p"⟩).2.1 = none) ∨
      ((Reconcile defaultReconciler conflictWorld ⟨"", "p"⟩).1 =
          { Requeue := false, RequeueAfter := 0 } ∧
        (Reconcile defaultReconciler conflictWorld ⟨"", "p"⟩).2.1 ≠ none)) ∧
    ¬ (((Reconcile defaultReconciler conflictWorld ⟨"", "p"⟩).1.RequeueAfter =
          6 * 3600 * 1000000000 ∧
        (Reconcile defaultReconciler conflictWorld ⟨"", "p"⟩).2.1 = none) ∧
      ((Reconcile defaultReconciler conflictWorld ⟨"", "p"⟩).1 =
          { Requeue := false, RequeueAfter := 0 } ∧
        (Reconcile defaultReconciler conflictWorld ⟨"", "p"⟩).2.1 ≠ none)) :=
  C10_result_is_requeue_or_aggregate_error defaultReconciler conflictWorld ⟨"", "p"⟩
    basicPolicy rfl rfl

/-- C11: when the namespace selector of `P` does not convert, `Reconcile`
records an `InvalidConfiguration` warning event on `P` before the loop, the
selector it works with matches no label set, so every namespace of the pass
takes the non-matching branch: every call issued during the pass is a delete
(no create, no patch) and the store after the pass holds only objects it held
before, unchanged. -/
theorem C11_invalid_selector_matches_nothing
    (r : ClusterNetworkPolicyReconciler) (w : World) (req : Request)
    (P : ClusterNetworkPolicy)
    (hP : w.GetPolicy req.Name = .ok P)
    (hlist : w.faults.listNamespaces = none)
    (hinvalid : LabelSelectorAsSelector P.Spec.NamespaceSelector = none) :
    (∃ es, (Reconcile r w req).2.2.events =
      w.events ++ (⟨P.Name, EventTypeWarning, "InvalidConfiguration",
        "Invalid namespace selector"⟩ : Event) :: es) ∧
    (∀ labels : LabelMap, (policySelector P).Matches labels = false) ∧
    (∃ cs, (Reconcile r w req).2.2.calls = w.calls ++ cs ∧
      ∀ c ∈ cs, c.isDelete = true ∧ ∀ ns name, c ≠ Call.create ns name ∧ c ≠ Call.patch ns name) ∧
    (Reconcile r w req).2.2.networkPolicies.Sublist w.networkPolicies := by
  rw [Reconcile_world r w req P hP hlist]
  have hsel := policySelector_invalid P hinvalid
  have hw0 := resolveSelector_invalid P w hinvalid
  unfold loopResult
  rw [hsel, hw0]
  obtain ⟨⟨cs, hcs, hdel⟩, hsub⟩ := foldl_nothing P (replaceOnConflict P) (inScopeNamespaces r w)
    { world := w.Event P EventTypeWarning "InvalidConfiguration" "Invalid namespace selector",
      errs := [] }
  obtain ⟨-, es, hes⟩ := touches_foldl P (replaceOnConflict P) Selector.nothing
    (inScopeNamespaces r w)
    { world := w.Event P EventTypeWarning "InvalidConfiguration" "Invalid namespace selector",
      errs := [] }
  obtain ⟨tt, -⟩ := touches_foldl P (replaceOnConflict P) Selector.nothing
    (inScopeNamespaces r w)
    { world := w.Event P EventTypeWarning "InvalidConfiguration" "Invalid namespace selector",
      errs := [] }
  obtain ⟨ev, hev⟩ := tt.events
  refine ⟨⟨ev, ?_⟩, fun _ => rfl, ⟨cs, hcs, ?_⟩, hsub⟩
  · rw [hev]
    simp [World.Event]
  · intro c hc
    refine ⟨hdel c hc, fun ns name => ⟨?_, ?_⟩⟩
    · intro h; have := hdel c hc; rw [h] at this; exact Bool.false_ne_true this
    · intro h; have := hdel c hc; rw [h] at this; exact Bool.false_ne_true this

/-- The hypotheses of C11 hold in `invalidSelectorWorld` (operator `In`
without values) and in `badValueWorld` (a value that is not a label value):
there the pass records the warning and creates nothing in `ns1`, which the
selector would match if it were converted. -/
theorem C11_witness :
    ((∃ es, (Reconcile defaultReconciler invalidSelectorWorld ⟨"", "p"⟩).2.2.events =
        invalidSelectorWorld.events ++ (⟨invalidSelectorPolicy.Name, EventTypeWarning,
          "InvalidConfiguration", "Invalid namespace selector"⟩ : Event) :: es) ∧
      (∀ labels : LabelMap, (policySelector invalidSelectorPolicy).Matches labels = false) ∧
      (∃ cs, (Reconcile defaultReconciler invalidSelectorWorld ⟨"", "p"⟩).2.2.calls =
          invalidSelectorWorld.calls ++ cs ∧
        ∀ c ∈ cs, c.isDelete = true ∧
          ∀ ns name, c ≠ Call.create ns name ∧ c ≠ Call.patch ns name) ∧
      (Reconcile defaultReconciler invalidSelectorWorld ⟨"", "p"⟩).2.2.networkPolicies.Sublist
        invalidSelectorWorld.networkPolicies) ∧
    LabelSelectorAsSelector badValuePolicy.Spec.NamespaceSelector = none ∧
    ((∃ es, (Reconcile defaultReconciler badValueWorld ⟨"", "p"⟩).2.2.events =
        badValueWorld.events ++ (⟨badValuePolicy.Name, EventTypeWarning,
          "InvalidConfiguration", "Invalid namespace selector"⟩ : Event) :: es) ∧
      (∀ labels : LabelMap, (policySelector badValuePolicy).Matches labels = false) ∧
      (∃ cs, (Reconcile defaultReconciler badValueWorld ⟨"", "p"⟩).2.2.calls =
          badValueWorld.calls ++ cs ∧
        ∀ c ∈ cs, c.isDelete = true ∧
          ∀ ns name, c ≠ Call.create ns name ∧ c ≠ Call.patch ns name) ∧
      (Reconcile defaultReconciler badValueWorld ⟨"", "p"⟩).2.2.networkPolicies.Sublist
        badValueWorld.networkPolicies) ∧
    (Reconcile defaultReconciler badValueWorld ⟨"", "p"⟩).2.2.calls = [] ∧
    (Reconcile defaultReconciler badValueWorld ⟨"", "p"⟩).2.2.networkPolicies = [] :=
  ⟨C11_invalid_selector_matches_nothing defaultReconciler invalidSelectorWorld ⟨"", "p"⟩
      invalidSelectorPolicy rfl rfl (by decide),
    by decide,
    C11_invalid_selector_matches_nothing defaultReconciler badValueWorld ⟨"", "p"⟩
      badValuePolicy rfl rfl (by decide),
    by decide, by decide⟩

/-- C12: in a pass of `Reconcile` over namespaces with distinct names, every
Active, in-scope namespace receives its own action, whatever happened in the
others: the NetworkPolicies it holds after the pass are those its own step
leaves, the calls of the pass are the calls of the own steps in list order,
and the accumulated errors are the errors of the own steps, all of them,
returned together as one aggregate. What a namespace holds after the pass
does not depend on the order in which the namespaces are listed. -/
theorem C12_failures_do_not_stop_the_pass
    (r : ClusterNetworkPolicyReconciler) (w : World) (req : Request)
    (P : ClusterNetworkPolicy)
    (hP : w.GetPolicy req.Name = .ok P)
    (hlist : w.faults.listNamespaces = none)
    (huniq : (w.namespaces.map (fun ns => ns.Name)).Nodup) :
    (∀ N ∈ inScopeNamespaces r w,
      nsFilter N.Name (Reconcile r w req).2.2.networkPolicies =
        nsFilter N.Name (ownStep P w N).world.networkPolicies) ∧
    (Reconcile r w req).2.2.calls =
      w.calls ++ (inScopeNamespaces r w).flatMap (ownCalls P w) ∧
    (loopResult r w P).errs =
      (inScopeNamespaces r w).flatMap (fun N => (ownStep P w N).errs) ∧
    (Reconcile r w req).2.1 =
      NewAggregate ((inScopeNamespaces r w).flatMap (fun N => (ownStep P w N).errs)) ∧
    (∀ l : List Namespace, l.Perm w.namespaces → ∀ N ∈ inScopeNamespaces r w,
      nsFilter N.Name (Reconcile r { w with namespaces := l } req).2.2.networkPolicies =
        nsFilter N.Name (Reconcile r w req).2.2.networkPolicies) := by
  have main : ∀ w2 : World, w2.GetPolicy req.Name = .ok P → w2.faults.listNamespaces = none →
      (w2.namespaces.map (fun ns => ns.Name)).Nodup →
      (∀ N ∈ inScopeNamespaces r w2,
        nsFilter N.Name (Reconcile r w2 req).2.2.networkPolicies =
          nsFilter N.Name (ownStep P w2 N).world.networkPolicies) ∧
      (Reconcile r w2 req).2.2.calls =
        w2.calls ++ (inScopeNamespaces r w2).flatMap (ownCalls P w2) ∧
      (loopResult r w2 P).errs =
        (inScopeNamespaces r w2).flatMap (fun N => (ownStep P w2 N).errs) := by
    intro w2 hP2 hl2 hu2
    rw [Reconcile_world r w2 req P hP2 hl2]
    have hfold := foldl_is_own P w2 (inScopeNamespaces r w2)
      { world := (resolveSelector P w2).1, errs := [] } [] (inScope_nodup r w2 hu2)
      (touches_resolveSelector [] P w2) (fun _ _ h => by cases h)
    have hcalls0 : (resolveSelector P w2).1.calls = w2.calls := by
      unfold resolveSelector
      cases LabelSelectorAsSelector P.Spec.NamespaceSelector <;> rfl
    refine ⟨?_, ?_, ?_⟩
    · intro N hN
      obtain ⟨st1, S1, S2, hS1, hS2, t0, t2, -⟩ := pass_visit r w2 P N hu2 hN
      rw [t2.store N.Name hS2]
      exact (step_is_own P w2 st1 S1 N t0 hS1).2.2
    · have := hfold.2
      rw [hcalls0] at this
      exact this
    · have := hfold.1
      simpa using this
  obtain ⟨m1, m2, m3⟩ := main w hP hlist huniq
  refine ⟨m1, m2, m3, ?_, ?_⟩
  · rw [Reconcile_error r w req P hP hlist, m3]
  · intro l hperm N hN
    have hu2 : (l.map (fun ns => ns.Name)).Nodup :=
      (List.Perm.nodup_iff (hperm.map _)).2 huniq
    obtain ⟨hNw, hact, hscope⟩ := (mem_inScope r w N).1 hN
    have hN2 : N ∈ inScopeNamespaces r { w with namespaces := l } :=
      (mem_inScope r _ N).2 ⟨hperm.mem_iff.2 hNw, hact, hscope⟩
    obtain ⟨k1, -, -⟩ := main { w with namespaces := l } hP hlist hu2
    rw [k1 N hN2, m1 N hN, ownStep_namespaces]

/-- The hypotheses of C12 hold in `failFirstWorld`, where the first namespace
of the list is the one with the conflict. -/
theorem C12_witness :
    (∀ N ∈ inScopeNamespaces defaultReconciler failFirstWorld,
      nsFilter N.Name (Reconcile defaultReconciler failFirstWorld ⟨"", "p"⟩).2.2.networkPolicies =
        nsFilter N.Name (ownStep basicPolicy failFirstWorld N).world.networkPolicies) ∧
    (Reconcile defaultReconciler failFirstWorld ⟨"", "p"⟩).2.2.calls =
      failFirstWorld.calls ++
        (inScopeNamespaces defaultReconciler failFirstWorld).flatMap
          (ownCalls basicPolicy failFirstWorld) ∧
    (loopResult defaultReconciler failFirstWorld basicPolicy).errs =
      (inScopeNamespaces defaultReconciler failFirstWorld).flatMap
        (fun N => (ownStep basicPolicy failFirstWorld N).errs) ∧
    (Reconcile defaultReconciler failFirstWorld ⟨"", "p"⟩).2.1 =
      NewAggregate ((inScopeNamespaces defaultReconciler failFirstWorld).flatMap
        (fun N => (ownStep basicPolicy failFirstWorld N).errs)) ∧
    (∀ l : List Namespace, l.Perm failFirstWorld.namespaces →
      ∀ N ∈ inScopeNamespaces defaultReconciler failFirstWorld,
        nsFilter N.Name (Reconcile defaultReconciler
            { failFirstWorld with namespaces := l } ⟨"", "p"⟩).2.2.networkPolicies =
          nsFilter N.Name
            (Reconcile defaultReconciler failFirstWorld ⟨"", "p"⟩).2.2.networkPolicies) :=
  C12_failures_do_not_stop_the_pass defaultReconciler failFirstWorld ⟨"", "p"⟩ basicPolicy
    rfl rfl (by decide)

/-- C13: a name that is an element of `excluded.Exact` is out of scope whatever
`included` contains; a name that is an element of `included.Exact` and not of
`excluded.Exact` is in scope whatever the excluded prefix and suffix patterns are. -/
theorem C13_exact_patterns_take_precedence (excluded included : Filters) (name : String) :
    (name ∈ excluded.Exact → EvaluateFilters excluded included name = false) ∧
    (name ∈ included.Exact → name ∉ excluded.Exact →
      EvaluateFilters excluded included name = true) := by
  have e1 := any_eq_iff_mem excluded.Exact name
  have e2 := any_eq_iff_mem included.Exact name
  constructor
  · intro h
    unfold EvaluateFilters
    rw [if_pos (e1.2 h)]
  · intro h2 h1
    unfold EvaluateFilters
    rw [if_neg (fun h => h1 (e1.1 h)), if_pos (e2.2 h2)]

/-- C13 on the filter sets of the tests: `exc` is excluded although it is also
included exactly; with `exc-pre-inc` included exactly it is in scope although
it starts with the excluded prefix `exc-pre`. -/
theorem C13_witness :
    EvaluateFilters testExcluded testIncluded "exc" = false ∧
    EvaluateFilters testExcluded { testIncluded with Exact := ["exc-pre-inc"] }
      "exc-pre-inc" = true :=
  ⟨(C13_exact_patterns_take_precedence testExcluded testIncluded "exc").1 (by decide),
   (C13_exact_patterns_take_precedence testExcluded
      { testIncluded with Exact := ["exc-pre-inc"] } "exc-pre-inc").2 (by decide) (by decide)⟩

/-- C14: when the included set has no exact, prefix or suffix pattern,
a name is in scope if and only if it equals no excluded exact pattern, starts
with no excluded prefix and ends with no excluded suffix. -/
theorem C14_empty_included_allows_all_not_excluded (excluded included : Filters)
    (name : String)
    (hE : included.Exact = []) (hP : included.Prefix = []) (hS : included.Suffix = []) :
    EvaluateFilters excluded included name = true ↔
      (name ∉ excluded.Exact ∧ (∀ p ∈ excluded.Prefix, ¬ StartsWith name p) ∧
        (∀ p ∈ excluded.Suffix, ¬ EndsWith name p)) := by
  have e1 := any_eq_iff_mem excluded.Exact name
  have e3 := any_hasPrefix_iff excluded.Prefix name
  have e4 := any_hasSuffix_iff excluded.Suffix name
  have i2 : included.Exact.any (fun f => name == f) = false := by rw [hE]; rfl
  have i5 : included.Prefix.any (fun f => HasPrefix name f) = false := by rw [hP]; rfl
  have i6 : included.Suffix.any (fun f => HasSuffix name f) = false := by rw [hS]; rfl
  have i7 : included.IsEmpty = true := (isEmpty_iff included).2 ⟨hE, hP, hS⟩
  unfold EvaluateFilters
  by_cases h1 : name ∈ excluded.Exact
  · rw [if_pos (e1.2 h1)]
    constructor
    · intro h; cases h
    · rintro ⟨h, -, -⟩; exact absurd h1 h
  rw [if_neg (fun h => h1 (e1.1 h)), i2, if_neg Bool.false_ne_true]
  by_cases h3 : ∃ p ∈ excluded.Prefix, StartsWith name p
  · rw [if_pos (e3.2 h3)]
    obtain ⟨p, hp, hs⟩ := h3
    constructor
    · intro h; cases h
    · rintro ⟨-, hall, -⟩; exact absurd hs (hall p hp)
  rw [if_neg (fun h => h3 (e3.1 h))]
  by_cases h4 : ∃ p ∈ excluded.Suffix, EndsWith name p
  · rw [if_pos (e4.2 h4)]
    obtain ⟨p, hp, hs⟩ := h4
    constructor
    · intro h; cases h
    · rintro ⟨-, -, hall⟩; exact absurd hs (hall p hp)
  rw [if_neg (fun h => h4 (e4.1 h)), i5, if_neg Bool.false_ne_true, i6,
    if_neg Bool.false_ne_true, i7]
  refine iff_of_true rfl ⟨h1, ?_, ?_⟩
  · intro p hp hs; exact h3 ⟨p, hp, hs⟩
  · intro p hp hs; exact h4 ⟨p, hp, hs⟩

/-- The hypotheses of C14 hold for the excluded set of the tests and an empty
included set. -/
theorem C14_witness :
    EvaluateFilters testExcluded {} "test" = true ↔
      ("test" ∉ testExcluded.Exact ∧ (∀ p ∈ testExcluded.Prefix, ¬ StartsWith "test" p) ∧
        (∀ p ∈ testExcluded.Suffix, ¬ EndsWith "test" p)) :=
  C14_empty_included_allows_all_not_excluded testExcluded {} "test" rfl rfl rfl

/-- C15: the result of `EvaluateFilters` depends only on the name and on the
six sets of patterns: two pairs of filter sets whose Exact, Prefix and Suffix
lists have the same elements, in whatever order and with whatever repetitions
(in particular lists that are permutations of one another), give the same
result for every name. -/
theorem C15_no_ordering_dependency (e1 i1 e2 i2 : Filters) (name : String)
    (hEE : ∀ x, x ∈ e1.Exact ↔ x ∈ e2.Exact)
    (hEP : ∀ x, x ∈ e1.Prefix ↔ x ∈ e2.Prefix)
    (hES : ∀ x, x ∈ e1.Suffix ↔ x ∈ e2.Suffix)
    (hIE : ∀ x, x ∈ i1.Exact ↔ x ∈ i2.Exact)
    (hIP : ∀ x, x ∈ i1.Prefix ↔ x ∈ i2.Prefix)
    (hIS : ∀ x, x ∈ i1.Suffix ↔ x ∈ i2.Suffix) :
    EvaluateFilters e1 i1 name = EvaluateFilters e2 i2 name ∧
    (∀ e3 i3 : Filters, e3.Exact.Perm e1.Exact → e3.Prefix.Perm e1.Prefix →
      e3.Suffix.Perm e1.Suffix → i3.Exact.Perm i1.Exact → i3.Prefix.Perm i1.Prefix →
      i3.Suffix.Perm i1.Suffix →
      EvaluateFilters e3 i3 name = EvaluateFilters e1 i1 name) := by
  have key : ∀ a b c d : Filters,
      (∀ x, x ∈ a.Exact ↔ x ∈ c.Exact) → (∀ x, x ∈ a.Prefix ↔ x ∈ c.Prefix) →
      (∀ x, x ∈ a.Suffix ↔ x ∈ c.Suffix) → (∀ x, x ∈ b.Exact ↔ x ∈ d.Exact) →
      (∀ x, x ∈ b.Prefix ↔ x ∈ d.Prefix) → (∀ x, x ∈ b.Suffix ↔ x ∈ d.Suffix) →
      EvaluateFilters a b name = EvaluateFilters c d name := by
    intro a b c d h1 h2 h3 h4 h5 h6
    have hemp : b.IsEmpty = d.IsEmpty := by
      rw [Bool.eq_iff_iff, isEmpty_iff, isEmpty_iff, eq_nil_congr_of_mem_iff h4,
        eq_nil_congr_of_mem_iff h5, eq_nil_congr_of_mem_iff h6]
    unfold EvaluateFilters
    rw [any_congr_of_mem_iff _ h1, any_congr_of_mem_iff _ h2, any_congr_of_mem_iff _ h3,
      any_congr_of_mem_iff _ h4, any_congr_of_mem_iff _ h5, any_congr_of_mem_iff _ h6, hemp]
  refine ⟨key e1 i1 e2 i2 hEE hEP hES hIE hIP hIS, ?_⟩
  intro e3 i3 p1 p2 p3 p4 p5 p6
  exact key e3 i3 e1 i1 (fun _ => p1.mem_iff) (fun _ => p2.mem_iff) (fun _ => p3.mem_iff)
    (fun _ => p4.mem_iff) (fun _ => p5.mem_iff) (fun _ => p6.mem_iff)

/-- The hypotheses of C15 hold for the filter sets of the tests and the same
sets with their lists reversed and an entry repeated. -/
theorem C15_witness :
    EvaluateFilters testExcluded testIncluded "inc-pre-test" =
        EvaluateFilters testExcluded
          { Exact := ["exc", "inc", "exc"], Prefix := ["exc-pre", "inc-pre"],
            Suffix := ["exc-suf", "inc-suf", "inc-suf"] } "inc-pre-test" ∧
    (∀ e3 i3 : Filters, e3.Exact.Perm testExcluded.Exact →
      e3.Prefix.Perm testExcluded.Prefix → e3.Suffix.Perm testExcluded.Suffix →
      i3.Exact.Perm testIncluded.Exact → i3.Prefix.Perm testIncluded.Prefix →
      i3.Suffix.Perm testIncluded.Suffix →
      EvaluateFilters e3 i3 "inc-pre-test" =
        EvaluateFilters testExcluded testIncluded "inc-pre-test") :=
  C15_no_ordering_dependency testExcluded testIncluded testExcluded
    { Exact := ["exc", "inc", "exc"], Prefix := ["exc-pre", "inc-pre"],
      Suffix := ["exc-suf", "inc-suf", "inc-suf"] } "inc-pre-test"
    (fun _ => Iff.rfl) (fun _ => Iff.rfl) (fun _ => Iff.rfl)
    (by intro x; simp only [testIncluded, List.mem_cons, List.mem_singleton, List.not_mem_nil]; tauto)
    (by intro x; simp only [testIncluded, List.mem_cons, List.mem_singleton, List.not_mem_nil]; tauto)
    (by intro x; simp only [testIncluded, List.mem_cons, List.mem_singleton, List.not_mem_nil]; tauto)

/-- C16: `Set` parses a comma-separated value by the wildcard grammar. The
receiver after the call holds the filters it started from (emptied on the
first call) followed by the exact, prefix and suffix patterns of the entries
before the first invalid one, each list in input order, empty entries
skipped; the call returns an error exactly when some entry is invalid, that is
when the pattern left after trimming and stripping holds a `*` or a space, and
nil otherwise, in which case every entry was taken. -/
theorem C16_set_parses_wildcard_grammar (f : Filters) (value : String) :
    f.Set value =
      ({ Exact := (setBase f).Exact ++ (acceptedEntries value).filterMap Entry.exactPattern
         Prefix := (setBase f).Prefix ++ (acceptedEntries value).filterMap Entry.prefixPattern
         Suffix := (setBase f).Suffix ++ (acceptedEntries value).filterMap Entry.suffixPattern
         flagSet := true },
        if Entry.invalid ∈ entriesOf value then some "invalid filter" else none) ∧
    ((f.Set value).2 ≠ none ↔ ∃ e ∈ Split value ',', badPattern (remaining e)) ∧
    ((f.Set value).2 = none ↔ ∀ e ∈ Split value ',', ¬ badPattern (remaining e)) ∧
    ((f.Set value).2 = none → acceptedEntries value = entriesOf value) := by
  have heq : f.Set value =
      ({ Exact := (setBase f).Exact ++ (acceptedEntries value).filterMap Entry.exactPattern
         Prefix := (setBase f).Prefix ++ (acceptedEntries value).filterMap Entry.prefixPattern
         Suffix := (setBase f).Suffix ++ (acceptedEntries value).filterMap Entry.suffixPattern
         flagSet := true },
        if Entry.invalid ∈ entriesOf value then some "invalid filter" else none) := by
    rw [set_eq_setLoop, setLoop_general, setBase_flagSet]
    rfl
  have hmem : Entry.invalid ∈ entriesOf value ↔
      ∃ e ∈ Split value ',', badPattern (remaining e) := by
    rw [invalid_mem_entriesOf]
    exact exists_congr (fun e => and_congr_right (fun _ => classify_invalid_iff e))
  have hnone : (f.Set value).2 = none ↔ Entry.invalid ∉ entriesOf value := by
    rw [heq]
    by_cases h : Entry.invalid ∈ entriesOf value <;> simp [h]
  refine ⟨heq, ?_, ?_, ?_⟩
  · rw [ne_eq, hnone, not_not, hmem]
  · rw [hnone, hmem]
    simp
  · intro h
    exact acceptedEntries_of_valid value (hnone.1 h)

/-- C16 on the value `foo, bar*, *baz ,, *` given to the default excluded set,
and the grammar on some entries: a lone `*` is the empty prefix, and a `*`
elsewhere or an embedded space makes the entry invalid. -/
theorem C16_witness :
    (({ Prefix := ["kube-"] } : Filters).Set "foo, bar*, *baz ,, *" =
      ({ Exact := ["foo"], Prefix := ["bar", ""], Suffix := ["baz"], flagSet := true }, none)) ∧
    entriesOf "foo, bar*, *baz ,, *" =
      [.exact "foo", .pre "bar", .suf "baz", .skip, .pre ""] ∧
    entriesOf "a*b,**,a b" = [.invalid, .invalid, .invalid] ∧
    (({} : Filters).Set "ok, a*b, later" =
      ({ Exact := ["ok"], Prefix := [], Suffix := [], flagSet := true },
        some "invalid filter")) :=
  ⟨by
    rw [(C16_set_parses_wildcard_grammar { Prefix := ["kube-"] } "foo, bar*, *baz ,, *").1]
    decide,
   by decide, by decide, by decide⟩

/-- C17 (as stated) fails: a tab is a white-space character, the entry `a<tab>b`
is its own trimmed form and holds the tab, yet `Set` returns nil and accepts
the entry as an exact pattern. -/
theorem C17_counterexample :
    IsSpace '\t' = true ∧ TrimSpace "a\tb" = "a\tb" ∧ '\t' ∈ (TrimSpace "a\tb").data ∧
    (({} : Filters).Set "a\tb").2 = none ∧
    (({} : Filters).Set "a\tb").1.Exact = ["a\tb"] := by
  decide

/-- C17 (amended): when some comma-separated entry still holds a space
character (U+0020) after trimming, `Set` returns an error, and every pattern
in the lists of the receiver is one it started with or holds neither `*` nor
space: the entry is not accepted. -/
theorem C17_embedded_space_is_rejected (f : Filters) (value : String)
    (h : ∃ e ∈ Split value ',', ' ' ∈ (TrimSpace e).data) :
    (f.Set value).2 ≠ none ∧
    (∀ p ∈ (f.Set value).1.Exact, p ∈ (setBase f).Exact ∨ (' ' ∉ p.data ∧ '*' ∉ p.data)) ∧
    (∀ p ∈ (f.Set value).1.Prefix, p ∈ (setBase f).Prefix ∨ (' ' ∉ p.data ∧ '*' ∉ p.data)) ∧
    (∀ p ∈ (f.Set value).1.Suffix, p ∈ (setBase f).Suffix ∨ (' ' ∉ p.data ∧ '*' ∉ p.data)) := by
  obtain ⟨e, he, hsp⟩ := h
  have herr : (f.Set value).2 = some "invalid filter" := by
    rw [set_eq_setLoop]
    exact setLoop_invalid _ _ ⟨e, he, classify_space e hsp⟩
  obtain ⟨c1, c2, c3⟩ := setLoop_accepts_clean (Split value ',') (setBase f)
  have hclean : ∀ p : String, ¬ badPattern p.data → (' ' ∉ p.data ∧ '*' ∉ p.data) :=
    fun p hb => ⟨fun h => hb (Or.inr h), fun h => hb (Or.inl h)⟩
  refine ⟨by rw [herr]; simp, ?_, ?_, ?_⟩
  · intro p hp
    rcases c1 p hp with h | h
    · exact Or.inl h
    · exact Or.inr (hclean p h)
  · intro p hp
    rcases c2 p hp with h | h
    · exact Or.inl h
    · exact Or.inr (hclean p h)
  · intro p hp
    rcases c3 p hp with h | h
    · exact Or.inl h
    · exact Or.inr (hclean p h)

/-- The hypothesis of the amended C17 holds for the value `ok, a b`. -/
theorem C17_witness :
    (({} : Filters).Set "ok, a b").2 ≠ none ∧
    (∀ p ∈ (({} : Filters).Set "ok, a b").1.Exact,
      p ∈ (setBase {}).Exact ∨ (' ' ∉ p.data ∧ '*' ∉ p.data)) ∧
    (∀ p ∈ (({} : Filters).Set "ok, a b").1.Prefix,
      p ∈ (setBase {}).Prefix ∨ (' ' ∉ p.data ∧ '*' ∉ p.data)) ∧
    (∀ p ∈ (({} : Filters).Set "ok, a b").1.Suffix,
      p ∈ (setBase {}).Suffix ∨ (' ' ∉ p.data ∧ '*' ∉ p.data)) :=
  C17_embedded_space_is_rejected {} "ok, a b" ⟨" a b", by decide, by decide⟩

/-- C18: `onNamespaceUpdated` returns no request when the name of the namespace
is out of scope under the filter, and none when listing the policies fails;
otherwise it returns one request per listed policy, in list order and as many
as the list has, each with the name of its policy and an empty namespace. The
labels of the namespace and the selectors of the policies play no part. -/
theorem C18_onNamespaceUpdated_requests_every_policy
    (r : ClusterNetworkPolicyReconciler) (w : World) (ns : Namespace) :
    onNamespaceUpdated r w ns =
      (if EvaluateFilters r.ExcludedNamespaces r.IncludedNamespaces ns.Name = true then
        match w.ListPolicies with
        | .error _ => []
        | .ok items => items.map (fun p => ({ Namespace := "", Name := p.Name } : Request))
      else []) ∧
    (∀ items, EvaluateFilters r.ExcludedNamespaces r.IncludedNamespaces ns.Name = true →
      w.ListPolicies = .ok items →
      (onNamespaceUpdated r w ns).length = items.length ∧
      ∀ (i : Nat) (h : i < items.length), (onNamespaceUpdated r w ns)[i]? =
        some { Namespace := "", Name := (items.get ⟨i, h⟩).Name }) ∧
    (∀ (labels : LabelMap) (phase : String) (selector : ClusterNetworkPolicy → LabelSelector),
      onNamespaceUpdated r
        { w with clusterNetworkPolicies := w.clusterNetworkPolicies.map (fun p =>
            { p with Spec := { p.Spec with NamespaceSelector := selector p } }) }
        { ns with Labels := labels, Phase := phase } =
      onNamespaceUpdated r w ns) := by
  refine ⟨?_, ?_, ?_⟩
  · unfold onNamespaceUpdated ObjectKeyFromObject
    cases EvaluateFilters r.ExcludedNamespaces r.IncludedNamespaces ns.Name
    · simp
    · simp only [Bool.true_eq_false, if_false, if_true]
  · intro items hs hl
    have : onNamespaceUpdated r w ns =
        items.map (fun p => ({ Namespace := "", Name := p.Name } : Request)) := by
      simp [onNamespaceUpdated, ObjectKeyFromObject, hs, hl]
    rw [this]
    refine ⟨by simp, fun i h => ?_⟩
    simp [List.getElem?_map, List.getElem?_eq_getElem h]
  · intro labels phase selector
    unfold onNamespaceUpdated World.ListPolicies ObjectKeyFromObject
    simp only
    cases EvaluateFilters r.ExcludedNamespaces r.IncludedNamespaces ns.Name
    · simp
    · cases w.faults.listPolicies <;> simp [Function.comp_def]

/-- C18 on `conflictWorld`: the in-scope namespace `ns1` maps to the one policy,
`kube-system` to nothing. -/
theorem C18_witness :
    onNamespaceUpdated defaultReconciler conflictWorld { Name := "ns1" } = [⟨"", "p"⟩] ∧
    onNamespaceUpdated defaultReconciler conflictWorld { Name := "kube-system" } = [] ∧
    onNamespaceUpdated defaultReconciler
      { conflictWorld with faults := { listPolicies := some (.Other "timeout") } }
      { Name := "ns1" } = [] :=
  ⟨by
    rw [(C18_onNamespaceUpdated_requests_every_policy defaultReconciler conflictWorld
      { Name := "ns1" }).1]
    decide,
   by decide, by decide⟩

/-- C19 (as stated) fails: the old object has the nil label map and the new
one the empty label map, so both hold the same labels (none), and the update
event is let through. -/
theorem C19_counterexample :
    SameLabels (LabelMap.table []) LabelMap.nil ∧
    (LabelMap.table []).len = LabelMap.nil.len ∧
    namespacePredicate.Update
      ⟨some { Name := "ns1", Labels := .nil }, some { Name := "ns1", Labels := .table [] }⟩ =
        true :=
  ⟨fun _ => rfl, rfl, by decide⟩

/-- C19 (amended): the namespace predicate lets an update event through if
and only if the old and the new object are both present and either exactly
one of the two label maps is nil or the two maps do not hold the same labels
(some key has a value in one and no value or another value in the other); an
update whose label maps hold the same labels and are both nil or both not nil
is rejected whatever else changed, in whatever order the labels are written;
and every delete event is rejected. -/
theorem C19_namespace_predicate (e : UpdateEvent) (d : DeleteEvent) :
    (namespacePredicate.Update e = true ↔
      ∃ old new, e.ObjectOld = some old ∧ e.ObjectNew = some new ∧
        (new.Labels.IsNil ≠ old.Labels.IsNil ∨ ¬ SameLabels new.Labels old.Labels)) ∧
    (∀ old new : Namespace, new.Labels.IsNil = old.Labels.IsNil →
      SameLabels new.Labels old.Labels →
        namespacePredicate.Update ⟨some old, some new⟩ = false) ∧
    namespacePredicate.Delete d = false := by
  have key : ∀ old new : Namespace,
      (!(DeepEqual new.GetLabels old.GetLabels)) = true ↔
        (new.Labels.IsNil ≠ old.Labels.IsNil ∨ ¬ SameLabels new.Labels old.Labels) := by
    intro old new
    have h := deepEqual_iff new.Labels old.Labels
    unfold Namespace.GetLabels
    cases hd : DeepEqual new.Labels old.Labels with
    | true =>
      have h2 := h.1 hd
      simp only [Bool.not_true, Bool.false_eq_true, false_iff, not_or, not_not, ne_eq]
      exact h2
    | false =>
      simp only [Bool.not_false, true_iff]
      by_contra hc
      rw [not_or, not_not, not_not] at hc
      rw [h.2 hc] at hd
      exact Bool.noConfusion hd
  refine ⟨?_, ?_, rfl⟩
  · unfold namespacePredicate.Update
    cases ho : e.ObjectOld with
    | none => simp
    | some old =>
      cases hn : e.ObjectNew with
      | none => simp
      | some new =>
        simp only [Option.some.injEq, exists_and_left, exists_eq_left']
        exact key old new
  · intro old new h1 h2
    unfold namespacePredicate.Update
    simp only
    have hk := key old new
    cases hd : (!(DeepEqual new.GetLabels old.GetLabels)) with
    | false => rfl
    | true =>
      rcases hk.1 hd with h | h
      · exact absurd h1 h
      · exact absurd h2 h

/-- C19 on concrete events: a changed label passes, so does a label map that
turns from nil to empty; a changed phase with the same labels does not pass,
nor do the same labels written in another order, nor an event without its old
object. -/
theorem C19_witness :
    namespacePredicate.Update
      ⟨some { Name := "ns1", Labels := .table [("create-networkpolicy", "true")] },
       some { Name := "ns1", Labels := .table [("create-networkpolicy", "false")] }⟩ = true ∧
    namespacePredicate.Update
      ⟨some { Name := "ns1", Labels := .nil }, some { Name := "ns1", Labels := .table [] }⟩ =
        true ∧
    namespacePredicate.Update
      ⟨some { Name := "ns1", Labels := .table [("a", "b")], Phase := "Active" },
       some { Name := "ns1", Labels := .table [("a", "b")], Phase := "Terminating" }⟩ = false ∧
    namespacePredicate.Update
      ⟨some { Name := "ns1", Labels := .table [("a", "1"), ("b", "2")] },
       some { Name := "ns1", Labels := .table [("b", "2"), ("a", "1")] }⟩ = false ∧
    namespacePredicate.Update ⟨none, some { Name := "ns1" }⟩ = false :=
  ⟨(C19_namespace_predicate
      ⟨some { Name := "ns1", Labels := .table [("create-networkpolicy", "true")] },
       some { Name := "ns1", Labels := .table [("create-networkpolicy", "false")] }⟩
      ⟨none, false⟩).1.2
      ⟨_, _, rfl, rfl, Or.inr (fun h => nomatch (h "create-networkpolicy"))⟩,
   by decide, by decide, by decide, by decide⟩

/-- C20: on a `Filters` value on which `Set` was never called (`flagSet`
false), whatever patterns it holds, the first `Set(v)` gives the lists, and the
error, of `Set(v)` on an empty `Filters`: the patterns it held are discarded
(so the built-in `kube-` prefix exclusion is gone after a first `Set` that
does not repeat it). A following `Set(w)` keeps the lists obtained from `v`
and appends to each the patterns `Set(w)` gives on an empty `Filters`. -/
theorem C20_first_set_replaces_later_sets_append (f : Filters) (v w : String)
    (hflag : f.flagSet = false) :
    (f.Set v = ({} : Filters).Set v) ∧
    ((f.Set v).1.Set w).1.Exact = (f.Set v).1.Exact ++ (({} : Filters).Set w).1.Exact ∧
    ((f.Set v).1.Set w).1.Prefix = (f.Set v).1.Prefix ++ (({} : Filters).Set w).1.Prefix ∧
    ((f.Set v).1.Set w).1.Suffix = (f.Set v).1.Suffix ++ (({} : Filters).Set w).1.Suffix ∧
    ((f.Set v).1.Set w).2 = (({} : Filters).Set w).2 ∧
    (({ Prefix := ["kube-"] } : Filters).Set "default").1.Prefix = [] ∧
    (({ Prefix := ["kube-"] } : Filters).Set "default, kube-*").1.Prefix = ["kube-"] := by
  have h1 : f.Set v = ({} : Filters).Set v := by
    rw [set_eq_setLoop, set_eq_setLoop, setBase_of_not_flagSet f hflag,
      setBase_of_not_flagSet {} rfl]
  obtain ⟨dE, dP, dS, err, hv⟩ := setLoop_delta (Split v ',')
  obtain ⟨eE, eP, eS, err2, hw⟩ := setLoop_delta (Split w ',')
  have hflag1 : (f.Set v).1.flagSet = true := by
    rw [set_eq_setLoop, hv, setBase_flagSet]
  have h2 : (f.Set v).1.Set w = Filters.setLoop (Split w ',') (f.Set v).1 := by
    rw [set_eq_setLoop, setBase_of_flagSet _ hflag1]
  have h3 : ({} : Filters).Set w =
      ({ Exact := eE, Prefix := eP, Suffix := eS, flagSet := true }, err2) := by
    rw [set_eq_setLoop, setBase_of_not_flagSet {} rfl, hw]
    simp
  refine ⟨h1, ?_, ?_, ?_, ?_, by decide, by decide⟩
  · rw [h2, hw, h3]
  · rw [h2, hw, h3]
  · rw [h2, hw, h3]
  · rw [h2, hw, h3]

/-- The hypothesis of C20 holds for the default excluded filter set of `main`. -/
theorem C20_witness :
    (({ Prefix := ["kube-"] } : Filters).Set "a,b*" = ({} : Filters).Set "a,b*") ∧
    ((({ Prefix := ["kube-"] } : Filters).Set "a,b*").1.Set "c,*d").1.Exact =
      (({ Prefix := ["kube-"] } : Filters).Set "a,b*").1.Exact ++
        (({} : Filters).Set "c,*d").1.Exact ∧
    ((({ Prefix := ["kube-"] } : Filters).Set "a,b*").1.Set "c,*d").1.Prefix =
      (({ Prefix := ["kube-"] } : Filters).Set "a,b*").1.Prefix ++
        (({} : Filters).Set "c,*d").1.Prefix ∧
    ((({ Prefix := ["kube-"] } : Filters).Set "a,b*").1.Set "c,*d").1.Suffix =
      (({ Prefix := ["kube-"] } : Filters).Set "a,b*").1.Suffix ++
        (({} : Filters).Set "c,*d").1.Suffix ∧
    ((({ Prefix := ["kube-"] } : Filters).Set "a,b*").1.Set "c,*d").2 =
      (({} : Filters).Set "c,*d").2 ∧
    (({ Prefix := ["kube-"] } : Filters).Set "default").1.Prefix = [] ∧
    (({ Prefix := ["kube-"] } : Filters).Set "default, kube-*").1.Prefix = ["kube-"] :=
  C20_first_set_replaces_later_sets_append { Prefix := ["kube-"] } "a,b*" "c,*d" rfl


/-! ## C21: rendering the filters and reading them back -/

/-- C21: for every filters value f obtained from an empty Filters by one or
more calls of Set that each returned no error, calling Set with f.String() on
a fresh empty Filters returns no error and yields Exact, Prefix and Suffix
lists equal to those of f, element for element and in the same order; and
String renders the exact patterns as they are, each prefix p as p followed by
`*`, each suffix s as `*` followed by s, in that order, with a comma and a
space between two neighbours. -/
theorem C21_string_set_round_trip (f : Filters) (h : FromSetCalls f) :
    (({} : Filters).Set f.String).2 = none ∧
    (({} : Filters).Set f.String).1.Exact = f.Exact ∧
    (({} : Filters).Set f.String).1.Prefix = f.Prefix ∧
    (({} : Filters).Set f.String).1.Suffix = f.Suffix ∧
    f.String.data = [',', ' '].intercalate
      ((f.Exact ++ f.Prefix.map (fun p => p ++ "*") ++
        f.Suffix.map (fun s => "*" ++ s)).map String.data) := by
  rw [set_string_of_wellFormed f (fromSetCalls_wellFormed f h)]
  exact ⟨rfl, rfl, rfl, rfl, join_intercalate ", " _⟩

/-- C21 at the value read from `foo, bar*` and then ` *baz ,, *`: it is
rendered as `foo, bar*, *, *baz` and read back to the same three lists. -/
theorem C21_witness :
    FromSetCalls sampleFilters ∧
    sampleFilters.String = "foo, bar*, *, *baz" ∧
    (({} : Filters).Set sampleFilters.String).2 = none ∧
    (({} : Filters).Set sampleFilters.String).1.Exact = ["foo"] ∧
    (({} : Filters).Set sampleFilters.String).1.Prefix = ["bar", ""] ∧
    (({} : Filters).Set sampleFilters.String).1.Suffix = ["baz"] :=
  have hs : FromSetCalls sampleFilters :=
    FromSetCalls.next _ " *baz ,, *" (FromSetCalls.first "foo, bar*" (by decide)) (by decide)
  have h := C21_string_set_round_trip sampleFilters hs
  ⟨hs, by decide, h.1, h.2.1.trans (by decide), h.2.2.1.trans (by decide),
    h.2.2.2.1.trans (by decide)⟩
end Controller
